import Mathlib

/-! The constant-pool cache entry of `src/share/vm/oops/cpCache.cpp`.

A shallow embedding of `ConstantPoolCacheEntry` (the product build: `assert`
is compiled out, `guarantee` and `ShouldNotReachHere` stop the VM).

Representation.
* A pointer (`Metadata*`, `Method*`, `Klass*`, `oop`) is its `intptr_t`
  value, an `Int`; `NULL` is `0`.  A cast between a pointer and `intptr_t`
  is therefore the identity.
* `_indices` and `_flags` are bit patterns, kept as `Nat`: the 32 bits that
  the accessors (`indices()` returns `int`, every flag accessor masks below
  bit 32) can observe.
* `_f2` is an `intx`, kept as `Int`; `f2_as_index` is the cast `(int) _f2`.
* A setter that can stop the VM, or index outside an array, returns `Option`.
* A setter whose name ends in `_checked` is the same code with the assertion
  of its bytecode stores ("update must be consistent", lines 65-69 and 75-79,
  present in a build with `ASSERT`) checked: it returns `none` when the
  assertion fails.
* A reader that runs while a writer stores: `..._stores` lists the entry
  before a setter and after each of its stores in program order, and
  `method_if_resolved_loads` is `method_if_resolved` with every load reading
  the entry as it is at that moment.  Each store and each load is one step of
  the interleaving; orderings weaker than that are not modelled.
-/

namespace Bytecodes

/-- Modelled from the spec: `Bytecodes::_getstatic` of bytecodes.hpp, the
opcode `getstatic` of the class-file format. -/
def _getstatic : Nat := 178
/-- Modelled from the spec: `Bytecodes::_putstatic` of bytecodes.hpp, the
opcode `putstatic` of the class-file format. -/
def _putstatic : Nat := 179
/-- Modelled from the spec: `Bytecodes::_getfield` of bytecodes.hpp, the
opcode `getfield` of the class-file format. -/
def _getfield : Nat := 180
/-- Modelled from the spec: `Bytecodes::_putfield` of bytecodes.hpp, the
opcode `putfield` of the class-file format. -/
def _putfield : Nat := 181
/-- Modelled from the spec: `Bytecodes::_invokevirtual` of bytecodes.hpp, the
opcode `invokevirtual` of the class-file format. -/
def _invokevirtual : Nat := 182
/-- Modelled from the spec: `Bytecodes::_invokespecial` of bytecodes.hpp, the
opcode `invokespecial` of the class-file format. -/
def _invokespecial : Nat := 183
/-- Modelled from the spec: `Bytecodes::_invokestatic` of bytecodes.hpp, the
opcode `invokestatic` of the class-file format. -/
def _invokestatic : Nat := 184
/-- Modelled from the spec: `Bytecodes::_invokeinterface` of bytecodes.hpp, the
opcode `invokeinterface` of the class-file format. -/
def _invokeinterface : Nat := 185
/-- Modelled from the spec: `Bytecodes::_invokedynamic` of bytecodes.hpp, the
opcode `invokedynamic` of the class-file format. -/
def _invokedynamic : Nat := 186

end Bytecodes

/-- The constants of the class declaration in `cpCache.hpp` and of
`bytecodes.hpp` that `cpCache.cpp` uses and that are not part of the source
tree at hand: the positions of the option bits in `_flags`, the width of the
field-index field, the VM-internal opcode `_invokehandle`, and whether the
flags word is stored with a compare-and-swap from zero (`init_flags_atomic`)
or with a plain store.  They are parameters of the embedding. -/
structure Header where
  /-- Bit position of the flag "the call resolved to a final method". -/
  is_vfinal_shift : Nat
  /-- Bit position of the flag "the field is volatile". -/
  is_volatile_shift : Nat
  /-- Bit position of the flag "the field or method is final". -/
  is_final_shift : Nat
  /-- Bit position of the flag "the interface reference is forced to virtual". -/
  is_forced_virtual_shift : Nat
  /-- Bit position of the flag "the call site has an appendix argument". -/
  has_appendix_shift : Nat
  /-- Bit position of the flag "this is a field entry". -/
  is_field_entry_shift : Nat
  /-- Width of the low field that holds a field index. -/
  field_index_bits : Nat
  /-- The opcode `Bytecodes::_invokehandle`. -/
  _invokehandle : Nat
  /-- Whether `set_flags` is a compare-and-swap from zero. -/
  flags_cas : Bool
deriving DecidableEq, Repr

namespace Header

/-- The option bits of a header, in declaration order. -/
def option_shifts (H : Header) : List Nat :=
  [H.is_vfinal_shift, H.is_volatile_shift, H.is_final_shift,
   H.is_forced_virtual_shift, H.has_appendix_shift, H.is_field_entry_shift]

/-- A header is well formed when the option bits are distinct and lie
between the low field (which contains the 8-bit parameter size) and the four
type-of-stack bits at the top of the 32-bit word, and `_invokehandle` is a
VM-internal opcode: a byte above the opcodes of the class-file format. -/
def Valid (H : Header) : Prop :=
  8 ≤ H.field_index_bits ∧
  (∀ s ∈ H.option_shifts, H.field_index_bits ≤ s ∧ s < 28) ∧
  H.option_shifts.Nodup ∧
  202 < H._invokehandle ∧ H._invokehandle < 256

instance (H : Header) : Decidable H.Valid := by
  unfold Valid; infer_instance

end Header

/-- A pointer, as its `intptr_t` value; `0` is `NULL`. -/
abbrev Ptr := Int

/-- What `set_method` and its siblings read from a `methodHandle`. -/
structure Method where
  /-- The address `method()` of the `Method`. -/
  addr : Ptr
  /-- Value of `as_TosState(method->result_type())`. -/
  result_tos : Nat
  /-- Value of `method->can_be_statically_bound()`. -/
  can_be_statically_bound : Bool
  /-- Value of `method->is_final_method()`. -/
  is_final_method : Bool
  /-- Value of `method->is_public()`. -/
  is_public : Bool
  /-- Value of `method->size_of_parameters()`. -/
  size_of_parameters : Nat
  /-- Value of `method->method_holder()`. -/
  method_holder : Ptr
deriving DecidableEq, Repr

/-- The four words of a `ConstantPoolCacheEntry`. -/
structure ConstantPoolCacheEntry where
  /-- Word `_indices`: constant-pool index and the two bytecodes. -/
  _indices : Nat
  /-- Word `_f1`: a `Metadata*`. -/
  _f1 : Ptr
  /-- Word `_f2`: an `intx`. -/
  _f2 : Int
  /-- Word `_flags`. -/
  _flags : Nat
deriving DecidableEq, Repr

/-- An `objArrayOop`: a sequence of object pointers. -/
abbrev objArray := List Ptr

/-- Element `i` of an object array; `none` when `i` is not an index of it. -/
def objArray.obj_at (a : objArray) (i : Int) : Option Ptr :=
  if 0 ≤ i then a.get? i.toNat else none

/-- Store into element `i` of an object array; `none` when `i` is not an
index of it. -/
def objArray.obj_at_put (a : objArray) (i : Int) (v : Ptr) : Option objArray :=
  if 0 ≤ i ∧ i.toNat < a.length then some (a.set i.toNat v) else none

/-- The part of a `ConstantPool` that the decoders read. -/
structure ConstantPool where
  /-- Function `uncached_klass_ref_index_at`. -/
  uncached_klass_ref_index_at : Nat → Int
  /-- Function `tag_at(i).is_klass()`. -/
  tag_is_klass : Int → Bool
  /-- Function `resolved_klass_at`. -/
  resolved_klass_at : Int → Ptr
  /-- Array `resolved_references()`. -/
  resolved_references : objArray

/-- The class and method metadata outside the cache that the entry reads
through a pointer. -/
structure Universe where
  /-- Function `Klass::oop_is_instance` of the class at an address. -/
  oop_is_instance : Ptr → Bool
  /-- Value of `SystemDictionary::Object_klass()`. -/
  Object_klass : Ptr
  /-- Function `InstanceKlass::method_at_vtable` of the class at an address. -/
  method_at_vtable : Ptr → Int → Ptr
  /-- Function `klassItable::method_for_itable_index`. -/
  method_for_itable_index : Ptr → Int → Ptr
  /-- Function `Metadata::is_valid` of the metadata at an address. -/
  is_valid : Ptr → Bool
  /-- Function `Metadata::is_method` of the metadata at an address. -/
  is_method : Ptr → Bool
  /-- Function `Method::method_holder` of the method at an address. -/
  method_holder : Ptr → Ptr
  /-- Function `Method::is_old` of the method at an address. -/
  is_old : Ptr → Bool

/-- The cast `(int) x` of an `intx`: the low 32 bits, read as signed. -/
def to_int (x : Int) : Int := (x + 2 ^ 31) % 2 ^ 32 - 2 ^ 31

/-- The values of the C type `int`. -/
def is_int (x : Int) : Prop := -(2 ^ 31) ≤ x ∧ x < 2 ^ 31

instance (x : Int) : Decidable (is_int x) := by
  unfold is_int; infer_instance

namespace ConstantPoolCacheEntry

/-- Modelled from the spec: enum constant `cp_index_bits` of cpCache.hpp,
the width of the constant-pool index in `_indices` (bit packings). -/
def cp_index_bits : Nat := 16
/-- Modelled from the spec: enum constant `cp_index_mask` of cpCache.hpp. -/
def cp_index_mask : Nat := 2 ^ cp_index_bits - 1
/-- Modelled from the spec: enum constant `bytecode_1_shift` of cpCache.hpp,
the position of `bytecode_1` in `_indices`. -/
def bytecode_1_shift : Nat := cp_index_bits
/-- Modelled from the spec: enum constant `bytecode_1_mask` of cpCache.hpp,
an 8-bit mask. -/
def bytecode_1_mask : Nat := 2 ^ 8 - 1
/-- Modelled from the spec: enum constant `bytecode_2_shift` of cpCache.hpp,
the position of `bytecode_2` in `_indices`. -/
def bytecode_2_shift : Nat := cp_index_bits + 8
/-- Modelled from the spec: enum constant `bytecode_2_mask` of cpCache.hpp,
an 8-bit mask. -/
def bytecode_2_mask : Nat := 2 ^ 8 - 1
/-- Modelled from the spec: enum constant `tos_state_bits` of cpCache.hpp,
the width of the type-of-stack field at the top of the flags. -/
def tos_state_bits : Nat := 4
/-- Modelled from the spec: enum constant `tos_state_mask` of cpCache.hpp. -/
def tos_state_mask : Nat := 2 ^ tos_state_bits - 1
/-- Modelled from the spec: enum constant `tos_state_shift` of cpCache.hpp,
the position of the type-of-stack field at the top of a 32-bit `int`. -/
def tos_state_shift : Nat := 32 - tos_state_bits
/-- Modelled from the spec: enum constant `parameter_size_bits` of
cpCache.hpp; a parameter size is at most 255. -/
def parameter_size_bits : Nat := 8
/-- Modelled from the spec: enum constant `parameter_size_mask` of
cpCache.hpp. -/
def parameter_size_mask : Nat := 2 ^ parameter_size_bits - 1
/-- Modelled from the spec: enum constant `field_index_mask` of cpCache.hpp,
the mask of the low field that holds a field index. -/
def field_index_mask (H : Header) : Nat := 2 ^ H.field_index_bits - 1

/-- An entry as `allocate` leaves it: all words zero. -/
def zero : ConstantPoolCacheEntry := ⟨0, 0, 0, 0⟩

/-- Modelled from the spec: accessor `constant_pool_index` of cpCache.hpp,
the low 16 bits of `_indices`. -/
def constant_pool_index (e : ConstantPoolCacheEntry) : Nat :=
  e._indices &&& cp_index_mask

/-- Modelled from the spec: accessor `bytecode_1` of cpCache.hpp, the middle
8 bits of `_indices`. -/
def bytecode_1 (e : ConstantPoolCacheEntry) : Nat :=
  (e._indices >>> bytecode_1_shift) &&& bytecode_1_mask

/-- Modelled from the spec: accessor `bytecode_2` of cpCache.hpp, the high
8 bits of `_indices`. -/
def bytecode_2 (e : ConstantPoolCacheEntry) : Nat :=
  (e._indices >>> bytecode_2_shift) &&& bytecode_2_mask

/-- Modelled from the spec: accessor `is_f1_null` of cpCache.hpp. -/
def is_f1_null (e : ConstantPoolCacheEntry) : Bool := e._f1 == 0

/-- Modelled from the spec: accessor `f2_as_index` of cpCache.hpp, `_f2`
read as an `int` index. -/
def f2_as_index (e : ConstantPoolCacheEntry) : Int := to_int e._f2

/-- Modelled from the spec: accessor `f2_as_vfinal_method` of cpCache.hpp,
`_f2` read as a method pointer. -/
def f2_as_vfinal_method (e : ConstantPoolCacheEntry) : Ptr := e._f2

/-- Modelled from the spec: accessor `flag_state` of cpCache.hpp, the
type-of-stack code in the top four bits of the flags. -/
def flag_state (e : ConstantPoolCacheEntry) : Nat :=
  (e._flags >>> tos_state_shift) &&& tos_state_mask

/-- Modelled from the spec: accessor `parameter_size` of cpCache.hpp. -/
def parameter_size (e : ConstantPoolCacheEntry) : Nat :=
  e._flags &&& parameter_size_mask

/-- Modelled from the spec: accessor `field_index` of cpCache.hpp. -/
def field_index (H : Header) (e : ConstantPoolCacheEntry) : Nat :=
  e._flags &&& field_index_mask H

/-- Modelled from the spec: accessor `is_vfinal` of cpCache.hpp. -/
def is_vfinal (H : Header) (e : ConstantPoolCacheEntry) : Bool :=
  e._flags &&& (1 <<< H.is_vfinal_shift) != 0

/-- Modelled from the spec: accessor `is_volatile` of cpCache.hpp. -/
def is_volatile (H : Header) (e : ConstantPoolCacheEntry) : Bool :=
  e._flags &&& (1 <<< H.is_volatile_shift) != 0

/-- Modelled from the spec: accessor `is_final` of cpCache.hpp. -/
def is_final (H : Header) (e : ConstantPoolCacheEntry) : Bool :=
  e._flags &&& (1 <<< H.is_final_shift) != 0

/-- Modelled from the spec: accessor `is_forced_virtual` of cpCache.hpp. -/
def is_forced_virtual (H : Header) (e : ConstantPoolCacheEntry) : Bool :=
  e._flags &&& (1 <<< H.is_forced_virtual_shift) != 0

/-- Modelled from the spec: accessor `has_appendix` of cpCache.hpp. -/
def has_appendix (H : Header) (e : ConstantPoolCacheEntry) : Bool :=
  e._flags &&& (1 <<< H.has_appendix_shift) != 0

/-- Modelled from the spec: accessor `is_field_entry` of cpCache.hpp. -/
def is_field_entry (H : Header) (e : ConstantPoolCacheEntry) : Bool :=
  e._flags &&& (1 <<< H.is_field_entry_shift) != 0

/-- Modelled from the spec: accessor `is_method_entry` of cpCache.hpp. -/
def is_method_entry (H : Header) (e : ConstantPoolCacheEntry) : Bool :=
  e._flags &&& (1 <<< H.is_field_entry_shift) == 0

/-- Modelled from the spec: setter `set_f1` of cpCache.hpp, a plain store. -/
def set_f1 (e : ConstantPoolCacheEntry) (f1 : Ptr) : ConstantPoolCacheEntry :=
  { e with _f1 := f1 }

/-- Modelled from the spec: setter `set_f2` of cpCache.hpp, a plain store. -/
def set_f2 (e : ConstantPoolCacheEntry) (f2 : Int) : ConstantPoolCacheEntry :=
  { e with _f2 := f2 }

/-- Modelled from the spec: setter `set_f2_as_vfinal_method` of cpCache.hpp,
a plain store of the method pointer. -/
def set_f2_as_vfinal_method (e : ConstantPoolCacheEntry) (f2 : Ptr) :
    ConstantPoolCacheEntry :=
  { e with _f2 := f2 }

/-- Modelled from the spec: setter `initialize_resolved_reference_index` of
cpCache.hpp, which records the resolved-references index in `_f2`. -/
def initialize_resolved_reference_index (e : ConstantPoolCacheEntry)
    (ref_index : Int) : ConstantPoolCacheEntry :=
  { e with _f2 := ref_index }

/-- Source lines 43-47. -/
def initialize_entry (e : ConstantPoolCacheEntry) (index : Nat) :
    ConstantPoolCacheEntry :=
  { e with _indices := index }

/-- Source lines 49-62: the new flag bits OR-ed into the current word; the
result is an `int`. -/
def make_flags (e : ConstantPoolCacheEntry) (state option_bits
    field_index_or_method_params : Nat) : Nat :=
  let f := (state <<< tos_state_shift) ||| option_bits |||
    field_index_or_method_params
  (e._flags ||| f) % 2 ^ 32

/-- Source lines 64-72. -/
def set_bytecode_1 (e : ConstantPoolCacheEntry) (code : Nat) :
    ConstantPoolCacheEntry :=
  { e with _indices := e._indices ||| ((code % 256) <<< bytecode_1_shift) }

/-- Source lines 74-82. -/
def set_bytecode_2 (e : ConstantPoolCacheEntry) (code : Nat) :
    ConstantPoolCacheEntry :=
  { e with _indices := e._indices ||| ((code % 256) <<< bytecode_2_shift) }

/-- Source lines 85-88. -/
def release_set_f1 (e : ConstantPoolCacheEntry) (f1 : Ptr) :
    ConstantPoolCacheEntry :=
  { e with _f1 := f1 }

/-- Source lines 91-94: the entry afterwards and whether the swap happened. -/
def init_flags_atomic (e : ConstantPoolCacheEntry) (flags : Nat) :
    ConstantPoolCacheEntry × Bool :=
  if e._flags = 0 then ({ e with _flags := flags }, true) else (e, false)

/-- Modelled from the spec: setter `set_flags` of cpCache.hpp.  The spec
describes the write of the flags as a compare-and-swap from zero; the header
parameter `flags_cas` selects that, or a plain store of the word. -/
def set_flags (H : Header) (e : ConstantPoolCacheEntry) (flags : Nat) :
    ConstantPoolCacheEntry :=
  if H.flags_cas then (init_flags_atomic e flags).1 else { e with _flags := flags }

/-- Modelled from the spec: setter `set_field_flags` of cpCache.hpp, which
packs type, option bits and field index with `make_flags` and writes the
flags.  It also sets the bit that tells a field entry from a method entry,
the bit `is_method_entry` (called at source line 456) tests. -/
def set_field_flags (H : Header) (e : ConstantPoolCacheEntry)
    (field_type option_bits field_index : Nat) : ConstantPoolCacheEntry :=
  set_flags H e
    (make_flags e field_type (option_bits ||| (1 <<< H.is_field_entry_shift))
      field_index)

/-- Modelled from the spec: setter `set_method_flags` of cpCache.hpp, which
packs return type, option bits and parameter size with `make_flags` and
writes the flags. -/
def set_method_flags (H : Header) (e : ConstantPoolCacheEntry)
    (return_type option_bits method_params : Nat) : ConstantPoolCacheEntry :=
  set_flags H e (make_flags e return_type option_bits method_params)

/-- Source lines 101-121.  The parameter `root_klass` is not used by the
body. -/
def set_field (H : Header) (e : ConstantPoolCacheEntry)
    (get_code put_code : Nat) (field_holder : Ptr) (field_index : Nat)
    (field_offset : Int) (field_type : Nat) (is_final is_volatile : Bool) :
    ConstantPoolCacheEntry :=
  let e := set_f1 e field_holder
  let e := set_f2 e field_offset
  let e := set_field_flags H e field_type
    (((if is_volatile then 1 else 0) <<< H.is_volatile_shift) |||
     ((if is_final then 1 else 0) <<< H.is_final_shift))
    field_index
  let e := set_bytecode_1 e get_code
  set_bytecode_2 e put_code

/-- Source lines 123-138: `none` when the final `guarantee` fails. -/
def set_parameter_size (e : ConstantPoolCacheEntry) (value : Int) :
    Option ConstantPoolCacheEntry :=
  let e := if e._flags = 0 then
      { e with _flags := (value % 2 ^ parameter_size_bits).toNat }
    else e
  if (parameter_size e : Int) = value then some e else none

/-- Source lines 140-230: `none` when `ShouldNotReachHere` is reached. -/
def set_method (H : Header) (e : ConstantPoolCacheEntry) (invoke_code : Nat)
    (method : Method) (vtable_index : Int) : Option ConstantPoolCacheEntry :=
  if invoke_code = Bytecodes._invokeinterface ∨
      invoke_code = Bytecodes._invokevirtual then
    let change_to_virtual : Bool := invoke_code = Bytecodes._invokeinterface
    let e :=
      if method.can_be_statically_bound then
        let e := set_method_flags H e method.result_tos
          ((1 <<< H.is_vfinal_shift) |||
           ((if method.is_final_method then 1 else 0) <<< H.is_final_shift) |||
           ((if change_to_virtual then 1 else 0) <<< H.is_forced_virtual_shift))
          method.size_of_parameters
        set_f2_as_vfinal_method e method.addr
      else
        let e := set_method_flags H e method.result_tos
          ((if change_to_virtual then 1 else 0) <<< H.is_forced_virtual_shift)
          method.size_of_parameters
        set_f2 e vtable_index
    let e :=
      if change_to_virtual then
        if method.is_public then set_bytecode_1 e invoke_code else e
      else e
    some (set_bytecode_2 e Bytecodes._invokevirtual)
  else if invoke_code = Bytecodes._invokespecial ∨
      invoke_code = Bytecodes._invokestatic then
    let e := set_method_flags H e method.result_tos
      (((if is_vfinal H e then 1 else 0) <<< H.is_vfinal_shift) |||
       ((if method.is_final_method then 1 else 0) <<< H.is_final_shift))
      method.size_of_parameters
    let e := set_f1 e method.addr
    some (set_bytecode_1 e invoke_code)
  else none

/-- Source lines 233-243. -/
def set_interface_call (H : Header) (e : ConstantPoolCacheEntry)
    (method : Method) (index : Int) : ConstantPoolCacheEntry :=
  let interf := method.method_holder
  let e := set_f1 e interf
  let e := set_f2 e index
  let e := set_method_flags H e method.result_tos 0 method.size_of_parameters
  set_bytecode_1 e Bytecodes._invokeinterface

/-- Source lines 258-329, run by the thread that holds the lock of the
constant pool: the entry and the resolved-references array afterwards;
`none` when the appendix store is outside the array. -/
def set_method_handle_common (H : Header) (e : ConstantPoolCacheEntry)
    (invoke_code : Nat) (adapter : Method) (appendix : Ptr)
    (resolved_references : objArray) :
    Option (ConstantPoolCacheEntry × objArray) :=
  if !is_f1_null e then some (e, resolved_references)
  else
    let has_appendix : Bool := appendix != 0
    let e := set_method_flags H e adapter.result_tos
      (((if has_appendix then 1 else 0) <<< H.has_appendix_shift) |||
       (1 <<< H.is_final_shift))
      adapter.size_of_parameters
    let stored : Option objArray :=
      if has_appendix then
        let ref_index := f2_as_index e
        resolved_references.obj_at_put ref_index appendix
      else some resolved_references
    match stored with
    | none => none
    | some refs =>
      let e := release_set_f1 e adapter.addr
      some (set_bytecode_1 e invoke_code, refs)

/-- Source lines 246-250. -/
def set_method_handle (H : Header) (e : ConstantPoolCacheEntry)
    (adapter : Method) (appendix : Ptr) (resolved_references : objArray) :
    Option (ConstantPoolCacheEntry × objArray) :=
  set_method_handle_common H e H._invokehandle adapter appendix
    resolved_references

/-- Source lines 252-256. -/
def set_dynamic_call (H : Header) (e : ConstantPoolCacheEntry)
    (adapter : Method) (appendix : Ptr) (resolved_references : objArray) :
    Option (ConstantPoolCacheEntry × objArray) :=
  set_method_handle_common H e Bytecodes._invokedynamic adapter appendix
    resolved_references

/-- Source lines 64-72 in a build with `ASSERT`: `none` when the assertion
"update must be consistent" of lines 65-69 fails. -/
def set_bytecode_1_checked (e : ConstantPoolCacheEntry) (code : Nat) :
    Option ConstantPoolCacheEntry :=
  let c := bytecode_1 e
  if c = 0 ∨ c = code ∨ code = 0 then some (set_bytecode_1 e code) else none

/-- Source lines 74-82 in a build with `ASSERT`: `none` when the assertion
"update must be consistent" of lines 75-79 fails. -/
def set_bytecode_2_checked (e : ConstantPoolCacheEntry) (code : Nat) :
    Option ConstantPoolCacheEntry :=
  let c := bytecode_2 e
  if c = 0 ∨ c = code ∨ code = 0 then some (set_bytecode_2 e code) else none

/-- Source lines 101-121 with the two bytecode stores as in a build with
`ASSERT`: `none` when the assertion of one of them fails. -/
def set_field_checked (H : Header) (e : ConstantPoolCacheEntry)
    (get_code put_code : Nat) (field_holder : Ptr) (field_index : Nat)
    (field_offset : Int) (field_type : Nat) (is_final is_volatile : Bool) :
    Option ConstantPoolCacheEntry :=
  let e := set_f1 e field_holder
  let e := set_f2 e field_offset
  let e := set_field_flags H e field_type
    (((if is_volatile then 1 else 0) <<< H.is_volatile_shift) |||
     ((if is_final then 1 else 0) <<< H.is_final_shift))
    field_index
  match set_bytecode_1_checked e get_code with
  | none => none
  | some e => set_bytecode_2_checked e put_code

/-- Source lines 140-230 with the bytecode stores as in a build with
`ASSERT`: `none` when `ShouldNotReachHere` is reached or the assertion of a
bytecode store fails. -/
def set_method_checked (H : Header) (e : ConstantPoolCacheEntry)
    (invoke_code : Nat) (method : Method) (vtable_index : Int) :
    Option ConstantPoolCacheEntry :=
  if invoke_code = Bytecodes._invokeinterface ∨
      invoke_code = Bytecodes._invokevirtual then
    let change_to_virtual : Bool := invoke_code = Bytecodes._invokeinterface
    let e :=
      if method.can_be_statically_bound then
        let e := set_method_flags H e method.result_tos
          ((1 <<< H.is_vfinal_shift) |||
           ((if method.is_final_method then 1 else 0) <<< H.is_final_shift) |||
           ((if change_to_virtual then 1 else 0) <<< H.is_forced_virtual_shift))
          method.size_of_parameters
        set_f2_as_vfinal_method e method.addr
      else
        let e := set_method_flags H e method.result_tos
          ((if change_to_virtual then 1 else 0) <<< H.is_forced_virtual_shift)
          method.size_of_parameters
        set_f2 e vtable_index
    let first : Option ConstantPoolCacheEntry :=
      if change_to_virtual then
        if method.is_public then set_bytecode_1_checked e invoke_code else some e
      else some e
    match first with
    | none => none
    | some e => set_bytecode_2_checked e Bytecodes._invokevirtual
  else if invoke_code = Bytecodes._invokespecial ∨
      invoke_code = Bytecodes._invokestatic then
    let e := set_method_flags H e method.result_tos
      (((if is_vfinal H e then 1 else 0) <<< H.is_vfinal_shift) |||
       ((if method.is_final_method then 1 else 0) <<< H.is_final_shift))
      method.size_of_parameters
    let e := set_f1 e method.addr
    set_bytecode_1_checked e invoke_code
  else none

/-- Source lines 233-243 with the bytecode store as in a build with
`ASSERT`: `none` when its assertion fails. -/
def set_interface_call_checked (H : Header) (e : ConstantPoolCacheEntry)
    (method : Method) (index : Int) : Option ConstantPoolCacheEntry :=
  let interf := method.method_holder
  let e := set_f1 e interf
  let e := set_f2 e index
  let e := set_method_flags H e method.result_tos 0 method.size_of_parameters
  set_bytecode_1_checked e Bytecodes._invokeinterface

/-- Source lines 258-329 with the bytecode store as in a build with
`ASSERT`: `none` when the appendix store is outside the array or the
assertion of the bytecode store fails. -/
def set_method_handle_common_checked (H : Header) (e : ConstantPoolCacheEntry)
    (invoke_code : Nat) (adapter : Method) (appendix : Ptr)
    (resolved_references : objArray) :
    Option (ConstantPoolCacheEntry × objArray) :=
  if !is_f1_null e then some (e, resolved_references)
  else
    let has_appendix : Bool := appendix != 0
    let e := set_method_flags H e adapter.result_tos
      (((if has_appendix then 1 else 0) <<< H.has_appendix_shift) |||
       (1 <<< H.is_final_shift))
      adapter.size_of_parameters
    let stored : Option objArray :=
      if has_appendix then
        let ref_index := f2_as_index e
        resolved_references.obj_at_put ref_index appendix
      else some resolved_references
    match stored with
    | none => none
    | some refs =>
      let e := release_set_f1 e adapter.addr
      match set_bytecode_1_checked e invoke_code with
      | none => none
      | some e => some (e, refs)

/-- Source lines 331-373; the result `0` is `NULL`. -/
def method_if_resolved (H : Header) (U : Universe) (cpool : ConstantPool)
    (e : ConstantPoolCacheEntry) : Ptr :=
  let invoke_code := bytecode_1 e
  let first : Option Ptr :=
    if invoke_code ≠ 0 then
      let f1 := e._f1
      if f1 ≠ 0 then
        if invoke_code = Bytecodes._invokeinterface then
          some (U.method_for_itable_index f1 (f2_as_index e))
        else if invoke_code = Bytecodes._invokestatic ∨
            invoke_code = Bytecodes._invokespecial ∨
            invoke_code = H._invokehandle ∨
            invoke_code = Bytecodes._invokedynamic then
          some f1
        else none
      else none
    else none
  match first with
  | some m => m
  | none =>
    let invoke_code := bytecode_2 e
    if invoke_code ≠ 0 then
      if invoke_code = Bytecodes._invokevirtual then
        if is_vfinal H e then f2_as_vfinal_method e
        else
          let holder_index :=
            cpool.uncached_klass_ref_index_at (constant_pool_index e)
          if cpool.tag_is_klass holder_index then
            let klass := cpool.resolved_klass_at holder_index
            let klass := if !U.oop_is_instance klass then U.Object_klass else klass
            U.method_at_vtable klass (f2_as_index e)
          else 0
      else 0
    else 0

/-- Source lines 376-382: `some 0` is `NULL`; `none` when the index read
from `_f2` is outside the resolved-references array. -/
def appendix_if_resolved (H : Header) (cpool : ConstantPool)
    (e : ConstantPoolCacheEntry) : Option Ptr :=
  if is_f1_null e || !has_appendix H e then some 0
  else
    let ref_index := f2_as_index e
    cpool.resolved_references.obj_at ref_index

/-- Source lines 388-442, without the tracing: the result and the entry
afterwards. -/
def adjust_method_entry (H : Header) (e : ConstantPoolCacheEntry)
    (old_method new_method : Ptr) : Bool × ConstantPoolCacheEntry :=
  if is_vfinal H e then
    if f2_as_vfinal_method e = old_method then
      (true, { e with _f2 := new_method })
    else (false, e)
  else if e._f1 = 0 then (false, e)
  else if e._f1 = old_method then (true, { e with _f1 := new_method })
  else (false, e)

/-- Modelled from the spec: accessor `f1_as_method` of cpCache.hpp, `_f1`
read as a method pointer. -/
def f1_as_method (e : ConstantPoolCacheEntry) : Ptr := e._f1

/-- Source lines 445-452 (not in product builds). -/
def check_no_old_entries (H : Header) (U : Universe)
    (e : ConstantPoolCacheEntry) : Bool :=
  if is_vfinal H e then
    let f2 : Ptr := e._f2
    U.is_valid f2 && U.is_method f2 && !U.is_old f2
  else
    e._f1 == 0 || (U.is_valid e._f1 && U.is_method e._f1 && !U.is_old e._f1)

/-- Source lines 455-485; the class `k` is `0` for `NULL`. -/
def is_interesting_method_entry (H : Header) (U : Universe)
    (e : ConstantPoolCacheEntry) (k : Ptr) : Bool :=
  if !is_method_entry H e then false
  else
    let m : Option Ptr :=
      if is_vfinal H e then some (f2_as_vfinal_method e)
      else if is_f1_null e then none
      else if !U.is_method e._f1 then none
      else some (f1_as_method e)
    match m with
    | none => false
    | some m =>
      if m == 0 || !U.is_method m || (k != 0 && U.method_holder m != k) then false
      else true

/-- Source lines 331-373, load by load, for a call that runs while another
thread stores into the entry: `view i` is the entry as load `i` of the call
finds it.  The loads are, in program order: 0 `bytecode_1()`, 1 `_f1`,
2 `f2_as_index()` of the itable case, 3 `bytecode_2()`, 4 `is_vfinal()`,
5 `f2_as_vfinal_method()`, 6 `constant_pool_index()`, 7 `f2_as_index()` of
the vtable case. -/
def method_if_resolved_loads (H : Header) (U : Universe) (cpool : ConstantPool)
    (view : Nat → ConstantPoolCacheEntry) : Ptr :=
  let invoke_code := bytecode_1 (view 0)
  let first : Option Ptr :=
    if invoke_code ≠ 0 then
      let f1 := (view 1)._f1
      if f1 ≠ 0 then
        if invoke_code = Bytecodes._invokeinterface then
          some (U.method_for_itable_index f1 (f2_as_index (view 2)))
        else if invoke_code = Bytecodes._invokestatic ∨
            invoke_code = Bytecodes._invokespecial ∨
            invoke_code = H._invokehandle ∨
            invoke_code = Bytecodes._invokedynamic then
          some f1
        else none
      else none
    else none
  match first with
  | some m => m
  | none =>
    let invoke_code := bytecode_2 (view 3)
    if invoke_code ≠ 0 then
      if invoke_code = Bytecodes._invokevirtual then
        if is_vfinal H (view 4) then f2_as_vfinal_method (view 5)
        else
          let holder_index :=
            cpool.uncached_klass_ref_index_at (constant_pool_index (view 6))
          if cpool.tag_is_klass holder_index then
            let klass := cpool.resolved_klass_at holder_index
            let klass := if !U.oop_is_instance klass then U.Object_klass else klass
            U.method_at_vtable klass (f2_as_index (view 7))
          else 0
      else 0
    else 0

/-- Source lines 101-121, store by store: the entry before the call and
after each of its stores, in program order. -/
def set_field_stores (H : Header) (e : ConstantPoolCacheEntry)
    (get_code put_code : Nat) (field_holder : Ptr) (field_index : Nat)
    (field_offset : Int) (field_type : Nat) (is_final is_volatile : Bool) :
    List ConstantPoolCacheEntry :=
  let e1 := set_f1 e field_holder
  let e2 := set_f2 e1 field_offset
  let e3 := set_field_flags H e2 field_type
    (((if is_volatile then 1 else 0) <<< H.is_volatile_shift) |||
     ((if is_final then 1 else 0) <<< H.is_final_shift))
    field_index
  let e4 := set_bytecode_1 e3 get_code
  let e5 := set_bytecode_2 e4 put_code
  [e, e1, e2, e3, e4, e5]

/-- Source lines 140-230, store by store: the entry before the call and
after each of its stores, in program order; `none` when
`ShouldNotReachHere` is reached. -/
def set_method_stores (H : Header) (e : ConstantPoolCacheEntry)
    (invoke_code : Nat) (method : Method) (vtable_index : Int) :
    Option (List ConstantPoolCacheEntry) :=
  if invoke_code = Bytecodes._invokeinterface ∨
      invoke_code = Bytecodes._invokevirtual then
    let change_to_virtual : Bool := invoke_code = Bytecodes._invokeinterface
    let e1 :=
      if method.can_be_statically_bound then
        set_method_flags H e method.result_tos
          ((1 <<< H.is_vfinal_shift) |||
           ((if method.is_final_method then 1 else 0) <<< H.is_final_shift) |||
           ((if change_to_virtual then 1 else 0) <<< H.is_forced_virtual_shift))
          method.size_of_parameters
      else
        set_method_flags H e method.result_tos
          ((if change_to_virtual then 1 else 0) <<< H.is_forced_virtual_shift)
          method.size_of_parameters
    let e2 :=
      if method.can_be_statically_bound then set_f2_as_vfinal_method e1 method.addr
      else set_f2 e1 vtable_index
    if change_to_virtual && method.is_public then
      let e3 := set_bytecode_1 e2 invoke_code
      some [e, e1, e2, e3, set_bytecode_2 e3 Bytecodes._invokevirtual]
    else
      some [e, e1, e2, set_bytecode_2 e2 Bytecodes._invokevirtual]
  else if invoke_code = Bytecodes._invokespecial ∨
      invoke_code = Bytecodes._invokestatic then
    let e1 := set_method_flags H e method.result_tos
      (((if is_vfinal H e then 1 else 0) <<< H.is_vfinal_shift) |||
       ((if method.is_final_method then 1 else 0) <<< H.is_final_shift))
      method.size_of_parameters
    let e2 := set_f1 e1 method.addr
    some [e, e1, e2, set_bytecode_1 e2 invoke_code]
  else none

/-- Source lines 233-243, store by store: the entry before the call and
after each of its stores, in program order. -/
def set_interface_call_stores (H : Header) (e : ConstantPoolCacheEntry)
    (method : Method) (index : Int) : List ConstantPoolCacheEntry :=
  let interf := method.method_holder
  let e1 := set_f1 e interf
  let e2 := set_f2 e1 index
  let e3 := set_method_flags H e2 method.result_tos 0 method.size_of_parameters
  [e, e1, e2, e3, set_bytecode_1 e3 Bytecodes._invokeinterface]

/-- Source lines 258-329, store by store: the entry before the call and
after each of its stores, in program order (the store of the appendix goes
into the resolved-references array and leaves the entry); `none` when the
appendix store is outside the array. -/
def set_method_handle_common_stores (H : Header) (e : ConstantPoolCacheEntry)
    (invoke_code : Nat) (adapter : Method) (appendix : Ptr)
    (resolved_references : objArray) : Option (List ConstantPoolCacheEntry) :=
  if !is_f1_null e then some [e]
  else
    let has_appendix : Bool := appendix != 0
    let e1 := set_method_flags H e adapter.result_tos
      (((if has_appendix then 1 else 0) <<< H.has_appendix_shift) |||
       (1 <<< H.is_final_shift))
      adapter.size_of_parameters
    let stored : Option objArray :=
      if has_appendix then
        let ref_index := f2_as_index e1
        resolved_references.obj_at_put ref_index appendix
      else some resolved_references
    match stored with
    | none => none
    | some _ =>
      let e2 := release_set_f1 e1 adapter.addr
      let e3 := set_bytecode_1 e2 invoke_code
      if has_appendix then some [e, e1, e1, e2, e3] else some [e, e1, e2, e3]

/-- The entry in memory when `k` stores of a writer have been performed:
element `k` of the list of its entries, and the last one from then on. -/
def visible : List ConstantPoolCacheEntry → Nat → ConstantPoolCacheEntry
  | [], _ => zero
  | [e], _ => e
  | e :: _ :: _, 0 => e
  | _ :: e :: es, k + 1 => visible (e :: es) k

/-- The result of `method_if_resolved` in a reader that runs while a writer
performs its stores: load `i` of the reader is made when `t i` stores of the
writer have been performed. -/
def method_if_resolved_during (H : Header) (U : Universe) (cpool : ConstantPool)
    (stores : List ConstantPoolCacheEntry) (t : Nat → Nat) : Ptr :=
  method_if_resolved_loads H U cpool fun i => visible stores (t i)

end ConstantPoolCacheEntry

/-- A `ConstantPoolCache`: its entries, `entry_at(0)` first; `length()` is
the length of the list. -/
abbrev ConstantPoolCache := List ConstantPoolCacheEntry

namespace ConstantPoolCache

/-- Source lines 551-561, the loop over `j` on one entry: `n` is the number
of iterations left, `j + n = methods_length`.  An array of method pointers
is the function from index to element. -/
def adjust_method_entries_scan (H : Header) (old_methods new_methods : Nat → Ptr) :
    Nat → Nat → ConstantPoolCacheEntry → ConstantPoolCacheEntry
  | _, 0, e => e
  | j, n + 1, e =>
    let old_method := old_methods j
    let new_method := new_methods j
    let r := ConstantPoolCacheEntry.adjust_method_entry H e old_method new_method
    if r.1 then r.2
    else adjust_method_entries_scan H old_methods new_methods (j + 1) n r.2

/-- Source lines 529-563.  Iteration `i` of the loop at line 540 reads and
writes `entry_at(i)` only, so the loop is a map over the entries. -/
def adjust_method_entries (H : Header) (U : Universe) (cache : ConstantPoolCache)
    (old_methods new_methods : Nat → Ptr) (methods_length : Nat) :
    ConstantPoolCache :=
  if methods_length = 0 then cache
  else
    let old_holder := U.method_holder (old_methods 0)
    cache.map fun e =>
      if !ConstantPoolCacheEntry.is_interesting_method_entry H U e old_holder then e
      else adjust_method_entries_scan H old_methods new_methods 0 methods_length e

/-- Source lines 567-573, the loop from the entry it is given on. -/
def check_no_old_entries_from (H : Header) (U : Universe) :
    List ConstantPoolCacheEntry → Bool
  | [] => true
  | e :: es =>
    if ConstantPoolCacheEntry.is_interesting_method_entry H U e 0 &&
        !ConstantPoolCacheEntry.check_no_old_entries H U e then false
    else check_no_old_entries_from H U es

/-- Source lines 566-574 (not in product builds): the loop starts at
`i = 1`. -/
def check_no_old_entries (H : Header) (U : Universe) (cache : ConstantPoolCache) :
    Bool :=
  check_no_old_entries_from H U (cache.drop 1)

/-- The 32 bits of an `int` stored into a word. -/
def int_bits (x : Int) : Nat := (x % 2 ^ 32).toNat

/-- Source lines 513-518, the loop from index `i` on over the entries that
are left: `none` when `inverse_index_map[i]` is outside the map. -/
def initialize_entries (inverse_index_map : List Int) :
    Nat → List ConstantPoolCacheEntry → Option (List ConstantPoolCacheEntry)
  | _, [] => some []
  | i, e :: es =>
    match inverse_index_map.get? i with
    | none => none
    | some original_index =>
      match initialize_entries inverse_index_map (i + 1) es with
      | none => none
      | some es' =>
        some (ConstantPoolCacheEntry.initialize_entry e (int_bits original_index) :: es')

/-- Source lines 519-523, the loop from `ref` on over the part of
`invokedynamic_references_map` that is left: `none` when `entry_at(cpci)` is
outside the cache. -/
def initialize_references :
    Nat → List Int → ConstantPoolCache → Option ConstantPoolCache
  | _, [], cache => some cache
  | ref, cpci :: rest, cache =>
    if 0 ≤ cpci then
      match cache.get? cpci.toNat with
      | none => none
      | some e =>
        initialize_references (ref + 1) rest
          (cache.set cpci.toNat
            (ConstantPoolCacheEntry.initialize_resolved_reference_index e ref))
    else initialize_references (ref + 1) rest cache

end ConstantPoolCache

/-- Source lines 511-524: the cache afterwards; `none` when a map or the
cache is indexed outside its bounds. -/
def ConstantPoolCache.initialize (cache : ConstantPoolCache)
    (inverse_index_map invokedynamic_references_map : List Int) :
    Option ConstantPoolCache :=
  match ConstantPoolCache.initialize_entries inverse_index_map 0 cache with
  | none => none
  | some cache =>
    ConstantPoolCache.initialize_references 0 invokedynamic_references_map cache

/-! ## States the claims speak about -/

namespace ConstantPoolCacheEntry

/-- A freshly initialised entry: `_f1`, `_f2`, `_flags` and both bytecodes
are zero; only the constant-pool index is set. -/
def Fresh (e : ConstantPoolCacheEntry) : Prop :=
  e._f1 = 0 ∧ e._f2 = 0 ∧ e._flags = 0 ∧ bytecode_1 e = 0 ∧ bytecode_2 e = 0

instance (e : ConstantPoolCacheEntry) : Decidable (Fresh e) := by
  unfold Fresh; infer_instance

/-- A word that has bits only at option-bit positions of the header. -/
def OptionBits (H : Header) (ob : Nat) : Prop :=
  ∀ j, ob.testBit j = true → j ∈ H.option_shifts

/-- The bytecodes a field entry is resolved for: one of the four field
accesses, or zero for a direction that is not used. -/
def FieldCode (c : Nat) : Prop :=
  c = 0 ∨ c = Bytecodes._getstatic ∨ c = Bytecodes._putstatic ∨
  c = Bytecodes._getfield ∨ c = Bytecodes._putfield

instance (c : Nat) : Decidable (FieldCode c) := by
  unfold FieldCode; infer_instance

/-- One call on an entry, with its arguments. -/
inductive Call where
  | set_bytecode_1 (code : Nat)
  | set_bytecode_2 (code : Nat)
  | set_field (get_code put_code : Nat) (field_holder : Ptr) (field_index : Nat)
      (field_offset : Int) (field_type : Nat) (is_final is_volatile : Bool)
  | set_method (invoke_code : Nat) (method : Method) (vtable_index : Int)
  | set_interface_call (method : Method) (index : Int)
  | set_method_handle_common (invoke_code : Nat) (adapter : Method)
      (appendix : Ptr)
  | set_parameter_size (value : Int)
  | adjust_method_entry (old_method new_method : Ptr)

/-- The entry and the resolved-references array after one call; `none` when
the call does not complete. -/
def Call.run (H : Header) (c : Call) (st : ConstantPoolCacheEntry × objArray) :
    Option (ConstantPoolCacheEntry × objArray) :=
  match c with
  | .set_bytecode_1 code => some (ConstantPoolCacheEntry.set_bytecode_1 st.1 code, st.2)
  | .set_bytecode_2 code => some (ConstantPoolCacheEntry.set_bytecode_2 st.1 code, st.2)
  | .set_field g p h fi fo ft fin vol =>
      some (ConstantPoolCacheEntry.set_field H st.1 g p h fi fo ft fin vol, st.2)
  | .set_method code m v =>
      (ConstantPoolCacheEntry.set_method H st.1 code m v).map fun e => (e, st.2)
  | .set_interface_call m i =>
      some (ConstantPoolCacheEntry.set_interface_call H st.1 m i, st.2)
  | .set_method_handle_common code a ap =>
      ConstantPoolCacheEntry.set_method_handle_common H st.1 code a ap st.2
  | .set_parameter_size v =>
      (ConstantPoolCacheEntry.set_parameter_size st.1 v).map fun e => (e, st.2)
  | .adjust_method_entry o n =>
      some ((ConstantPoolCacheEntry.adjust_method_entry H st.1 o n).2, st.2)

/-- The state after a finite sequence of calls, each made on the state the
previous one left; `none` as soon as one does not complete. -/
def Call.runAll (H : Header) :
    List Call → ConstantPoolCacheEntry × objArray →
      Option (ConstantPoolCacheEntry × objArray)
  | [], st => some st
  | c :: cs, st =>
    match Call.run H c st with
    | none => none
    | some st' => Call.runAll H cs st'

/-- The entry and the resolved-references array after one call in which the
assertion of every bytecode store is checked; `none` when the call does not
complete. -/
def Call.run_checked (H : Header) (c : Call)
    (st : ConstantPoolCacheEntry × objArray) :
    Option (ConstantPoolCacheEntry × objArray) :=
  match c with
  | .set_bytecode_1 code =>
      (ConstantPoolCacheEntry.set_bytecode_1_checked st.1 code).map fun e => (e, st.2)
  | .set_bytecode_2 code =>
      (ConstantPoolCacheEntry.set_bytecode_2_checked st.1 code).map fun e => (e, st.2)
  | .set_field g p h fi fo ft fin vol =>
      (ConstantPoolCacheEntry.set_field_checked H st.1 g p h fi fo ft fin vol).map
        fun e => (e, st.2)
  | .set_method code m v =>
      (ConstantPoolCacheEntry.set_method_checked H st.1 code m v).map
        fun e => (e, st.2)
  | .set_interface_call m i =>
      (ConstantPoolCacheEntry.set_interface_call_checked H st.1 m i).map
        fun e => (e, st.2)
  | .set_method_handle_common code a ap =>
      ConstantPoolCacheEntry.set_method_handle_common_checked H st.1 code a ap st.2
  | .set_parameter_size v =>
      (ConstantPoolCacheEntry.set_parameter_size st.1 v).map fun e => (e, st.2)
  | .adjust_method_entry o n =>
      some ((ConstantPoolCacheEntry.adjust_method_entry H st.1 o n).2, st.2)

/-- The state after a finite sequence of calls in which the assertion of
every bytecode store is checked; `none` as soon as one does not complete. -/
def Call.runAll_checked (H : Header) :
    List Call → ConstantPoolCacheEntry × objArray →
      Option (ConstantPoolCacheEntry × objArray)
  | [], st => some st
  | c :: cs, st =>
    match Call.run_checked H c st with
    | none => none
    | some st' => Call.runAll_checked H cs st'

/-- A sequence of `set_method_handle_common` calls, each given by its invoke
code, adapter and appendix. -/
def handle_calls (cs : List (Nat × Method × Ptr)) : List Call :=
  cs.map fun c => Call.set_method_handle_common c.1 c.2.1 c.2.2

/-- The parameter size a setter call supplies: the size of its method or
adapter, or the value of `set_parameter_size`; `none` for a call that is not
one of these setters. -/
def Call.supplied_size : Call → Option Int
  | .set_method _ m _ => some m.size_of_parameters
  | .set_interface_call m _ => some m.size_of_parameters
  | .set_method_handle_common _ a _ => some a.size_of_parameters
  | .set_parameter_size v => some v
  | _ => none

/-- The code a call passes to `set_bytecode_1` when it makes that call, and
zero when it never does (`set_method_handle_common` makes it unless `_f1` is
set already). -/
def Call.code_1 : Call → Nat
  | .set_bytecode_1 code => code
  | .set_field get_code _ _ _ _ _ _ _ => get_code
  | .set_method invoke_code m _ =>
    if invoke_code = Bytecodes._invokespecial ∨
        invoke_code = Bytecodes._invokestatic ∨
        (invoke_code = Bytecodes._invokeinterface ∧ m.is_public = true) then
      invoke_code
    else 0
  | .set_interface_call _ _ => Bytecodes._invokeinterface
  | .set_method_handle_common invoke_code _ _ => invoke_code
  | _ => 0

/-- The code a call passes to `set_bytecode_2`, and zero when it does not
make that call. -/
def Call.code_2 : Call → Nat
  | .set_bytecode_2 code => code
  | .set_field _ put_code _ _ _ _ _ _ => put_code
  | .set_method invoke_code _ _ =>
    if invoke_code = Bytecodes._invokeinterface ∨
        invoke_code = Bytecodes._invokevirtual then
      Bytecodes._invokevirtual
    else 0
  | _ => 0

/-- The method pointer of an entry: `_f2` if the entry is vfinal, else
`_f1`. -/
def method_pointer (H : Header) (e : ConstantPoolCacheEntry) : Ptr :=
  if is_vfinal H e then e._f2 else e._f1

/-- The entry with its method pointer replaced. -/
def replace_method_pointer (H : Header) (e : ConstantPoolCacheEntry) (m : Ptr) :
    ConstantPoolCacheEntry :=
  if is_vfinal H e then { e with _f2 := m } else { e with _f1 := m }

/-- Whether an entry holds a pointer to the method at `m`: in `_f1`, or in
`_f2` when the entry is vfinal. -/
def holds_method (H : Header) (e : ConstantPoolCacheEntry) (m : Ptr) : Bool :=
  e._f1 == m || (is_vfinal H e && e._f2 == m)

end ConstantPoolCacheEntry

namespace ConstantPoolCache

/-- The least `j < methods_length` with `old_methods[j]` equal to `p`. -/
def least_match (old_methods : Nat → Ptr) (methods_length : Nat) (p : Ptr) :
    Option Nat :=
  (List.range methods_length).find? fun j => old_methods j == p

/-- What claim C12 says `adjust_method_entries` does to one entry. -/
def adjust_entry_spec (H : Header) (U : Universe)
    (old_methods new_methods : Nat → Ptr) (methods_length : Nat)
    (e : ConstantPoolCacheEntry) : ConstantPoolCacheEntry :=
  if ConstantPoolCacheEntry.is_interesting_method_entry H U e
      (U.method_holder (old_methods 0)) then
    match least_match old_methods methods_length
        (ConstantPoolCacheEntry.method_pointer H e) with
    | some j => ConstantPoolCacheEntry.replace_method_pointer H e (new_methods j)
    | none => e
  else e

/-- What claim C15 says `check_no_old_entries` returns: no entry holds, in
`_f1` or in a vfinal `_f2`, a pointer to a method marked old. -/
def no_old_entries_spec (H : Header) (U : Universe) (cache : ConstantPoolCache) :
    Bool :=
  cache.all fun e =>
    !((U.is_method e._f1 && U.is_old e._f1) ||
      (ConstantPoolCacheEntry.is_vfinal H e && U.is_method e._f2 && U.is_old e._f2))

end ConstantPoolCache

/-- A header with the option bits at 21..26, a 16-bit field index and
`_invokehandle = 232`, storing the flags with a plain store. -/
def Header.sample : Header :=
  { is_vfinal_shift := 21, is_volatile_shift := 22, is_final_shift := 23,
    has_appendix_shift := 24, is_forced_virtual_shift := 25,
    is_field_entry_shift := 26, field_index_bits := 16,
    _invokehandle := 232, flags_cas := false }

/-- The sample header with the flags stored by compare-and-swap from zero. -/
def Header.sample_cas : Header := { Header.sample with flags_cas := true }

/-- A universe in which the class at address 1000 is an instance class and
`Object` is at address 900; table slot `i` of the class at `k` holds the
address `k * 100 + i` (vtable) or `k * 100 + 50 + i` (itable).  The methods
are at 5000, 5001, 6000 and 6001, all of the class at 1000; the one at 6000
is marked old. -/
def Universe.sample : Universe :=
  { oop_is_instance := fun k => k == 1000
    Object_klass := 900
    method_at_vtable := fun k i => k * 100 + i
    method_for_itable_index := fun k i => k * 100 + 50 + i
    is_valid := fun _ => true
    is_method := fun p => p == 5000 || p == 5001 || p == 6000 || p == 6001
    method_holder := fun _ => 1000
    is_old := fun p => p == 6000 }

/-- A constant pool whose holder-class index of entry `i` is `i + 1`, all of
whose class entries are resolved to the class at 1000, with four empty
resolved references. -/
def ConstantPool.sample : ConstantPool :=
  { uncached_klass_ref_index_at := fun i => i + 1
    tag_is_klass := fun _ => true
    resolved_klass_at := fun _ => 1000
    resolved_references := [0, 0, 0, 0] }

/-- A public, non-final method at address 5000 with two parameter slots. -/
def Method.sample : Method :=
  { addr := 5000, result_tos := 3, can_be_statically_bound := false,
    is_final_method := false, is_public := true, size_of_parameters := 2,
    method_holder := 1000 }

/-- A final method at address 6000, which can be statically bound. -/
def Method.sample_final : Method :=
  { addr := 6000, result_tos := 7, can_be_statically_bound := true,
    is_final_method := true, is_public := true, size_of_parameters := 1,
    method_holder := 1000 }

/-! ## Bit-level lemmas -/

namespace Bits

theorem and_low (x c n s : Nat) (h : n ≤ s) :
    (x ||| (c <<< s)) &&& (2 ^ n - 1) = x &&& (2 ^ n - 1) := by
  apply Nat.eq_of_testBit_eq; intro j
  simp only [Nat.testBit_and, Nat.testBit_or, Nat.testBit_shiftLeft,
    Nat.testBit_two_pow_sub_one]
  by_cases hj : j < n
  · have : ¬ (j ≥ s) := by omega
    simp [hj, this]
  · simp [hj]

theorem byte_same (x c s : Nat) :
    ((x ||| ((c % 256) <<< s)) >>> s) &&& (2 ^ 8 - 1)
      = ((x >>> s) &&& (2 ^ 8 - 1)) ||| (c % 256) := by
  apply Nat.eq_of_testBit_eq; intro j
  have h256 : (256 : Nat) = 2 ^ 8 := by norm_num
  simp only [Nat.testBit_and, Nat.testBit_or, Nat.testBit_shiftLeft,
    Nat.testBit_shiftRight, Nat.testBit_two_pow_sub_one, h256,
    Nat.testBit_mod_two_pow]
  by_cases hj : j < 8 <;> simp [hj]

theorem byte_other (x c s t : Nat) (h : s + 8 ≤ t ∨ t + 8 ≤ s) :
    ((x ||| ((c % 256) <<< s)) >>> t) &&& (2 ^ 8 - 1)
      = (x >>> t) &&& (2 ^ 8 - 1) := by
  apply Nat.eq_of_testBit_eq; intro j
  have h256 : (256 : Nat) = 2 ^ 8 := by norm_num
  simp only [Nat.testBit_and, Nat.testBit_or, Nat.testBit_shiftLeft,
    Nat.testBit_shiftRight, Nat.testBit_two_pow_sub_one, h256,
    Nat.testBit_mod_two_pow]
  by_cases hj : j < 8
  · by_cases h2 : t + j ≥ s
    · have : ¬ (t + j - s < 8) := by omega
      simp [hj, h2, this]
    · simp [hj, h2]
  · simp [hj]

theorem flag_bit (w s : Nat) : (w &&& (1 <<< s) != 0) = w.testBit s := by
  rw [Nat.one_shiftLeft, Nat.and_two_pow]
  cases h : w.testBit s <;> simp

theorem flag_bit_not (w s : Nat) : (w &&& (1 <<< s) == 0) = !w.testBit s := by
  rw [Nat.one_shiftLeft, Nat.and_two_pow]
  cases h : w.testBit s <;> simp

theorem testBit_one_shift (s j : Nat) : (1 <<< s).testBit j = decide (j = s) := by
  rw [Nat.one_shiftLeft, Nat.testBit_two_pow]
  by_cases h : j = s
  · simp [h]
  · have : ¬ s = j := fun h2 => h h2.symm
    simp [h, this]

theorem testBit_bool_shift (b : Bool) (s j : Nat) :
    ((if b then 1 else 0) <<< s).testBit j = (b && decide (j = s)) := by
  cases b
  · simp
  · simpa using testBit_one_shift s j

theorem testBit_small {p n j : Nat} (hp : p < 2 ^ n) (hj : n ≤ j) :
    p.testBit j = false :=
  Nat.testBit_lt_two_pow (Nat.lt_of_lt_of_le hp (Nat.pow_le_pow_right (by norm_num) hj))

theorem mod_byte {c : Nat} (h : c < 256) : c % 256 = c := Nat.mod_eq_of_lt h

end Bits

/-! ## How the setters of one word act on the accessors -/

namespace ConstantPoolCacheEntry

@[simp] theorem set_bytecode_1_f1 (e : ConstantPoolCacheEntry) (c : Nat) :
    (set_bytecode_1 e c)._f1 = e._f1 := rfl
@[simp] theorem set_bytecode_1_f2 (e : ConstantPoolCacheEntry) (c : Nat) :
    (set_bytecode_1 e c)._f2 = e._f2 := rfl
@[simp] theorem set_bytecode_1_flags (e : ConstantPoolCacheEntry) (c : Nat) :
    (set_bytecode_1 e c)._flags = e._flags := rfl
@[simp] theorem set_bytecode_2_f1 (e : ConstantPoolCacheEntry) (c : Nat) :
    (set_bytecode_2 e c)._f1 = e._f1 := rfl
@[simp] theorem set_bytecode_2_f2 (e : ConstantPoolCacheEntry) (c : Nat) :
    (set_bytecode_2 e c)._f2 = e._f2 := rfl
@[simp] theorem set_bytecode_2_flags (e : ConstantPoolCacheEntry) (c : Nat) :
    (set_bytecode_2 e c)._flags = e._flags := rfl

@[simp] theorem constant_pool_index_set_bytecode_1 (e : ConstantPoolCacheEntry)
    (c : Nat) : constant_pool_index (set_bytecode_1 e c) = constant_pool_index e := by
  simp only [constant_pool_index, set_bytecode_1, cp_index_mask, bytecode_1_shift]
  exact Bits.and_low _ _ _ _ (Nat.le_refl _)

@[simp] theorem constant_pool_index_set_bytecode_2 (e : ConstantPoolCacheEntry)
    (c : Nat) : constant_pool_index (set_bytecode_2 e c) = constant_pool_index e := by
  simp only [constant_pool_index, set_bytecode_2, cp_index_mask, bytecode_2_shift]
  exact Bits.and_low _ _ _ _ (Nat.le_add_right _ _)

@[simp] theorem bytecode_1_set_bytecode_1 (e : ConstantPoolCacheEntry) (c : Nat) :
    bytecode_1 (set_bytecode_1 e c) = bytecode_1 e ||| (c % 256) := by
  simp only [bytecode_1, set_bytecode_1, bytecode_1_mask]
  exact Bits.byte_same _ _ _

@[simp] theorem bytecode_2_set_bytecode_2 (e : ConstantPoolCacheEntry) (c : Nat) :
    bytecode_2 (set_bytecode_2 e c) = bytecode_2 e ||| (c % 256) := by
  simp only [bytecode_2, set_bytecode_2, bytecode_2_mask]
  exact Bits.byte_same _ _ _

@[simp] theorem bytecode_1_set_bytecode_2 (e : ConstantPoolCacheEntry) (c : Nat) :
    bytecode_1 (set_bytecode_2 e c) = bytecode_1 e := by
  simp only [bytecode_1, set_bytecode_2, bytecode_1_mask]
  exact Bits.byte_other _ _ _ _ (Or.inr (by simp [bytecode_1_shift, bytecode_2_shift]))

@[simp] theorem bytecode_2_set_bytecode_1 (e : ConstantPoolCacheEntry) (c : Nat) :
    bytecode_2 (set_bytecode_1 e c) = bytecode_2 e := by
  simp only [bytecode_2, set_bytecode_1, bytecode_2_mask]
  exact Bits.byte_other _ _ _ _ (Or.inl (by simp [bytecode_1_shift, bytecode_2_shift]))

/-- The three accessors of `_indices` see only that word. -/
theorem indices_accessors_congr {e e' : ConstantPoolCacheEntry}
    (h : e'._indices = e._indices) :
    constant_pool_index e' = constant_pool_index e ∧
    bytecode_1 e' = bytecode_1 e ∧ bytecode_2 e' = bytecode_2 e := by
  simp [constant_pool_index, bytecode_1, bytecode_2, h]

@[simp] theorem set_flags_indices (H : Header) (e : ConstantPoolCacheEntry)
    (v : Nat) : (set_flags H e v)._indices = e._indices := by
  unfold set_flags init_flags_atomic; split <;> [split; skip] <;> rfl
@[simp] theorem set_flags_f1 (H : Header) (e : ConstantPoolCacheEntry)
    (v : Nat) : (set_flags H e v)._f1 = e._f1 := by
  unfold set_flags init_flags_atomic; split <;> [split; skip] <;> rfl
@[simp] theorem set_flags_f2 (H : Header) (e : ConstantPoolCacheEntry)
    (v : Nat) : (set_flags H e v)._f2 = e._f2 := by
  unfold set_flags init_flags_atomic; split <;> [split; skip] <;> rfl

/-- On an entry whose flags are zero both store disciplines write the word. -/
theorem set_flags_of_zero (H : Header) (e : ConstantPoolCacheEntry) (v : Nat)
    (h : e._flags = 0) : (set_flags H e v)._flags = v := by
  unfold set_flags init_flags_atomic; split <;> simp [h]

theorem is_vfinal_eq (H : Header) (e : ConstantPoolCacheEntry) :
    is_vfinal H e = e._flags.testBit H.is_vfinal_shift := Bits.flag_bit _ _
theorem is_volatile_eq (H : Header) (e : ConstantPoolCacheEntry) :
    is_volatile H e = e._flags.testBit H.is_volatile_shift := Bits.flag_bit _ _
theorem is_final_eq (H : Header) (e : ConstantPoolCacheEntry) :
    is_final H e = e._flags.testBit H.is_final_shift := Bits.flag_bit _ _
theorem is_forced_virtual_eq (H : Header) (e : ConstantPoolCacheEntry) :
    is_forced_virtual H e = e._flags.testBit H.is_forced_virtual_shift :=
  Bits.flag_bit _ _
theorem has_appendix_eq (H : Header) (e : ConstantPoolCacheEntry) :
    has_appendix H e = e._flags.testBit H.has_appendix_shift := Bits.flag_bit _ _
theorem is_field_entry_eq (H : Header) (e : ConstantPoolCacheEntry) :
    is_field_entry H e = e._flags.testBit H.is_field_entry_shift :=
  Bits.flag_bit _ _

/-- Bit `j` of the word `make_flags` returns. -/
theorem testBit_make_flags (e : ConstantPoolCacheEntry) (st ob p j : Nat) :
    (make_flags e st ob p).testBit j =
      (decide (j < 32) &&
        (e._flags.testBit j ||
          ((decide (28 ≤ j) && st.testBit (j - 28)) || ob.testBit j || p.testBit j))) := by
  unfold make_flags
  simp only [tos_state_shift, tos_state_bits, Nat.testBit_mod_two_pow,
    Nat.testBit_or, Nat.testBit_shiftLeft]

theorem initialize_entry_fresh (i : Nat) (hi : i < 0x10000) :
    Fresh (initialize_entry zero i) ∧
      constant_pool_index (initialize_entry zero i) = i := by
  have h16 : i < 2 ^ 16 := by simpa using hi
  have hs : i >>> 16 = 0 := by
    rw [Nat.shiftRight_eq_div_pow]; exact Nat.div_eq_of_lt h16
  have hs2 : i >>> 24 = 0 := by
    rw [Nat.shiftRight_eq_div_pow]
    exact Nat.div_eq_of_lt (Nat.lt_of_lt_of_le h16 (by norm_num))
  refine ⟨⟨rfl, rfl, rfl, ?_, ?_⟩, ?_⟩
  · simp [bytecode_1, initialize_entry, bytecode_1_shift, cp_index_bits, hs]
  · simp [bytecode_2, initialize_entry, bytecode_2_shift, cp_index_bits, hs2]
  · simp only [constant_pool_index, initialize_entry, cp_index_mask, cp_index_bits]
    exact Nat.and_pow_two_sub_one_of_lt_two_pow h16

end ConstantPoolCacheEntry

namespace ConstantPoolCacheEntry

@[simp] theorem set_method_flags_indices (H : Header) (e : ConstantPoolCacheEntry)
    (st ob p : Nat) : (set_method_flags H e st ob p)._indices = e._indices := by
  simp [set_method_flags]
@[simp] theorem set_method_flags_f1 (H : Header) (e : ConstantPoolCacheEntry)
    (st ob p : Nat) : (set_method_flags H e st ob p)._f1 = e._f1 := by
  simp [set_method_flags]
@[simp] theorem set_method_flags_f2 (H : Header) (e : ConstantPoolCacheEntry)
    (st ob p : Nat) : (set_method_flags H e st ob p)._f2 = e._f2 := by
  simp [set_method_flags]
@[simp] theorem set_field_flags_indices (H : Header) (e : ConstantPoolCacheEntry)
    (st ob p : Nat) : (set_field_flags H e st ob p)._indices = e._indices := by
  simp [set_field_flags]
@[simp] theorem set_field_flags_f1 (H : Header) (e : ConstantPoolCacheEntry)
    (st ob p : Nat) : (set_field_flags H e st ob p)._f1 = e._f1 := by
  simp [set_field_flags]
@[simp] theorem set_field_flags_f2 (H : Header) (e : ConstantPoolCacheEntry)
    (st ob p : Nat) : (set_field_flags H e st ob p)._f2 = e._f2 := by
  simp [set_field_flags]

theorem set_method_flags_of_zero (H : Header) (e : ConstantPoolCacheEntry)
    (st ob p : Nat) (h : e._flags = 0) :
    (set_method_flags H e st ob p)._flags = make_flags e st ob p :=
  set_flags_of_zero H e _ h

/-- The flags `set_method_flags` leaves are the word `make_flags` returns,
under a plain store, and under a compare-and-swap when the flags were zero. -/
theorem set_method_flags_flags (H : Header) (e : ConstantPoolCacheEntry)
    (st ob p : Nat) (h : H.flags_cas = true → e._flags = 0) :
    (set_method_flags H e st ob p)._flags = make_flags e st ob p := by
  cases hc : H.flags_cas
  · simp [set_method_flags, set_flags, hc]
  · exact set_flags_of_zero H e _ (h hc)

theorem set_field_flags_of_zero (H : Header) (e : ConstantPoolCacheEntry)
    (st ob p : Nat) (h : e._flags = 0) :
    (set_field_flags H e st ob p)._flags =
      make_flags e st (ob ||| (1 <<< H.is_field_entry_shift)) p :=
  set_flags_of_zero H e _ h

/-- The bytecodes and the constant-pool index after a write of `bytecode_1`
and `bytecode_2` into an entry whose `_indices` is that of `e`. -/
theorem bytecode_1_of_fresh {e : ConstantPoolCacheEntry} (c : Nat)
    (h : bytecode_1 e = 0) (hc : c < 256) :
    bytecode_1 (set_bytecode_1 e c) = c := by
  simp [h, Nat.mod_eq_of_lt hc]

theorem bytecode_2_of_fresh {e : ConstantPoolCacheEntry} (c : Nat)
    (h : bytecode_2 e = 0) (hc : c < 256) :
    bytecode_2 (set_bytecode_2 e c) = c := by
  simp [h, Nat.mod_eq_of_lt hc]

end ConstantPoolCacheEntry

namespace ConstantPoolCacheEntry

@[simp] theorem set_f1_words (e : ConstantPoolCacheEntry) (p : Ptr) :
    (set_f1 e p)._indices = e._indices ∧ (set_f1 e p)._f1 = p ∧
    (set_f1 e p)._f2 = e._f2 ∧ (set_f1 e p)._flags = e._flags := ⟨rfl, rfl, rfl, rfl⟩

@[simp] theorem release_set_f1_words (e : ConstantPoolCacheEntry) (p : Ptr) :
    (release_set_f1 e p)._indices = e._indices ∧ (release_set_f1 e p)._f1 = p ∧
    (release_set_f1 e p)._f2 = e._f2 ∧ (release_set_f1 e p)._flags = e._flags :=
  ⟨rfl, rfl, rfl, rfl⟩

@[simp] theorem set_f2_words (e : ConstantPoolCacheEntry) (x : Int) :
    (set_f2 e x)._indices = e._indices ∧ (set_f2 e x)._f1 = e._f1 ∧
    (set_f2 e x)._f2 = x ∧ (set_f2 e x)._flags = e._flags := ⟨rfl, rfl, rfl, rfl⟩

@[simp] theorem set_f2_as_vfinal_method_words (e : ConstantPoolCacheEntry) (p : Ptr) :
    (set_f2_as_vfinal_method e p)._indices = e._indices ∧
    (set_f2_as_vfinal_method e p)._f1 = e._f1 ∧
    (set_f2_as_vfinal_method e p)._f2 = p ∧
    (set_f2_as_vfinal_method e p)._flags = e._flags := ⟨rfl, rfl, rfl, rfl⟩

@[simp] theorem set_f1_indices (e : ConstantPoolCacheEntry) (p : Ptr) :
    constant_pool_index (set_f1 e p) = constant_pool_index e ∧
    bytecode_1 (set_f1 e p) = bytecode_1 e ∧
    bytecode_2 (set_f1 e p) = bytecode_2 e := indices_accessors_congr rfl

@[simp] theorem release_set_f1_indices (e : ConstantPoolCacheEntry) (p : Ptr) :
    constant_pool_index (release_set_f1 e p) = constant_pool_index e ∧
    bytecode_1 (release_set_f1 e p) = bytecode_1 e ∧
    bytecode_2 (release_set_f1 e p) = bytecode_2 e := indices_accessors_congr rfl

@[simp] theorem set_f2_indices (e : ConstantPoolCacheEntry) (x : Int) :
    constant_pool_index (set_f2 e x) = constant_pool_index e ∧
    bytecode_1 (set_f2 e x) = bytecode_1 e ∧
    bytecode_2 (set_f2 e x) = bytecode_2 e := indices_accessors_congr rfl

@[simp] theorem set_f2_as_vfinal_method_indices (e : ConstantPoolCacheEntry)
    (p : Ptr) :
    constant_pool_index (set_f2_as_vfinal_method e p) = constant_pool_index e ∧
    bytecode_1 (set_f2_as_vfinal_method e p) = bytecode_1 e ∧
    bytecode_2 (set_f2_as_vfinal_method e p) = bytecode_2 e :=
  indices_accessors_congr rfl

@[simp] theorem set_flags_accessors (H : Header) (e : ConstantPoolCacheEntry)
    (v : Nat) :
    constant_pool_index (set_flags H e v) = constant_pool_index e ∧
    bytecode_1 (set_flags H e v) = bytecode_1 e ∧
    bytecode_2 (set_flags H e v) = bytecode_2 e :=
  indices_accessors_congr (set_flags_indices H e v)

@[simp] theorem set_method_flags_accessors (H : Header)
    (e : ConstantPoolCacheEntry) (st ob p : Nat) :
    constant_pool_index (set_method_flags H e st ob p) = constant_pool_index e ∧
    bytecode_1 (set_method_flags H e st ob p) = bytecode_1 e ∧
    bytecode_2 (set_method_flags H e st ob p) = bytecode_2 e :=
  indices_accessors_congr (set_method_flags_indices H e st ob p)

@[simp] theorem set_field_flags_accessors (H : Header)
    (e : ConstantPoolCacheEntry) (st ob p : Nat) :
    constant_pool_index (set_field_flags H e st ob p) = constant_pool_index e ∧
    bytecode_1 (set_field_flags H e st ob p) = bytecode_1 e ∧
    bytecode_2 (set_field_flags H e st ob p) = bytecode_2 e :=
  indices_accessors_congr (set_field_flags_indices H e st ob p)

/-- The `invokespecial` / `invokestatic` arm of `set_method`. -/
theorem set_method_static_special (H : Header) (e : ConstantPoolCacheEntry)
    (M : Method) (vtable_index : Int) (invoke_code : Nat)
    (hc : invoke_code = Bytecodes._invokestatic ∨
      invoke_code = Bytecodes._invokespecial) :
    set_method H e invoke_code M vtable_index =
      some (set_bytecode_1 (set_f1 (set_method_flags H e M.result_tos
        (((if is_vfinal H e then 1 else 0) <<< H.is_vfinal_shift) |||
         ((if M.is_final_method then 1 else 0) <<< H.is_final_shift))
        M.size_of_parameters) M.addr) invoke_code) := by
  unfold set_method
  rcases hc with h | h <;>
    simp [h, Bytecodes._invokestatic, Bytecodes._invokespecial,
      Bytecodes._invokeinterface, Bytecodes._invokevirtual]

/-- The `invokevirtual` arm of `set_method` for a method that can be
statically bound. -/
theorem set_method_virtual_vfinal (H : Header) (e : ConstantPoolCacheEntry)
    (M : Method) (vtable_index : Int) (hb : M.can_be_statically_bound = true) :
    set_method H e Bytecodes._invokevirtual M vtable_index =
      some (set_bytecode_2
        (set_f2_as_vfinal_method (set_method_flags H e M.result_tos
          ((1 <<< H.is_vfinal_shift) |||
           ((if M.is_final_method then 1 else 0) <<< H.is_final_shift))
          M.size_of_parameters) M.addr)
        Bytecodes._invokevirtual) := by
  unfold set_method
  simp [Bytecodes._invokeinterface, Bytecodes._invokevirtual, hb]

/-- The `invokevirtual` arm of `set_method` for a method that cannot be
statically bound. -/
theorem set_method_virtual_vtable (H : Header) (e : ConstantPoolCacheEntry)
    (M : Method) (vtable_index : Int) (hb : M.can_be_statically_bound = false) :
    set_method H e Bytecodes._invokevirtual M vtable_index =
      some (set_bytecode_2
        (set_f2 (set_method_flags H e M.result_tos 0 M.size_of_parameters)
          vtable_index)
        Bytecodes._invokevirtual) := by
  unfold set_method
  simp [Bytecodes._invokeinterface, Bytecodes._invokevirtual, hb]

/-- Decoding an entry whose `bytecode_1` names a method held in `_f1`. -/
theorem method_if_resolved_f1 (H : Header) (U : Universe) (cpool : ConstantPool)
    (e : ConstantPoolCacheEntry) (hf : e._f1 ≠ 0)
    (hc : bytecode_1 e = Bytecodes._invokestatic ∨
      bytecode_1 e = Bytecodes._invokespecial ∨
      bytecode_1 e = H._invokehandle ∨
      bytecode_1 e = Bytecodes._invokedynamic)
    (hh : 202 < H._invokehandle) :
    method_if_resolved H U cpool e = e._f1 := by
  unfold method_if_resolved
  have hne : bytecode_1 e ≠ 0 := by
    rcases hc with h | h | h | h <;> rw [h]
    · simp [Bytecodes._invokestatic]
    · simp [Bytecodes._invokespecial]
    · omega
    · simp [Bytecodes._invokedynamic]
  have hni : bytecode_1 e ≠ Bytecodes._invokeinterface := by
    rcases hc with h | h | h | h <;> rw [h]
    · simp [Bytecodes._invokestatic, Bytecodes._invokeinterface]
    · simp [Bytecodes._invokespecial, Bytecodes._invokeinterface]
    · simp only [Bytecodes._invokeinterface]; omega
    · simp [Bytecodes._invokedynamic, Bytecodes._invokeinterface]
  simp [hne, hf, hni, hc]

/-- Decoding an interface entry. -/
theorem method_if_resolved_interface (H : Header) (U : Universe)
    (cpool : ConstantPool) (e : ConstantPoolCacheEntry) (hf : e._f1 ≠ 0)
    (hc : bytecode_1 e = Bytecodes._invokeinterface) :
    method_if_resolved H U cpool e =
      U.method_for_itable_index e._f1 (f2_as_index e) := by
  unfold method_if_resolved
  simp [hc, hf, Bytecodes._invokeinterface]

/-- Decoding when the first bytecode gives nothing: the second decides. -/
theorem method_if_resolved_second (H : Header) (U : Universe)
    (cpool : ConstantPool) (e : ConstantPoolCacheEntry)
    (h1 : bytecode_1 e = 0 ∨ e._f1 = 0 ∨
      (bytecode_1 e ≠ Bytecodes._invokeinterface ∧
       bytecode_1 e ≠ Bytecodes._invokestatic ∧
       bytecode_1 e ≠ Bytecodes._invokespecial ∧
       bytecode_1 e ≠ H._invokehandle ∧
       bytecode_1 e ≠ Bytecodes._invokedynamic)) :
    method_if_resolved H U cpool e =
      if bytecode_2 e = Bytecodes._invokevirtual then
        if is_vfinal H e then e._f2
        else if cpool.tag_is_klass
            (cpool.uncached_klass_ref_index_at (constant_pool_index e)) then
          U.method_at_vtable
            (if U.oop_is_instance (cpool.resolved_klass_at
                (cpool.uncached_klass_ref_index_at (constant_pool_index e)))
              then cpool.resolved_klass_at
                (cpool.uncached_klass_ref_index_at (constant_pool_index e))
              else U.Object_klass)
            (f2_as_index e)
        else 0
      else 0 := by
  unfold method_if_resolved
  have hfirst : (if bytecode_1 e ≠ 0 then
      if e._f1 ≠ 0 then
        if bytecode_1 e = Bytecodes._invokeinterface then
          some (U.method_for_itable_index e._f1 (f2_as_index e))
        else if bytecode_1 e = Bytecodes._invokestatic ∨
            bytecode_1 e = Bytecodes._invokespecial ∨
            bytecode_1 e = H._invokehandle ∨
            bytecode_1 e = Bytecodes._invokedynamic then
          some e._f1
        else none
      else none
    else none) = none := by
    rcases h1 with h | h | ⟨ha, hb, hc, hd, he⟩
    · simp [h]
    · simp [h]
    · simp [ha, hb, hc, hd, he]
  simp only [hfirst]
  by_cases hv : bytecode_2 e = Bytecodes._invokevirtual
  · have hne : bytecode_2 e ≠ 0 := by rw [hv]; simp [Bytecodes._invokevirtual]
    cases hvf : is_vfinal H e <;>
    cases hi : U.oop_is_instance (cpool.resolved_klass_at
      (cpool.uncached_klass_ref_index_at (constant_pool_index e))) <;>
      simp [hv, hvf, hi, f2_as_vfinal_method, Bytecodes._invokevirtual]
  · by_cases hz : bytecode_2 e = 0
    · simp [hz, Bytecodes._invokevirtual]
    · simp [hz, hv]

end ConstantPoolCacheEntry

theorem Header.Valid.unpack {H : Header} (hV : H.Valid) :
    8 ≤ H.field_index_bits ∧
    (∀ s ∈ H.option_shifts, H.field_index_bits ≤ s ∧ s < 28) ∧
    H.option_shifts.Nodup ∧ H.option_shifts.reverse.Nodup ∧
    202 < H._invokehandle ∧ H._invokehandle < 256 :=
  ⟨hV.1, hV.2.1, hV.2.2.1, List.nodup_reverse.2 hV.2.2.1, hV.2.2.2.1, hV.2.2.2.2⟩

theorem to_int_of_is_int {x : Int} (h : is_int x) : to_int x = x := by
  unfold is_int at h
  unfold to_int
  omega

namespace ConstantPoolCacheEntry

/-- An option bit of the word `make_flags` returns: the bit of the old
flags or of the option bits, when the parameter size fits its field. -/
theorem testBit_make_flags_option (H : Header) (hV : H.Valid)
    (e : ConstantPoolCacheEntry) (st ob p s : Nat)
    (hs : s ∈ H.option_shifts) (hp : p < 2 ^ H.field_index_bits) :
    (make_flags e st ob p).testBit s = (e._flags.testBit s || ob.testBit s) := by
  obtain ⟨h8, hr, -⟩ := hV
  obtain ⟨h1, h2⟩ := hr s hs
  have hps : p.testBit s = false := Bits.testBit_small hp h1
  have h32 : s < 32 := by omega
  have h28 : ¬ 28 ≤ s := by omega
  simp [testBit_make_flags, hps, h32, h28]

/-- An option bit that is among the new option bits is set in the word
`make_flags` returns. -/
theorem testBit_make_flags_of_option (H : Header) (hV : H.Valid)
    (e : ConstantPoolCacheEntry) (st ob p s : Nat)
    (hs : s ∈ H.option_shifts) (hob : ob.testBit s = true) :
    (make_flags e st ob p).testBit s = true := by
  obtain ⟨h8, hr, -⟩ := hV
  obtain ⟨h1, h2⟩ := hr s hs
  have h32 : s < 32 := by omega
  simp [testBit_make_flags, h32, hob]

theorem lt_field_index_of_le_255 (H : Header) (hV : H.Valid) {p : Nat}
    (hp : p ≤ 255) : p < 2 ^ H.field_index_bits :=
  Nat.lt_of_lt_of_le (by omega : p < 2 ^ 8)
    (Nat.pow_le_pow_right (by norm_num) hV.1)

end ConstantPoolCacheEntry

namespace ConstantPoolCacheEntry

theorem optionBits_zero (H : Header) : OptionBits H 0 := by
  intro j h; simp at h

theorem optionBits_one_shift (H : Header) {s : Nat} (hs : s ∈ H.option_shifts) :
    OptionBits H (1 <<< s) := by
  intro j h
  rw [Bits.testBit_one_shift] at h
  have : j = s := by simpa using h
  rw [this]; exact hs

theorem optionBits_bool_shift (H : Header) (b : Bool) {s : Nat}
    (hs : s ∈ H.option_shifts) : OptionBits H ((if b then 1 else 0) <<< s) := by
  intro j h
  rw [Bits.testBit_bool_shift] at h
  have : j = s := by
    rw [Bool.and_eq_true] at h
    simpa using h.2
  rw [this]; exact hs

theorem optionBits_or (H : Header) {a b : Nat} (ha : OptionBits H a)
    (hb : OptionBits H b) : OptionBits H (a ||| b) := by
  intro j h
  rw [Nat.testBit_or, Bool.or_eq_true] at h
  rcases h with h1 | h1
  · exact ha j h1
  · exact hb j h1

theorem optionBits_testBit_false (H : Header) (hV : H.Valid) {ob : Nat}
    (hob : OptionBits H ob) {j : Nat} (hj : j < H.field_index_bits ∨ 28 ≤ j) :
    ob.testBit j = false := by
  cases h : ob.testBit j
  · rfl
  · have := hV.2.1 j (hob j h)
    omega

/-- The type-of-stack code read back from the word `make_flags` builds on
zero flags. -/
theorem flag_state_make_flags (H : Header) (hV : H.Valid)
    (e : ConstantPoolCacheEntry) (h0 : e._flags = 0) (st ob p : Nat)
    (hst : st < 16) (hob : OptionBits H ob) (hp : p < 2 ^ H.field_index_bits) :
    ((make_flags e st ob p) >>> tos_state_shift) &&& tos_state_mask = st := by
  have hfib : H.field_index_bits ≤ 28 := by
    have := hV.2.1 H.is_vfinal_shift (by simp [Header.option_shifts])
    omega
  apply Nat.eq_of_testBit_eq; intro j
  simp only [tos_state_mask, tos_state_bits, tos_state_shift, Nat.testBit_and,
    Nat.testBit_shiftRight, Nat.testBit_two_pow_sub_one, testBit_make_flags, h0]
  have h1 : ob.testBit (32 - 4 + j) = false :=
    optionBits_testBit_false H hV hob (Or.inr (by omega))
  have h2 : p.testBit (32 - 4 + j) = false := Bits.testBit_small hp (by omega)
  by_cases hj : j < 4
  · have h3 : 32 - 4 + j < 32 := by omega
    have h4 : 28 ≤ 32 - 4 + j := by omega
    have h5 : 32 - 4 + j - 28 = j := by omega
    simp [h1, h2, hj, h3, h4, h5]
  · have : st.testBit j = false := Bits.testBit_small (n := 4) (by simpa using hst) (by omega)
    simp [hj, this]

/-- The low field read back from the word `make_flags` builds on zero
flags, for every width up to that of the field index. -/
theorem low_make_flags (H : Header) (hV : H.Valid)
    (e : ConstantPoolCacheEntry) (h0 : e._flags = 0) (st ob p n : Nat)
    (hn : n ≤ H.field_index_bits) (hob : OptionBits H ob) (hp : p < 2 ^ n) :
    (make_flags e st ob p) &&& (2 ^ n - 1) = p := by
  have hfib : H.field_index_bits ≤ 28 := by
    have := hV.2.1 H.is_vfinal_shift (by simp [Header.option_shifts])
    omega
  apply Nat.eq_of_testBit_eq; intro j
  simp only [Nat.testBit_and, Nat.testBit_two_pow_sub_one, testBit_make_flags, h0]
  by_cases hj : j < n
  · have h1 : ob.testBit j = false :=
      optionBits_testBit_false H hV hob (Or.inl (by omega))
    have h3 : j < 32 := by omega
    have h4 : ¬ 28 ≤ j := by omega
    simp [h1, hj, h3, h4]
  · have : p.testBit j = false := Bits.testBit_small hp (by omega)
    simp [hj, this]

end ConstantPoolCacheEntry

/-! ## Claims -/

namespace ConstantPoolCacheEntry

/-- C1: on a freshly initialised entry, `set_method` with `invokestatic` or
`invokespecial` returns an entry whose `_f1` is the method and whose
`bytecode_1` is the invoke code, and `method_if_resolved` then returns the
method, for every method, vtable index, constant pool and header. -/
theorem set_method_static_special_roundtrip (H : Header) (U : Universe)
    (cpool : ConstantPool) (e : ConstantPoolCacheEntry) (M : Method)
    (vtable_index : Int) (invoke_code : Nat) (he : Fresh e)
    (hc : invoke_code = Bytecodes._invokestatic ∨
      invoke_code = Bytecodes._invokespecial) :
    ∃ e', set_method H e invoke_code M vtable_index = some e' ∧
      e'._f1 = M.addr ∧ bytecode_1 e' = invoke_code ∧
      method_if_resolved H U cpool e' = M.addr := by
  obtain ⟨-, -, -, hb1, hb2⟩ := he
  have hcode : invoke_code < 256 := by
    rcases hc with h | h <;> simp [h, Bytecodes._invokestatic, Bytecodes._invokespecial]
  refine ⟨_, set_method_static_special H e M vtable_index invoke_code hc, rfl, ?_, ?_⟩
  · simp [hb1, Nat.mod_eq_of_lt hcode]
  · have h1 : bytecode_1 (set_bytecode_1 (set_f1 (set_method_flags H e M.result_tos
        (((if is_vfinal H e then 1 else 0) <<< H.is_vfinal_shift) |||
         ((if M.is_final_method then 1 else 0) <<< H.is_final_shift))
        M.size_of_parameters) M.addr) invoke_code) = invoke_code := by
      simp [hb1, Nat.mod_eq_of_lt hcode]
    unfold method_if_resolved
    simp only [h1]
    rcases hc with h | h <;>
      simp [h, hb2, Bytecodes._invokestatic, Bytecodes._invokespecial,
        Bytecodes._invokeinterface] <;>
      by_cases hM : M.addr = 0 <;> simp [hM]

/-- Witness of C1: `invokestatic` of the sample method on the entry
initialised with constant-pool index 42. -/
theorem set_method_static_special_roundtrip_witness :
    Fresh (initialize_entry zero 42) ∧
    (Bytecodes._invokestatic = Bytecodes._invokestatic ∨
      Bytecodes._invokestatic = Bytecodes._invokespecial) ∧
    ∃ e', set_method Header.sample (initialize_entry zero 42)
        Bytecodes._invokestatic Method.sample (-1) = some e' ∧
      e'._f1 = Method.sample.addr ∧ bytecode_1 e' = Bytecodes._invokestatic ∧
      method_if_resolved Header.sample Universe.sample ConstantPool.sample e' =
        Method.sample.addr :=
  ⟨by decide, Or.inl rfl,
    set_method_static_special_roundtrip Header.sample Universe.sample
      ConstantPool.sample (initialize_entry zero 42) Method.sample (-1)
      Bytecodes._invokestatic (by decide) (Or.inl rfl)⟩

/-- C2: on a freshly initialised entry `set_method` with `invokevirtual`
returns an entry with `bytecode_2 = invokevirtual`.  For a method that can be
statically bound `is_vfinal` is set, `_f2` is the method and
`method_if_resolved` returns the method.  Otherwise (the method has at most
255 parameter slots, the index is an `int`, and the constant-pool tag at the
holder-class index of the entry is a resolved class) `_f2` is the vtable
index and `method_if_resolved` returns that slot of the vtable of the holder,
with `Object` in place of a holder that is not an instance class. -/
theorem set_method_virtual_roundtrip (H : Header) (hV : H.Valid) (U : Universe)
    (cpool : ConstantPool) (e : ConstantPoolCacheEntry) (M : Method)
    (idx : Int) (he : Fresh e) :
    (M.can_be_statically_bound = true →
      ∃ e', set_method H e Bytecodes._invokevirtual M idx = some e' ∧
        is_vfinal H e' = true ∧ e'._f2 = M.addr ∧
        bytecode_2 e' = Bytecodes._invokevirtual ∧
        method_if_resolved H U cpool e' = M.addr) ∧
    (M.can_be_statically_bound = false → M.size_of_parameters ≤ 255 →
      is_int idx →
      cpool.tag_is_klass
        (cpool.uncached_klass_ref_index_at (constant_pool_index e)) = true →
      ∃ e', set_method H e Bytecodes._invokevirtual M idx = some e' ∧
        e'._f2 = idx ∧ bytecode_2 e' = Bytecodes._invokevirtual ∧
        method_if_resolved H U cpool e' =
          U.method_at_vtable
            (if U.oop_is_instance (cpool.resolved_klass_at
                (cpool.uncached_klass_ref_index_at (constant_pool_index e)))
              then cpool.resolved_klass_at
                (cpool.uncached_klass_ref_index_at (constant_pool_index e))
              else U.Object_klass)
            idx) := by
  obtain ⟨-, -, hfl, hb1, hb2⟩ := he
  constructor
  · intro hb
    have key : ∃ e', set_method H e Bytecodes._invokevirtual M idx = some e' ∧
        is_vfinal H e' = true ∧ e'._f2 = M.addr ∧ bytecode_1 e' = 0 ∧
        bytecode_2 e' = Bytecodes._invokevirtual := by
      refine ⟨_, set_method_virtual_vfinal H e M idx hb, ?_, ?_, ?_, ?_⟩
      · simp only [is_vfinal_eq, set_bytecode_2_flags, set_f2_as_vfinal_method_words,
          set_method_flags_of_zero H e _ _ _ hfl]
        apply testBit_make_flags_of_option H hV _ _ _ _ _ (by simp [Header.option_shifts])
        simp [Nat.testBit_or, Bits.testBit_one_shift]
      · simp
      · simp [hb1]
      · simp [hb2, Bytecodes._invokevirtual]
    obtain ⟨e', he', hvf, hf2, h1, h2⟩ := key
    refine ⟨e', he', hvf, hf2, h2, ?_⟩
    rw [method_if_resolved_second H U cpool e' (Or.inl h1)]
    simp [h2, hvf, hf2]
  · intro hb hp hint htag
    have key : ∃ e', set_method H e Bytecodes._invokevirtual M idx = some e' ∧
        is_vfinal H e' = false ∧ e'._f2 = idx ∧ bytecode_1 e' = 0 ∧
        bytecode_2 e' = Bytecodes._invokevirtual ∧
        constant_pool_index e' = constant_pool_index e := by
      refine ⟨_, set_method_virtual_vtable H e M idx hb, ?_, ?_, ?_, ?_, ?_⟩
      · simp only [is_vfinal_eq, set_bytecode_2_flags, set_f2_words,
          set_method_flags_of_zero H e _ _ _ hfl]
        rw [testBit_make_flags_option H hV _ _ _ _ _ (by simp [Header.option_shifts])
          (lt_field_index_of_le_255 H hV hp)]
        simp [hfl]
      · simp
      · simp [hb1]
      · simp [hb2, Bytecodes._invokevirtual]
      · simp
    obtain ⟨e', he', hvf, hf2, h1, h2, hcp⟩ := key
    refine ⟨e', he', hf2, h2, ?_⟩
    rw [method_if_resolved_second H U cpool e' (Or.inl h1)]
    simp [h2, hvf, hcp, htag, f2_as_index, hf2, to_int_of_is_int hint]

/-- Witness of C2: the sample final method (vfinal) and the sample method
at vtable index 7 (vtable), both on the entry initialised with index 42. -/
theorem set_method_virtual_roundtrip_witness :
    Header.sample.Valid ∧ Fresh (initialize_entry zero 42) ∧
    (Method.sample_final.can_be_statically_bound = true ∧
      ∃ e', set_method Header.sample (initialize_entry zero 42)
          Bytecodes._invokevirtual Method.sample_final (-1) = some e' ∧
        is_vfinal Header.sample e' = true ∧ e'._f2 = 6000 ∧
        bytecode_2 e' = Bytecodes._invokevirtual ∧
        method_if_resolved Header.sample Universe.sample ConstantPool.sample e'
          = 6000) ∧
    (Method.sample.can_be_statically_bound = false ∧
      Method.sample.size_of_parameters ≤ 255 ∧ is_int 7 ∧
      ∃ e', set_method Header.sample (initialize_entry zero 42)
          Bytecodes._invokevirtual Method.sample 7 = some e' ∧
        e'._f2 = 7 ∧ bytecode_2 e' = Bytecodes._invokevirtual ∧
        method_if_resolved Header.sample Universe.sample ConstantPool.sample e'
          = 100007) :=
  ⟨by decide, by decide,
    ⟨rfl, (set_method_virtual_roundtrip Header.sample (by decide)
      Universe.sample ConstantPool.sample (initialize_entry zero 42)
      Method.sample_final (-1) (by decide)).1 rfl⟩,
    ⟨rfl, by decide, by decide,
      (set_method_virtual_roundtrip Header.sample (by decide)
        Universe.sample ConstantPool.sample (initialize_entry zero 42)
        Method.sample 7 (by decide)).2 rfl (by decide) (by decide) rfl⟩⟩

/-- C3: on a freshly initialised entry, `set_interface_call` with a method
of at most 255 parameter slots whose holder is an interface (a non-null
class) and an `int` itable index leaves `_f1` the interface, `_f2` the index,
`bytecode_1 = invokeinterface` and `is_vfinal` clear, and `method_if_resolved`
returns the itable lookup of interface and index. -/
theorem set_interface_call_roundtrip (H : Header) (hV : H.Valid) (U : Universe)
    (cpool : ConstantPool) (e : ConstantPoolCacheEntry) (M : Method)
    (idx : Int) (he : Fresh e) (hI : M.method_holder ≠ 0)
    (hp : M.size_of_parameters ≤ 255) (hidx : is_int idx) :
    (set_interface_call H e M idx)._f1 = M.method_holder ∧
    (set_interface_call H e M idx)._f2 = idx ∧
    bytecode_1 (set_interface_call H e M idx) = Bytecodes._invokeinterface ∧
    is_vfinal H (set_interface_call H e M idx) = false ∧
    method_if_resolved H U cpool (set_interface_call H e M idx) =
      U.method_for_itable_index M.method_holder idx := by
  obtain ⟨-, -, hfl, hb1, hb2⟩ := he
  have h1 : (set_interface_call H e M idx)._f1 = M.method_holder := by
    simp [set_interface_call]
  have h2 : (set_interface_call H e M idx)._f2 = idx := by
    simp [set_interface_call]
  have h3 : bytecode_1 (set_interface_call H e M idx) =
      Bytecodes._invokeinterface := by
    simp [set_interface_call, hb1, Bytecodes._invokeinterface]
  refine ⟨h1, h2, h3, ?_, ?_⟩
  · have hz : (set_f2 (set_f1 e M.method_holder) idx)._flags = 0 := by simpa using hfl
    simp only [set_interface_call, is_vfinal_eq, set_bytecode_1_flags,
      set_method_flags_of_zero H _ _ _ _ hz]
    rw [testBit_make_flags_option H hV _ _ _ _ _ (by simp [Header.option_shifts])
      (lt_field_index_of_le_255 H hV hp)]
    simp [hfl]
  · rw [method_if_resolved_interface H U cpool _ (by rw [h1]; exact hI) h3, h1,
      f2_as_index, h2, to_int_of_is_int hidx]

/-- Witness of C3: the sample method with itable index 3 on the entry
initialised with constant-pool index 42. -/
theorem set_interface_call_roundtrip_witness :
    Header.sample.Valid ∧ Fresh (initialize_entry zero 42) ∧
    Method.sample.method_holder ≠ 0 ∧ Method.sample.size_of_parameters ≤ 255 ∧
    is_int 3 ∧
    (set_interface_call Header.sample (initialize_entry zero 42) Method.sample 3)._f1
      = 1000 ∧
    (set_interface_call Header.sample (initialize_entry zero 42) Method.sample 3)._f2
      = 3 ∧
    bytecode_1 (set_interface_call Header.sample (initialize_entry zero 42)
      Method.sample 3) = Bytecodes._invokeinterface ∧
    is_vfinal Header.sample (set_interface_call Header.sample
      (initialize_entry zero 42) Method.sample 3) = false ∧
    method_if_resolved Header.sample Universe.sample ConstantPool.sample
      (set_interface_call Header.sample (initialize_entry zero 42) Method.sample 3)
      = 100053 :=
  ⟨by decide, by decide, by decide, by decide, by decide,
    set_interface_call_roundtrip Header.sample (by decide) Universe.sample
      ConstantPool.sample (initialize_entry zero 42) Method.sample 3 (by decide)
      (by decide) (by decide) (by decide)⟩

/-- C5: after `set_field` with field-access bytecodes (or zero) on a freshly
initialised entry, `method_if_resolved` returns `NULL`, for every constant
pool, holder, field index, offset, type and flags. -/
theorem set_field_method_if_resolved (H : Header) (hV : H.Valid) (U : Universe)
    (cpool : ConstantPool) (e : ConstantPoolCacheEntry)
    (get_code put_code : Nat) (field_holder : Ptr) (field_index : Nat)
    (field_offset : Int) (field_type : Nat) (is_final is_volatile : Bool)
    (he : Fresh e) (hg : FieldCode get_code) (hpc : FieldCode put_code) :
    method_if_resolved H U cpool
      (set_field H e get_code put_code field_holder field_index field_offset
        field_type is_final is_volatile) = 0 := by
  obtain ⟨-, -, -, hb1, hb2⟩ := he
  have hih := hV.2.2.2.1
  have hg256 : get_code < 256 := by
    rcases hg with h | h | h | h | h <;> rw [h] <;> decide
  have hp256 : put_code < 256 := by
    rcases hpc with h | h | h | h | h <;> rw [h] <;> decide
  have h1 : bytecode_1 (set_field H e get_code put_code field_holder field_index
      field_offset field_type is_final is_volatile) = get_code := by
    simp [set_field, hb1, Nat.mod_eq_of_lt hg256]
  have h2 : bytecode_2 (set_field H e get_code put_code field_holder field_index
      field_offset field_type is_final is_volatile) = put_code := by
    simp [set_field, hb2, Nat.mod_eq_of_lt hp256]
  rw [method_if_resolved_second, h2, if_neg]
  · rcases hpc with h | h | h | h | h <;> rw [h] <;> decide
  · rw [h1]
    rcases hg with h | h | h | h | h
    · exact Or.inl h
    all_goals
      refine Or.inr (Or.inr ?_)
      rw [h]
      simp only [Bytecodes._getstatic, Bytecodes._putstatic, Bytecodes._getfield,
        Bytecodes._putfield, Bytecodes._invokeinterface, Bytecodes._invokestatic,
        Bytecodes._invokespecial, Bytecodes._invokedynamic]
      omega

/-- Witness of C5: a final `int` field at offset 16 of the class at 1000,
resolved for `getfield` and `putfield`. -/
theorem set_field_method_if_resolved_witness :
    Header.sample.Valid ∧ Fresh (initialize_entry zero 42) ∧
    FieldCode Bytecodes._getfield ∧ FieldCode Bytecodes._putfield ∧
    method_if_resolved Header.sample Universe.sample ConstantPool.sample
      (set_field Header.sample (initialize_entry zero 42) Bytecodes._getfield
        Bytecodes._putfield 1000 5 16 3 true false) = 0 :=
  ⟨by decide, by decide, by decide, by decide,
    set_field_method_if_resolved Header.sample (by decide) Universe.sample
      ConstantPool.sample (initialize_entry zero 42) Bytecodes._getfield
      Bytecodes._putfield 1000 5 16 3 true false (by decide) (by decide)
      (by decide)⟩

/-- C7: after `set_field` on the entry freshly initialised with
constant-pool index `i`, with byte-sized bytecodes, a type-of-stack code that
fits its four bits and a field index that fits the low flag bits, the entry
has `bytecode_1 = get_code`, `bytecode_2 = put_code`, `_f1 = holder`,
`_f2 = field_offset`, `constant_pool_index() = i`, and the flags decode to
exactly the field type, `is_final`, `is_volatile` and the field index. -/
theorem set_field_decodes (H : Header) (hV : H.Valid) (i : Nat)
    (hi : i < 0x10000) (get_code put_code : Nat) (hg : get_code < 256)
    (hpc : put_code < 256) (field_holder : Ptr) (field_index : Nat)
    (hfi : field_index &&& field_index_mask H = field_index)
    (field_offset : Int) (field_type : Nat) (hft : field_type < 16)
    (is_final_ is_volatile_ : Bool) :
    let e' := set_field H (initialize_entry zero i) get_code put_code
      field_holder field_index field_offset field_type is_final_ is_volatile_
    bytecode_1 e' = get_code ∧ bytecode_2 e' = put_code ∧
    e'._f1 = field_holder ∧ e'._f2 = field_offset ∧
    constant_pool_index e' = i ∧ flag_state e' = field_type ∧
    is_final H e' = is_final_ ∧ is_volatile H e' = is_volatile_ ∧
    ConstantPoolCacheEntry.field_index H e' = field_index := by
  intro e'
  obtain ⟨⟨-, -, hfl, hb1, hb2⟩, hcp⟩ := initialize_entry_fresh i hi
  obtain ⟨h8, hr, hd, hd', -, -⟩ := Header.Valid.unpack hV
  simp [Header.option_shifts] at hd hd'
  have hidx : field_index < 2 ^ H.field_index_bits := by
    rw [field_index_mask, Nat.and_pow_two_sub_one_eq_mod] at hfi
    rw [← hfi]; exact Nat.mod_lt _ (Nat.two_pow_pos _)
  have hflags : e'._flags = make_flags (initialize_entry zero i) field_type
      ((((if is_volatile_ then 1 else 0) <<< H.is_volatile_shift) |||
        ((if is_final_ then 1 else 0) <<< H.is_final_shift)) |||
        (1 <<< H.is_field_entry_shift)) field_index := by
    have hz : (set_f2 (set_f1 (initialize_entry zero i) field_holder)
        field_offset)._flags = 0 := by simpa using hfl
    simp only [e', set_field, set_bytecode_1_flags, set_bytecode_2_flags,
      set_field_flags_of_zero H _ _ _ _ hz]
    rfl
  have hob : OptionBits H
      ((((if is_volatile_ then 1 else 0) <<< H.is_volatile_shift) |||
        ((if is_final_ then 1 else 0) <<< H.is_final_shift)) |||
        (1 <<< H.is_field_entry_shift)) :=
    optionBits_or H
      (optionBits_or H
        (optionBits_bool_shift H _ (by simp [Header.option_shifts]))
        (optionBits_bool_shift H _ (by simp [Header.option_shifts])))
      (optionBits_one_shift H (by simp [Header.option_shifts]))
  refine ⟨?_, ?_, ?_, ?_, ?_, ?_, ?_, ?_, ?_⟩
  · simp [e', set_field, hb1, Nat.mod_eq_of_lt hg]
  · simp [e', set_field, hb2, Nat.mod_eq_of_lt hpc]
  · simp [e', set_field]
  · simp [e', set_field]
  · simp [e', set_field, hcp]
  · rw [flag_state, hflags]
    exact flag_state_make_flags H hV _ hfl _ _ _ hft hob hidx
  · rw [is_final_eq, hflags, testBit_make_flags_option H hV _ _ _ _ _
      (by simp [Header.option_shifts]) hidx]
    simp only [hfl, Nat.zero_testBit, Nat.testBit_or, Bits.testBit_one_shift,
      Bits.testBit_bool_shift]
    simp [hd, hd']
  · rw [is_volatile_eq, hflags, testBit_make_flags_option H hV _ _ _ _ _
      (by simp [Header.option_shifts]) hidx]
    simp only [hfl, Nat.zero_testBit, Nat.testBit_or, Bits.testBit_one_shift,
      Bits.testBit_bool_shift]
    simp [hd, hd']
  · rw [ConstantPoolCacheEntry.field_index, hflags, field_index_mask]
    exact low_make_flags H hV _ hfl _ _ _ _ (Nat.le_refl _) hob hidx

/-- Witness of C7: constant-pool index 42, holder at 1000, offset 16, type
code 3 (`int`), final, not volatile, `getfield` / `putfield`, field index 5. -/
theorem set_field_decodes_witness :
    Header.sample.Valid ∧ 42 < 0x10000 ∧ Bytecodes._getfield < 256 ∧
    Bytecodes._putfield < 256 ∧ 5 &&& field_index_mask Header.sample = 5 ∧
    3 < 16 ∧
    (let e' := set_field Header.sample (initialize_entry zero 42)
      Bytecodes._getfield Bytecodes._putfield 1000 5 16 3 true false
    bytecode_1 e' = Bytecodes._getfield ∧ bytecode_2 e' = Bytecodes._putfield ∧
    e'._f1 = 1000 ∧ e'._f2 = 16 ∧
    constant_pool_index e' = 42 ∧ flag_state e' = 3 ∧
    is_final Header.sample e' = true ∧ is_volatile Header.sample e' = false ∧
    field_index Header.sample e' = 5) :=
  ⟨by decide, by decide, by decide, by decide, by decide, by decide,
    set_field_decodes Header.sample (by decide) 42 (by decide)
      Bytecodes._getfield Bytecodes._putfield (by decide) (by decide) 1000 5
      (by decide) 16 3 (by decide) true false⟩

/-- Branch of `set_method_handle_common` taken when `_f1` is already set. -/
theorem set_method_handle_common_published (H : Header)
    (e : ConstantPoolCacheEntry) (invoke_code : Nat) (adapter : Method)
    (appendix : Ptr) (refs : objArray) (hf1 : e._f1 ≠ 0) :
    set_method_handle_common H e invoke_code adapter appendix refs
      = some (e, refs) := by
  simp [set_method_handle_common, is_f1_null, hf1]

/-- Branch of `set_method_handle_common` for a null `_f1` and no appendix. -/
theorem set_method_handle_common_plain (H : Header)
    (e : ConstantPoolCacheEntry) (invoke_code : Nat) (adapter : Method)
    (refs : objArray) (hf1 : e._f1 = 0) :
    set_method_handle_common H e invoke_code adapter 0 refs
      = some (set_bytecode_1 (release_set_f1
          (set_method_flags H e adapter.result_tos (1 <<< H.is_final_shift)
            adapter.size_of_parameters) adapter.addr) invoke_code, refs) := by
  simp [set_method_handle_common, is_f1_null, hf1]

/-- Branch of `set_method_handle_common` for a null `_f1` and an appendix
whose store succeeds. -/
theorem set_method_handle_common_appendix (H : Header)
    (e : ConstantPoolCacheEntry) (invoke_code : Nat) (adapter : Method)
    (appendix : Ptr) (refs refs' : objArray) (hf1 : e._f1 = 0)
    (ha : appendix ≠ 0)
    (hput : refs.obj_at_put (to_int e._f2) appendix = some refs') :
    set_method_handle_common H e invoke_code adapter appendix refs
      = some (set_bytecode_1 (release_set_f1
          (set_method_flags H e adapter.result_tos
            ((1 <<< H.has_appendix_shift) ||| (1 <<< H.is_final_shift))
            adapter.size_of_parameters) adapter.addr) invoke_code, refs') := by
  simp [set_method_handle_common, is_f1_null, hf1, ha, f2_as_index, hput]

/-- The entry and the array `set_method_handle_common` returns on an entry
whose `_f1` is null and whose `bytecode_1` is zero, when `_f2` is the index
of an empty slot of the array. -/
theorem set_method_handle_common_publishes (H : Header) (hV : H.Valid)
    (U : Universe) (e : ConstantPoolCacheEntry) (invoke_code : Nat)
    (adapter : Method) (appendix : Ptr) (refs : objArray)
    (hb1 : bytecode_1 e = 0) (hf1 : e._f1 = 0)
    (hcas : H.flags_cas = true → e._flags = 0)
    (hlo : 0 ≤ e._f2) (hhi : e._f2 < refs.length)
    (hlen : (refs.length : Int) < 2 ^ 31)
    (hslot : refs.obj_at e._f2 = some 0)
    (hA : adapter.addr ≠ 0) (hp : adapter.size_of_parameters ≤ 255)
    (hc : invoke_code = H._invokehandle ∨
      invoke_code = Bytecodes._invokedynamic) :
    ∃ e' refs', set_method_handle_common H e invoke_code adapter appendix refs
        = some (e', refs') ∧
      bytecode_1 e' = invoke_code ∧
      (∀ cpool, method_if_resolved H U cpool e' = adapter.addr) ∧
      (∀ cpool : ConstantPool, cpool.resolved_references = refs' →
        appendix_if_resolved H cpool e' = some appendix) := by
  obtain ⟨h8, hr, hd, hd', hl, hu⟩ := Header.Valid.unpack hV
  simp [Header.option_shifts] at hd hd'
  have hcode : invoke_code < 256 := by
    rcases hc with h | h
    · rw [h]; exact hu
    · rw [h]; decide
  have hint : is_int e._f2 := ⟨by omega, by omega⟩
  have happ : ∀ ob, has_appendix H (set_bytecode_1 (release_set_f1
      (set_method_flags H e adapter.result_tos ob adapter.size_of_parameters)
      adapter.addr) invoke_code) =
        (e._flags.testBit H.has_appendix_shift ||
          ob.testBit H.has_appendix_shift) := by
    intro ob
    simp only [has_appendix_eq, set_bytecode_1_flags, release_set_f1_words,
      set_method_flags_flags H e _ _ _ hcas]
    exact testBit_make_flags_option H hV _ _ _ _ _ (by simp [Header.option_shifts])
      (lt_field_index_of_le_255 H hV hp)
  have hnn : ∀ e1, is_f1_null (set_bytecode_1 (release_set_f1 e1 adapter.addr)
      invoke_code) = false := by
    intro e1; simp [is_f1_null, hA]
  have hdec : ∀ (e1 : ConstantPoolCacheEntry) (cpool : ConstantPool),
      bytecode_1 e1 = 0 →
      method_if_resolved H U cpool
        (set_bytecode_1 (release_set_f1 e1 adapter.addr) invoke_code)
        = adapter.addr := by
    intro e1 cpool h0
    have hbc : bytecode_1 (set_bytecode_1 (release_set_f1 e1 adapter.addr)
        invoke_code) = invoke_code := by
      simp [h0, Nat.mod_eq_of_lt hcode]
    rw [method_if_resolved_f1 H U cpool _ (by simpa using hA) _ hl]
    · simp
    · rw [hbc]
      rcases hc with h | h
      · exact Or.inr (Or.inr (Or.inl h))
      · exact Or.inr (Or.inr (Or.inr h))
  by_cases ha : appendix = 0
  · subst ha
    refine ⟨_, refs, set_method_handle_common_plain H e invoke_code adapter refs hf1,
      ?_, ?_, ?_⟩
    · simp [hb1, Nat.mod_eq_of_lt hcode]
    · intro cpool; exact hdec _ cpool (by simp [hb1])
    · intro cpool hrefs
      unfold appendix_if_resolved
      rw [happ, hnn]
      cases hold : e._flags.testBit H.has_appendix_shift
      · simp only [Bits.testBit_one_shift]
        simp [hd, hd']
      · simp [hrefs, f2_as_index, to_int_of_is_int hint, hslot]
  · have hput : refs.obj_at_put (to_int e._f2) appendix =
        some (refs.set e._f2.toNat appendix) := by
      rw [to_int_of_is_int hint]
      unfold objArray.obj_at_put
      rw [if_pos]
      exact ⟨hlo, by omega⟩
    refine ⟨_, refs.set e._f2.toNat appendix,
      set_method_handle_common_appendix H e invoke_code adapter appendix refs _
        hf1 ha hput, ?_, ?_, ?_⟩
    · simp [hb1, Nat.mod_eq_of_lt hcode]
    · intro cpool; exact hdec _ cpool (by simp [hb1])
    · intro cpool hrefs
      unfold appendix_if_resolved
      rw [happ, hnn]
      simp only [Nat.testBit_or, Bits.testBit_one_shift]
      simp [hrefs, f2_as_index, to_int_of_is_int hint, objArray.obj_at, hlo]
      rw [List.getElem?_set_self]
      · omega

/-- C4: on an initialised entry (`bytecode_1` zero) with a null `_f1` whose
`_f2` is the index of an empty slot of the resolved-references array, for a
non-null adapter of at most 255 parameter slots and every appendix (null or
not), `set_method_handle` and `set_dynamic_call` return an entry with
`bytecode_1` equal to `invokehandle`, respectively `invokedynamic`, on which
`method_if_resolved` returns the adapter and `appendix_if_resolved`, reading
the array returned, returns the appendix (`NULL` for a null appendix).  When
the flags are written by compare-and-swap from zero they are taken to be
still zero. -/
theorem set_method_handle_roundtrip (H : Header) (hV : H.Valid) (U : Universe)
    (e : ConstantPoolCacheEntry) (adapter : Method) (appendix : Ptr)
    (refs : objArray)
    (hb1 : bytecode_1 e = 0) (hf1 : e._f1 = 0)
    (hcas : H.flags_cas = true → e._flags = 0)
    (hlo : 0 ≤ e._f2) (hhi : e._f2 < refs.length)
    (hlen : (refs.length : Int) < 2 ^ 31)
    (hslot : refs.obj_at e._f2 = some 0)
    (hA : adapter.addr ≠ 0) (hp : adapter.size_of_parameters ≤ 255) :
    (∃ e' refs', set_method_handle H e adapter appendix refs = some (e', refs') ∧
      bytecode_1 e' = H._invokehandle ∧
      (∀ cpool, method_if_resolved H U cpool e' = adapter.addr) ∧
      (∀ cpool : ConstantPool, cpool.resolved_references = refs' →
        appendix_if_resolved H cpool e' = some appendix)) ∧
    (∃ e' refs', set_dynamic_call H e adapter appendix refs = some (e', refs') ∧
      bytecode_1 e' = Bytecodes._invokedynamic ∧
      (∀ cpool, method_if_resolved H U cpool e' = adapter.addr) ∧
      (∀ cpool : ConstantPool, cpool.resolved_references = refs' →
        appendix_if_resolved H cpool e' = some appendix)) :=
  ⟨set_method_handle_common_publishes H hV U e H._invokehandle adapter appendix
      refs hb1 hf1 hcas hlo hhi hlen hslot hA hp (Or.inl rfl),
    set_method_handle_common_publishes H hV U e Bytecodes._invokedynamic adapter
      appendix refs hb1 hf1 hcas hlo hhi hlen hslot hA hp (Or.inr rfl)⟩

/-- Witness of C4: the entry with constant-pool index 42 and reference
index 3, an array of four empty slots, the adapter at 6000 and the appendix
at 7000, with the flags stored by compare-and-swap. -/
theorem set_method_handle_roundtrip_witness :
    Header.sample_cas.Valid ∧
    bytecode_1 (initialize_resolved_reference_index (initialize_entry zero 42) 3)
      = 0 ∧
    (initialize_resolved_reference_index (initialize_entry zero 42) 3)._f1 = 0 ∧
    (Header.sample_cas.flags_cas = true →
      (initialize_resolved_reference_index (initialize_entry zero 42) 3)._flags
        = 0) ∧
    0 ≤ (initialize_resolved_reference_index (initialize_entry zero 42) 3)._f2 ∧
    (initialize_resolved_reference_index (initialize_entry zero 42) 3)._f2
      < ([0, 0, 0, 0] : objArray).length ∧
    ((([0, 0, 0, 0] : objArray).length : Int) < 2 ^ 31) ∧
    objArray.obj_at [0, 0, 0, 0]
      (initialize_resolved_reference_index (initialize_entry zero 42) 3)._f2
      = some 0 ∧
    Method.sample_final.addr ≠ 0 ∧
    Method.sample_final.size_of_parameters ≤ 255 ∧
    (∃ e' refs', set_method_handle Header.sample_cas
        (initialize_resolved_reference_index (initialize_entry zero 42) 3)
        Method.sample_final 7000 [0, 0, 0, 0] = some (e', refs') ∧
      bytecode_1 e' = Header.sample_cas._invokehandle ∧
      (∀ cpool, method_if_resolved Header.sample_cas Universe.sample cpool e'
        = Method.sample_final.addr) ∧
      (∀ cpool : ConstantPool, cpool.resolved_references = refs' →
        appendix_if_resolved Header.sample_cas cpool e' = some 7000)) ∧
    (∃ e' refs', set_dynamic_call Header.sample_cas
        (initialize_resolved_reference_index (initialize_entry zero 42) 3)
        Method.sample_final 7000 [0, 0, 0, 0] = some (e', refs') ∧
      bytecode_1 e' = Bytecodes._invokedynamic ∧
      (∀ cpool, method_if_resolved Header.sample_cas Universe.sample cpool e'
        = Method.sample_final.addr) ∧
      (∀ cpool : ConstantPool, cpool.resolved_references = refs' →
        appendix_if_resolved Header.sample_cas cpool e' = some 7000)) :=
  ⟨by decide, by decide, by decide, by decide, by decide, by decide, by decide,
    by decide, by decide, by decide,
    set_method_handle_roundtrip Header.sample_cas (by decide) Universe.sample
      (initialize_resolved_reference_index (initialize_entry zero 42) 3)
      Method.sample_final 7000 [0, 0, 0, 0] (by decide) (by decide) (by decide)
      (by decide) (by decide) (by decide) (by decide) (by decide) (by decide)⟩

theorem constant_pool_index_set_field (H : Header) (e : ConstantPoolCacheEntry)
    (g p : Nat) (h : Ptr) (fi : Nat) (fo : Int) (ft : Nat) (fin vol : Bool) :
    constant_pool_index (set_field H e g p h fi fo ft fin vol)
      = constant_pool_index e := by
  simp [set_field]

theorem constant_pool_index_set_method (H : Header) (e e' : ConstantPoolCacheEntry)
    (code : Nat) (m : Method) (v : Int)
    (h : set_method H e code m v = some e') :
    constant_pool_index e' = constant_pool_index e := by
  unfold set_method at h
  split at h
  · simp only [Option.some.injEq] at h
    subst h
    by_cases h1 : m.can_be_statically_bound = true <;>
    by_cases h2 : code = Bytecodes._invokeinterface <;>
    by_cases h3 : m.is_public = true <;> simp [h1, h2, h3]
  · split at h
    · simp only [Option.some.injEq] at h
      subst h
      simp
    · exact absurd h (by simp)

theorem constant_pool_index_set_interface_call (H : Header)
    (e : ConstantPoolCacheEntry) (m : Method) (i : Int) :
    constant_pool_index (set_interface_call H e m i) = constant_pool_index e := by
  simp [set_interface_call]

theorem constant_pool_index_set_method_handle_common (H : Header)
    (e e' : ConstantPoolCacheEntry) (code : Nat) (a : Method) (ap : Ptr)
    (refs refs' : objArray)
    (h : set_method_handle_common H e code a ap refs = some (e', refs')) :
    constant_pool_index e' = constant_pool_index e := by
  by_cases hf : e._f1 = 0
  · by_cases ha : ap = 0
    · subst ha
      rw [set_method_handle_common_plain H e code a refs hf] at h
      simp only [Option.some.injEq, Prod.mk.injEq] at h
      rw [← h.1]; simp
    · cases hput : refs.obj_at_put (to_int e._f2) ap with
      | none =>
        simp [set_method_handle_common, is_f1_null, hf, ha, f2_as_index, hput] at h
      | some r =>
        rw [set_method_handle_common_appendix H e code a ap refs r hf ha hput] at h
        simp only [Option.some.injEq, Prod.mk.injEq] at h
        rw [← h.1]; simp
  · rw [set_method_handle_common_published H e code a ap refs hf] at h
    simp only [Option.some.injEq, Prod.mk.injEq] at h
    rw [← h.1]

theorem constant_pool_index_set_parameter_size (e e' : ConstantPoolCacheEntry)
    (v : Int) (h : set_parameter_size e v = some e') :
    constant_pool_index e' = constant_pool_index e := by
  unfold set_parameter_size at h
  dsimp only at h
  split at h
  all_goals
    split at h
    · simp only [Option.some.injEq] at h
      subst h
      exact (indices_accessors_congr rfl).1
    · exact absurd h (by simp)

theorem constant_pool_index_adjust_method_entry (H : Header)
    (e : ConstantPoolCacheEntry) (o n : Ptr) :
    constant_pool_index (adjust_method_entry H e o n).2 = constant_pool_index e := by
  unfold adjust_method_entry
  split
  · split <;> exact (indices_accessors_congr rfl).1
  · split
    · rfl
    · split <;> exact (indices_accessors_congr rfl).1

/-- No call changes the constant-pool index. -/
theorem Call.run_constant_pool_index (H : Header) (c : Call)
    (st st' : ConstantPoolCacheEntry × objArray) (h : Call.run H c st = some st') :
    constant_pool_index st'.1 = constant_pool_index st.1 := by
  cases c with
  | set_bytecode_1 code =>
    simp only [Call.run, Option.some.injEq] at h; subst h; simp
  | set_bytecode_2 code =>
    simp only [Call.run, Option.some.injEq] at h; subst h; simp
  | set_field g p hd fi fo ft fin vol =>
    simp only [Call.run, Option.some.injEq] at h; subst h
    exact constant_pool_index_set_field H _ _ _ _ _ _ _ _ _
  | set_method code m v =>
    simp only [Call.run, Option.map_eq_some'] at h
    obtain ⟨e', he', rfl⟩ := h
    exact constant_pool_index_set_method H _ _ _ _ _ he'
  | set_interface_call m i =>
    simp only [Call.run, Option.some.injEq] at h; subst h
    exact constant_pool_index_set_interface_call H _ _ _
  | set_method_handle_common code a ap =>
    simp only [Call.run] at h
    exact constant_pool_index_set_method_handle_common H _ _ _ _ _ _ st'.2 h
  | set_parameter_size v =>
    simp only [Call.run, Option.map_eq_some'] at h
    obtain ⟨e', he', rfl⟩ := h
    exact constant_pool_index_set_parameter_size _ _ _ he'
  | adjust_method_entry o n =>
    simp only [Call.run, Option.some.injEq] at h; subst h
    exact constant_pool_index_adjust_method_entry H _ _ _

theorem Call.runAll_constant_pool_index (H : Header) (cs : List Call) :
    ∀ (st st' : ConstantPoolCacheEntry × objArray),
      Call.runAll H cs st = some st' →
      constant_pool_index st'.1 = constant_pool_index st.1 := by
  induction cs with
  | nil =>
    intro st st' h
    simp only [Call.runAll, Option.some.injEq] at h
    rw [h]
  | cons c cs ih =>
    intro st st' h
    simp only [Call.runAll] at h
    cases hc : Call.run H c st with
    | none => rw [hc] at h; exact absurd h (by simp)
    | some st1 =>
      rw [hc] at h
      rw [ih st1 st' h, Call.run_constant_pool_index H c st st1 hc]

/-- C8: for every `i < 0x10000`, `initialize_entry(i)` makes
`constant_pool_index()` equal to `i`, and it is still `i` after every finite
sequence of `set_bytecode_1`, `set_bytecode_2`, `set_field`, `set_method`,
`set_interface_call`, `set_method_handle_common`, `set_parameter_size` and
`adjust_method_entry` calls that complete, whatever their arguments. -/
theorem constant_pool_index_immutable (H : Header) (i : Nat) (hi : i < 0x10000)
    (e : ConstantPoolCacheEntry) (refs : objArray) :
    constant_pool_index (initialize_entry e i) = i ∧
    ∀ (cs : List Call) (st : ConstantPoolCacheEntry × objArray),
      Call.runAll H cs (initialize_entry e i, refs) = some st →
      constant_pool_index st.1 = i := by
  have h0 : constant_pool_index (initialize_entry e i) = i := by
    simp only [constant_pool_index, initialize_entry, cp_index_mask, cp_index_bits]
    exact Nat.and_pow_two_sub_one_of_lt_two_pow (by simpa using hi)
  refine ⟨h0, ?_⟩
  intro cs st h
  rw [Call.runAll_constant_pool_index H cs _ st h, h0]

/-- Witness of C8: four calls on the entry initialised with index 42. -/
theorem constant_pool_index_immutable_witness :
    42 < 0x10000 ∧
    ∃ st, Call.runAll Header.sample
        [Call.set_parameter_size 2,
         Call.set_method Bytecodes._invokestatic Method.sample (-1),
         Call.set_bytecode_2 Bytecodes._invokevirtual,
         Call.adjust_method_entry 5000 5001]
        (initialize_entry zero 42, []) = some st ∧
      st.1._f1 = 5001 ∧ constant_pool_index st.1 = 42 :=
  ⟨by decide, _, rfl, rfl,
    (constant_pool_index_immutable Header.sample 42 (by decide) zero []).2
      [Call.set_parameter_size 2,
       Call.set_method Bytecodes._invokestatic Method.sample (-1),
       Call.set_bytecode_2 Bytecodes._invokevirtual,
       Call.adjust_method_entry 5000 5001] _ rfl⟩

theorem handle_calls_frozen (H : Header) (cs : List (Nat × Method × Ptr)) :
    ∀ (st : ConstantPoolCacheEntry × objArray), st.1._f1 ≠ 0 →
      Call.runAll H (handle_calls cs) st = some st := by
  induction cs with
  | nil => intro st _; rfl
  | cons c cs ih =>
    intro st hst
    have h1 : Call.run H (Call.set_method_handle_common c.1 c.2.1 c.2.2) st
        = some st := by
      simp only [Call.run]
      exact set_method_handle_common_published H st.1 c.1 c.2.1 c.2.2 st.2 hst
    simp only [handle_calls, List.map_cons, Call.runAll, h1]
    exact ih st hst

theorem set_method_handle_common_f1 (H : Header)
    (e e' : ConstantPoolCacheEntry) (code : Nat) (a : Method) (ap : Ptr)
    (refs refs' : objArray) (ha : a.addr ≠ 0)
    (h : set_method_handle_common H e code a ap refs = some (e', refs')) :
    e'._f1 ≠ 0 := by
  by_cases hf : e._f1 = 0
  · by_cases hap : ap = 0
    · subst hap
      rw [set_method_handle_common_plain H e code a refs hf] at h
      simp only [Option.some.injEq, Prod.mk.injEq] at h
      rw [← h.1]; simpa using ha
    · cases hput : refs.obj_at_put (to_int e._f2) ap with
      | none =>
        simp [set_method_handle_common, is_f1_null, hf, hap, f2_as_index, hput] at h
      | some r =>
        rw [set_method_handle_common_appendix H e code a ap refs r hf hap hput] at h
        simp only [Option.some.injEq, Prod.mk.injEq] at h
        rw [← h.1]; simpa using ha
  · rw [set_method_handle_common_published H e code a ap refs hf] at h
    simp only [Option.some.injEq, Prod.mk.injEq] at h
    rw [← h.1]; exact hf

/-- C9: on an entry whose `_f1` is non-null `set_method_handle_common`
returns with the entry and the resolved-references array unchanged, for
every invoke code, adapter and appendix; so every sequence of such calls
leaves a published entry and its array unchanged, and after the first call
that completes with a (non-null) adapter every later sequence of calls leaves
entry and array as that first call left them: the array is written at most
once. -/
theorem first_writer_wins (H : Header) :
    (∀ (e : ConstantPoolCacheEntry) (invoke_code : Nat) (adapter : Method)
        (appendix : Ptr) (refs : objArray), e._f1 ≠ 0 →
      set_method_handle_common H e invoke_code adapter appendix refs
        = some (e, refs)) ∧
    (∀ (cs : List (Nat × Method × Ptr))
        (st : ConstantPoolCacheEntry × objArray), st.1._f1 ≠ 0 →
      Call.runAll H (handle_calls cs) st = some st) ∧
    (∀ (invoke_code : Nat) (adapter : Method) (appendix : Ptr)
        (cs : List (Nat × Method × Ptr))
        (st st1 : ConstantPoolCacheEntry × objArray), adapter.addr ≠ 0 →
      set_method_handle_common H st.1 invoke_code adapter appendix st.2
        = some st1 →
      Call.runAll H (handle_calls ((invoke_code, adapter, appendix) :: cs)) st
        = some st1) := by
  refine ⟨?_, ?_, ?_⟩
  · intro e code a ap refs hf
    exact set_method_handle_common_published H e code a ap refs hf
  · intro cs st hst
    exact handle_calls_frozen H cs st hst
  · intro code a ap cs st st1 ha h
    have hf : st1.1._f1 ≠ 0 :=
      set_method_handle_common_f1 H st.1 st1.1 code a ap st.2 st1.2 ha h
    have h1 : Call.run H (Call.set_method_handle_common code a ap) st = some st1 := by
      simpa only [Call.run] using h
    simp only [handle_calls, List.map_cons, Call.runAll, h1]
    exact handle_calls_frozen H cs st1 hf

/-- Witness of C9: an entry published with the adapter at 6000 and the
appendix 7000 in slot 3 ignores a second call; and a first call followed by
two more leaves what the first call wrote. -/
theorem first_writer_wins_witness :
    ((⟨42, 6000, 3, 0⟩ : ConstantPoolCacheEntry)._f1 ≠ 0 ∧
      set_method_handle_common Header.sample ⟨42, 6000, 3, 0⟩
        Bytecodes._invokedynamic Method.sample 7001 [0, 0, 0, 7000]
        = some (⟨42, 6000, 3, 0⟩, [0, 0, 0, 7000])) ∧
    (Method.sample_final.addr ≠ 0 ∧
      ∃ st1, set_method_handle_common Header.sample
          (initialize_resolved_reference_index (initialize_entry zero 42) 3)
          Bytecodes._invokedynamic Method.sample_final 7000 [0, 0, 0, 0]
          = some st1 ∧ st1.2 = [0, 0, 0, 7000] ∧
        Call.runAll Header.sample
          (handle_calls [(Bytecodes._invokedynamic, Method.sample_final, 7000),
            (Bytecodes._invokedynamic, Method.sample, 7001),
            (Header.sample._invokehandle, Method.sample, 0)])
          (initialize_resolved_reference_index (initialize_entry zero 42) 3,
            [0, 0, 0, 0]) = some st1) :=
  ⟨⟨by decide, (first_writer_wins Header.sample).1 _ _ _ _ _ (by decide)⟩,
    by decide, _, rfl, rfl,
    (first_writer_wins Header.sample).2.2 Bytecodes._invokedynamic
      Method.sample_final 7000 _
      (initialize_resolved_reference_index (initialize_entry zero 42) 3,
        [0, 0, 0, 0]) _ (by decide) rfl⟩

/-- C10: `adjust_method_entry(old, new)` on a vfinal entry replaces `_f2` by
`new` exactly when `_f2 = old` and leaves `_f1`; on an entry that is not
vfinal it replaces `_f1` by `new` exactly when `_f1` is non-null and equal to
`old` and leaves `_f2`; in every case `_indices` (constant-pool index and
both bytecodes) and `_flags` are unchanged; an entry that is not vfinal and
has a null `_f1` is left as it was and decodes to the same method. -/
theorem adjust_method_entry_effect (H : Header) (e : ConstantPoolCacheEntry)
    (old_method new_method : Ptr) :
    (is_vfinal H e = true →
      (adjust_method_entry H e old_method new_method).2._f2
        = (if e._f2 = old_method then new_method else e._f2) ∧
      (adjust_method_entry H e old_method new_method).2._f1 = e._f1) ∧
    (is_vfinal H e = false →
      (adjust_method_entry H e old_method new_method).2._f1
        = (if e._f1 ≠ 0 ∧ e._f1 = old_method then new_method else e._f1) ∧
      (adjust_method_entry H e old_method new_method).2._f2 = e._f2) ∧
    (adjust_method_entry H e old_method new_method).2._indices = e._indices ∧
    constant_pool_index (adjust_method_entry H e old_method new_method).2
      = constant_pool_index e ∧
    bytecode_1 (adjust_method_entry H e old_method new_method).2 = bytecode_1 e ∧
    bytecode_2 (adjust_method_entry H e old_method new_method).2 = bytecode_2 e ∧
    (adjust_method_entry H e old_method new_method).2._flags = e._flags ∧
    (is_vfinal H e = false → e._f1 = 0 →
      (adjust_method_entry H e old_method new_method).2 = e ∧
      ∀ (U : Universe) (cpool : ConstantPool),
        method_if_resolved H U cpool
          (adjust_method_entry H e old_method new_method).2
          = method_if_resolved H U cpool e) := by
  have hind : (adjust_method_entry H e old_method new_method).2._indices
      = e._indices := by
    unfold adjust_method_entry
    split
    · split <;> rfl
    · split
      · rfl
      · split <;> rfl
  refine ⟨?_, ?_, hind, (indices_accessors_congr hind).1,
    (indices_accessors_congr hind).2.1, (indices_accessors_congr hind).2.2, ?_, ?_⟩
  · intro hv
    unfold adjust_method_entry
    simp only [hv, if_true, f2_as_vfinal_method]
    by_cases h : e._f2 = old_method <;> simp [h]
  · intro hv
    unfold adjust_method_entry
    simp only [hv]
    by_cases h0 : e._f1 = 0
    · simp [h0]
    · by_cases h : e._f1 = old_method
      · rw [if_neg (by simp), if_neg h0, if_pos h, if_pos ⟨h0, h⟩]
        exact ⟨rfl, rfl⟩
      · rw [if_neg (by simp), if_neg h0, if_neg h, if_neg (fun hh => h hh.2)]
        exact ⟨rfl, rfl⟩
  · unfold adjust_method_entry
    split
    · split <;> rfl
    · split
      · rfl
      · split <;> rfl
  · intro hv h0
    have : (adjust_method_entry H e old_method new_method).2 = e := by
      unfold adjust_method_entry
      simp [hv, h0]
    refine ⟨this, ?_⟩
    intro U cpool
    rw [this]

/-- Witness of C10: a vfinal entry holding the method at 6000 in `_f2`, and
a vtable entry (index 7, null `_f1`), both adjusted from 6000 to 6001. -/
theorem adjust_method_entry_effect_witness :
    (is_vfinal Header.sample ⟨42 + 182 * 2 ^ 24, 0, 6000, 2 ^ 21⟩ = true ∧
      (adjust_method_entry Header.sample ⟨42 + 182 * 2 ^ 24, 0, 6000, 2 ^ 21⟩
        6000 6001).2 = ⟨42 + 182 * 2 ^ 24, 0, 6001, 2 ^ 21⟩) ∧
    (is_vfinal Header.sample ⟨42 + 182 * 2 ^ 24, 0, 7, 2⟩ = false ∧
      (⟨42 + 182 * 2 ^ 24, 0, 7, 2⟩ : ConstantPoolCacheEntry)._f1 = 0 ∧
      (adjust_method_entry Header.sample ⟨42 + 182 * 2 ^ 24, 0, 7, 2⟩
        6000 6001).2 = ⟨42 + 182 * 2 ^ 24, 0, 7, 2⟩ ∧
      ∀ (U : Universe) (cpool : ConstantPool),
        method_if_resolved Header.sample U cpool
          (adjust_method_entry Header.sample ⟨42 + 182 * 2 ^ 24, 0, 7, 2⟩
            6000 6001).2
          = method_if_resolved Header.sample U cpool
            ⟨42 + 182 * 2 ^ 24, 0, 7, 2⟩) :=
  ⟨⟨by decide, by decide⟩, by decide, by decide,
    ((adjust_method_entry_effect Header.sample ⟨42 + 182 * 2 ^ 24, 0, 7, 2⟩
      6000 6001).2.2.2.2.2.2.2 (by decide) (by decide))⟩

end ConstantPoolCacheEntry

/-! ## Claims on redefinition and on the parameter size -/

namespace ConstantPoolCacheEntry

/-- Counterexample to C11 as stated: with `old = new` the call on an entry
whose `_f1` is that method returns true although the entry after the call is
the entry before it. -/
theorem adjust_method_entry_true_without_change :
    (adjust_method_entry Header.sample ⟨42, 6000, 0, 0⟩ 6000 6000).1 = true ∧
    (adjust_method_entry Header.sample ⟨42, 6000, 0, 0⟩ 6000 6000).2
      = ⟨42, 6000, 0, 0⟩ := by
  decide

/-- C11 (amended): `adjust_method_entry(old, new)` returns true exactly when
the method pointer of the entry (`_f2` of a vfinal entry, else a non-null
`_f1`) equals `old`; in that case `new` is stored there (the entry after the
call is the entry before it with `_f2`, respectively `_f1`, replaced by
`new`), and otherwise the entry is unchanged; when `old` and `new` differ, the
call returns true exactly when the entry after the call differs from the
entry before it; and on an entry that is not vfinal with a non-null
`_f1 = old` and `new` different from `old`, the first call returns true and
stores `new` in `_f1`, and a second identical call returns false. -/
theorem adjust_method_entry_result (H : Header) (e : ConstantPoolCacheEntry)
    (old_method new_method : Ptr) :
    ((adjust_method_entry H e old_method new_method).1 = true ↔
      (if is_vfinal H e then e._f2 = old_method
        else e._f1 ≠ 0 ∧ e._f1 = old_method)) ∧
    ((adjust_method_entry H e old_method new_method).1 = true →
      (adjust_method_entry H e old_method new_method).2 =
        (if is_vfinal H e then { e with _f2 := new_method }
          else { e with _f1 := new_method }) ∧
      method_pointer H (adjust_method_entry H e old_method new_method).2
        = new_method) ∧
    ((adjust_method_entry H e old_method new_method).1 = false →
      (adjust_method_entry H e old_method new_method).2 = e) ∧
    (old_method ≠ new_method →
      ((adjust_method_entry H e old_method new_method).1 = true ↔
        (adjust_method_entry H e old_method new_method).2 ≠ e)) ∧
    (is_vfinal H e = false → e._f1 = old_method → old_method ≠ 0 →
      old_method ≠ new_method →
      (adjust_method_entry H e old_method new_method).1 = true ∧
      (adjust_method_entry H e old_method new_method).2
        = { e with _f1 := new_method } ∧
      (adjust_method_entry H (adjust_method_entry H e old_method new_method).2
        old_method new_method).1 = false) := by
  refine ⟨?_, ?_, ?_, ?_, ?_⟩
  · unfold adjust_method_entry
    cases hv : is_vfinal H e
    · by_cases h0 : e._f1 = 0
      · simp [h0]
      · by_cases h : e._f1 = old_method
        · subst h; simp [h0]
        · simp [h0, h]
    · by_cases h : e._f2 = old_method
      · subst h; simp [f2_as_vfinal_method]
      · simp [f2_as_vfinal_method, h]
  · unfold adjust_method_entry
    cases hv : is_vfinal H e
    · have hv' : is_vfinal H { e with _f1 := new_method } = false := hv
      by_cases h0 : e._f1 = 0
      · simp [h0]
      · by_cases h : e._f1 = old_method
        · subst h; simp [h0, method_pointer, hv']
        · simp [h0, h]
    · have hv' : is_vfinal H { e with _f2 := new_method } = true := hv
      by_cases h : e._f2 = old_method
      · subst h; simp [f2_as_vfinal_method, method_pointer, hv']
      · simp [f2_as_vfinal_method, h]
  · unfold adjust_method_entry
    cases hv : is_vfinal H e
    · by_cases h0 : e._f1 = 0
      · simp [h0]
      · by_cases h : e._f1 = old_method
        · subst h; simp [h0]
        · simp [h0, h]
    · by_cases h : e._f2 = old_method
      · subst h; simp [f2_as_vfinal_method]
      · simp [f2_as_vfinal_method, h]
  · intro hne
    unfold adjust_method_entry
    cases hv : is_vfinal H e
    · by_cases h0 : e._f1 = 0
      · simp [h0]
      · by_cases h : e._f1 = old_method
        · subst h
          simp only [Bool.false_eq_true, if_false, h0, if_true, true_iff]
          intro hh
          have := congrArg ConstantPoolCacheEntry._f1 hh
          simp only at this
          exact hne this.symm
        · simp [h0, h]
    · by_cases h : e._f2 = old_method
      · subst h
        simp only [if_true, f2_as_vfinal_method, true_iff]
        intro hh
        have := congrArg ConstantPoolCacheEntry._f2 hh
        simp only at this
        exact hne this.symm
      · simp [f2_as_vfinal_method, h]
  · intro hv hf h0 hne
    subst hf
    have hv' : is_vfinal H { e with _f1 := new_method } = false := hv
    have hn : new_method ≠ e._f1 := fun h => hne h.symm
    refine ⟨?_, ?_, ?_⟩
    · simp [adjust_method_entry, hv, h0]
    · simp [adjust_method_entry, hv, h0]
    · simp only [adjust_method_entry, hv, h0, Bool.false_eq_true, if_false,
        if_true, hv']
      by_cases hz : new_method = 0 <;> simp [hz, hn]

/-- Witness of C11 (amended): the entry resolved for `invokestatic` of the
method at 5000, adjusted from 5000 to 5001. -/
theorem adjust_method_entry_result_witness :
    (5000 : Ptr) ≠ 5001 ∧
    is_vfinal Header.sample ⟨42 + 184 * 2 ^ 16, 5000, 0, 2⟩ = false ∧
    (5000 : Ptr) ≠ 0 ∧
    (adjust_method_entry Header.sample ⟨42 + 184 * 2 ^ 16, 5000, 0, 2⟩
      5000 5001).1 = true ∧
    (adjust_method_entry Header.sample ⟨42 + 184 * 2 ^ 16, 5000, 0, 2⟩
      5000 5001).2 = ⟨42 + 184 * 2 ^ 16, 5001, 0, 2⟩ ∧
    (adjust_method_entry Header.sample
      (adjust_method_entry Header.sample ⟨42 + 184 * 2 ^ 16, 5000, 0, 2⟩
        5000 5001).2 5000 5001).1 = false :=
  ⟨by decide, by decide, by decide,
    (adjust_method_entry_result Header.sample ⟨42 + 184 * 2 ^ 16, 5000, 0, 2⟩
      5000 5001).2.2.2.2 (by decide) rfl (by decide) (by decide)⟩

/-- Counterexample to C16 as stated: the flags are non-zero, the
parameter-size field (3) differs from the value (5), and the call does not
return: the `guarantee` at line 136 stops the VM. -/
theorem set_parameter_size_inconsistent_stops :
    (⟨42, 0, 0, 3⟩ : ConstantPoolCacheEntry)._flags ≠ 0 ∧
    (parameter_size ⟨42, 0, 0, 3⟩ : Int) ≠ 5 ∧
    set_parameter_size ⟨42, 0, 0, 3⟩ 5 = none := by
  decide

/-- C16 (amended): on an entry whose flags word is non-zero
`set_parameter_size(value)` writes nothing; it returns, with the entry
unchanged, when the parameter-size field equals `value`, and otherwise the
`guarantee` stops the VM. -/
theorem set_parameter_size_nonzero_flags (e : ConstantPoolCacheEntry)
    (value : Int) (hfl : e._flags ≠ 0) :
    set_parameter_size e value =
      if (parameter_size e : Int) = value then some e else none := by
  simp [set_parameter_size, hfl]

/-- Witness of C16 (amended): flags with parameter size 3, values 3 and 5. -/
theorem set_parameter_size_nonzero_flags_witness :
    (⟨42, 0, 0, 3⟩ : ConstantPoolCacheEntry)._flags ≠ 0 ∧
    set_parameter_size ⟨42, 0, 0, 3⟩ 3 = some ⟨42, 0, 0, 3⟩ ∧
    set_parameter_size ⟨42, 0, 0, 3⟩ 5 = none :=
  ⟨by decide,
    (set_parameter_size_nonzero_flags ⟨42, 0, 0, 3⟩ 3 (by decide)).trans rfl,
    (set_parameter_size_nonzero_flags ⟨42, 0, 0, 3⟩ 5 (by decide)).trans rfl⟩

/-- C17: for `0 ≤ value ≤ 255`, `set_parameter_size(value)` on an entry whose
flags are zero returns with `_flags = value` and `parameter_size() = value`
and leaves `_indices`, `_f1` and `_f2`; on an entry whose flags are non-zero
and whose parameter-size field equals `value` it returns with the entry
unchanged (the final check holds in both cases, as the call returns). -/
theorem set_parameter_size_effect (e : ConstantPoolCacheEntry) (value : Int)
    (h0 : 0 ≤ value) (h255 : value ≤ 255) :
    (e._flags = 0 →
      ∃ e', set_parameter_size e value = some e' ∧
        (e'._flags : Int) = value ∧ (parameter_size e' : Int) = value ∧
        e'._indices = e._indices ∧ e'._f1 = e._f1 ∧ e'._f2 = e._f2) ∧
    (e._flags ≠ 0 → (parameter_size e : Int) = value →
      set_parameter_size e value = some e ∧ (parameter_size e : Int) = value) := by
  constructor
  · intro hfl
    have hmod : value % 2 ^ parameter_size_bits = value := by
      simp only [parameter_size_bits]; omega
    have hlt : value.toNat < 2 ^ 8 := by omega
    have hps : parameter_size { e with _flags := value.toNat } = value.toNat := by
      simp only [parameter_size, parameter_size_mask, parameter_size_bits]
      exact Nat.and_pow_two_sub_one_of_lt_two_pow hlt
    have hcast : ((value.toNat : Nat) : Int) = value := Int.toNat_of_nonneg h0
    refine ⟨{ e with _flags := value.toNat }, ?_, hcast, ?_, rfl, rfl, rfl⟩
    · simp only [set_parameter_size, hfl, if_true, hmod, hps, hcast]
    · rw [hps, hcast]
  · intro hfl hps
    refine ⟨?_, hps⟩
    simp [set_parameter_size, hfl, hps]

/-- Witness of C17: value 2 on the fresh entry with index 42, and value 3 on
an entry whose parameter-size field is 3. -/
theorem set_parameter_size_effect_witness :
    (0 : Int) ≤ 2 ∧ (2 : Int) ≤ 255 ∧ (initialize_entry zero 42)._flags = 0 ∧
    (∃ e', set_parameter_size (initialize_entry zero 42) 2 = some e' ∧
      (e'._flags : Int) = 2 ∧ (parameter_size e' : Int) = 2 ∧
      e'._indices = (initialize_entry zero 42)._indices ∧
      e'._f1 = (initialize_entry zero 42)._f1 ∧
      e'._f2 = (initialize_entry zero 42)._f2) ∧
    (⟨42, 0, 0, 3⟩ : ConstantPoolCacheEntry)._flags ≠ 0 ∧
    (parameter_size ⟨42, 0, 0, 3⟩ : Int) = 3 ∧
    set_parameter_size ⟨42, 0, 0, 3⟩ 3 = some ⟨42, 0, 0, 3⟩ :=
  ⟨by decide, by decide, by decide,
    (set_parameter_size_effect (initialize_entry zero 42) 2 (by decide)
      (by decide)).1 (by decide),
    by decide, by decide,
    ((set_parameter_size_effect ⟨42, 0, 0, 3⟩ 3 (by decide) (by decide)).2
      (by decide) (by decide)).1⟩

end ConstantPoolCacheEntry

/-! ## The walk over the cache for redefinition -/

namespace ConstantPoolCache
open ConstantPoolCacheEntry

/-- On an entry that is vfinal or has a non-null `_f1`, `adjust_method_entry`
compares the method pointer with `old` and replaces it on a match. -/
theorem adjust_method_entry_eq (H : Header) (e : ConstantPoolCacheEntry)
    (old_method new_method : Ptr)
    (hnz : is_vfinal H e = false → e._f1 ≠ 0) :
    adjust_method_entry H e old_method new_method =
      if method_pointer H e = old_method then
        (true, replace_method_pointer H e new_method)
      else (false, e) := by
  unfold adjust_method_entry method_pointer replace_method_pointer
  cases hv : is_vfinal H e
  · simp [hnz hv]
  · simp [f2_as_vfinal_method]

/-- The loop over `j` finds the first index from `j` on whose old method is
the method pointer of the entry, and replaces the pointer there. -/
theorem adjust_method_entries_scan_eq (H : Header)
    (old_methods new_methods : Nat → Ptr) (e : ConstantPoolCacheEntry)
    (hnz : is_vfinal H e = false → e._f1 ≠ 0) (n : Nat) :
    ∀ j, adjust_method_entries_scan H old_methods new_methods j n e =
      match (List.range' j n).find? (fun i => old_methods i == method_pointer H e) with
      | some i => replace_method_pointer H e (new_methods i)
      | none => e := by
  induction n with
  | zero => intro j; simp [adjust_method_entries_scan]
  | succ n ih =>
    intro j
    simp only [adjust_method_entries_scan, adjust_method_entry_eq H e _ _ hnz,
      List.range'_succ, List.find?_cons]
    by_cases h : method_pointer H e = old_methods j
    · have hb : (old_methods j == method_pointer H e) = true := by simp [h]
      simp [h, hb]
    · have hb : (old_methods j == method_pointer H e) = false := by
        simpa using fun hh : old_methods j = method_pointer H e => h hh.symm
      simp [h, hb, ih (j + 1)]

/-- An interesting entry is vfinal or has a non-null `_f1`. -/
theorem is_interesting_method_entry_f1 (H : Header) (U : Universe)
    (e : ConstantPoolCacheEntry) (k : Ptr)
    (h : is_interesting_method_entry H U e k = true) :
    is_vfinal H e = false → e._f1 ≠ 0 := by
  intro hv hf
  simp [is_interesting_method_entry, hv, is_f1_null, hf] at h

/-- The walk over a non-empty array of methods maps every entry to what the
specification of one entry says. -/
theorem adjust_method_entries_eq_map (H : Header) (U : Universe)
    (cache : ConstantPoolCache) (old_methods new_methods : Nat → Ptr)
    (methods_length : Nat) (hlen : 0 < methods_length) :
    adjust_method_entries H U cache old_methods new_methods methods_length =
      cache.map (adjust_entry_spec H U old_methods new_methods methods_length) := by
  have hne : methods_length ≠ 0 := by omega
  simp only [adjust_method_entries, hne, if_false]
  apply List.map_congr_left
  intro e _
  unfold adjust_entry_spec least_match
  cases hi : is_interesting_method_entry H U e (U.method_holder (old_methods 0))
  · simp
  · simp only [Bool.not_true, Bool.false_eq_true, if_false, if_true]
    rw [adjust_method_entries_scan_eq H old_methods new_methods e
      (is_interesting_method_entry_f1 H U e _ hi), List.range_eq_range']

theorem least_match_some (old_methods : Nat → Ptr) (methods_length : Nat)
    (p : Ptr) (j : Nat) (h : least_match old_methods methods_length p = some j) :
    j < methods_length ∧ old_methods j = p := by
  unfold least_match at h
  have h1 := List.find?_some h
  have h2 := List.mem_of_find?_eq_some h
  exact ⟨List.mem_range.1 h2, by simpa using h1⟩

theorem least_match_none (old_methods : Nat → Ptr) (methods_length : Nat)
    (p : Ptr) (h : ∀ j, j < methods_length → old_methods j ≠ p) :
    least_match old_methods methods_length p = none := by
  unfold least_match
  rw [List.find?_eq_none]
  intro j hj
  simpa using h j (List.mem_range.1 hj)

theorem is_vfinal_replace_method_pointer (H : Header)
    (e : ConstantPoolCacheEntry) (m : Ptr) :
    is_vfinal H (replace_method_pointer H e m) = is_vfinal H e := by
  unfold replace_method_pointer
  split <;> rfl

theorem method_pointer_replace_method_pointer (H : Header)
    (e : ConstantPoolCacheEntry) (m : Ptr) :
    method_pointer H (replace_method_pointer H e m) = m := by
  have hv := is_vfinal_replace_method_pointer H e m
  unfold method_pointer
  rw [hv]
  unfold replace_method_pointer
  cases h : is_vfinal H e <;> simp

theorem replace_method_pointer_self (H : Header) (e : ConstantPoolCacheEntry) :
    replace_method_pointer H e (method_pointer H e) = e := by
  unfold replace_method_pointer method_pointer
  cases h : is_vfinal H e <;> simp

/-- The specification of one entry is idempotent when no new method is one
of the old methods. -/
theorem adjust_entry_spec_idem (H : Header) (U : Universe)
    (old_methods new_methods : Nat → Ptr) (methods_length : Nat)
    (hnew : ∀ j j', j < methods_length → j' < methods_length →
      new_methods j ≠ old_methods j')
    (e : ConstantPoolCacheEntry) :
    adjust_entry_spec H U old_methods new_methods methods_length
      (adjust_entry_spec H U old_methods new_methods methods_length e)
      = adjust_entry_spec H U old_methods new_methods methods_length e := by
  cases hi : is_interesting_method_entry H U e (U.method_holder (old_methods 0))
  · have h1 : adjust_entry_spec H U old_methods new_methods methods_length e = e := by
      simp [adjust_entry_spec, hi]
    rw [h1, h1]
  · cases hm : least_match old_methods methods_length (method_pointer H e) with
    | none =>
      have h1 : adjust_entry_spec H U old_methods new_methods methods_length e = e := by
        simp [adjust_entry_spec, hi, hm]
      rw [h1, h1]
    | some j =>
      have h1 : adjust_entry_spec H U old_methods new_methods methods_length e
          = replace_method_pointer H e (new_methods j) := by
        simp [adjust_entry_spec, hi, hm]
      obtain ⟨hj, -⟩ := least_match_some _ _ _ _ hm
      rw [h1]
      unfold adjust_entry_spec
      split
      · rw [method_pointer_replace_method_pointer,
          least_match_none old_methods methods_length (new_methods j)
            (fun j' hj' hh => hnew j j' hj hj' hh.symm)]
      · rfl

/-- The specification of one entry changes nothing when every new method is
the old method of the same index. -/
theorem adjust_entry_spec_same (H : Header) (U : Universe)
    (old_methods new_methods : Nat → Ptr) (methods_length : Nat)
    (hsame : ∀ j, j < methods_length → new_methods j = old_methods j)
    (e : ConstantPoolCacheEntry) :
    adjust_entry_spec H U old_methods new_methods methods_length e = e := by
  unfold adjust_entry_spec
  split
  · cases hm : least_match old_methods methods_length (method_pointer H e) with
    | none => rfl
    | some j =>
      obtain ⟨hj, hp⟩ := least_match_some _ _ _ _ hm
      simp only [hsame j hj, hp, replace_method_pointer_self]
  · rfl

/-- C12: with a methods array of length zero `adjust_method_entries` returns
the cache unchanged; with a non-zero length it leaves every entry for which
`is_interesting_method_entry(holder of old_methods[0])` is false, and in every
interesting entry replaces the method pointer (`_f2` if vfinal, else `_f1`)
by `new_methods[j]` for the least `j` with `old_methods[j]` equal to that
pointer, leaving the entry when there is no such `j`; nothing else of an
entry is written. -/
theorem adjust_method_entries_refines (H : Header) (U : Universe)
    (cache : ConstantPoolCache) (old_methods new_methods : Nat → Ptr)
    (methods_length : Nat) :
    (methods_length = 0 →
      adjust_method_entries H U cache old_methods new_methods methods_length
        = cache) ∧
    (0 < methods_length →
      adjust_method_entries H U cache old_methods new_methods methods_length
        = cache.map (adjust_entry_spec H U old_methods new_methods methods_length)) := by
  constructor
  · intro h; simp [adjust_method_entries, h]
  · intro h; exact adjust_method_entries_eq_map H U cache _ _ _ h

/-- Witness of C12: a cache of a fresh entry and an `invokestatic` entry of
the method at 5000, with the old methods 6000, 5000 and the new methods
6001, 5001. -/
theorem adjust_method_entries_refines_witness :
    ((0 : Nat) = 0 ∧
      adjust_method_entries Header.sample Universe.sample
        [⟨42, 0, 0, 0⟩, ⟨43 + 184 * 2 ^ 16, 5000, 0, 2⟩]
        (fun j => if j = 0 then 6000 else 5000)
        (fun j => if j = 0 then 6001 else 5001) 0
        = [⟨42, 0, 0, 0⟩, ⟨43 + 184 * 2 ^ 16, 5000, 0, 2⟩]) ∧
    ((0 : Nat) < 2 ∧
      adjust_method_entries Header.sample Universe.sample
        [⟨42, 0, 0, 0⟩, ⟨43 + 184 * 2 ^ 16, 5000, 0, 2⟩]
        (fun j => if j = 0 then 6000 else 5000)
        (fun j => if j = 0 then 6001 else 5001) 2
        = [⟨42, 0, 0, 0⟩, ⟨43 + 184 * 2 ^ 16, 5001, 0, 2⟩]) :=
  ⟨⟨rfl, (adjust_method_entries_refines Header.sample Universe.sample _ _ _ 0).1 rfl⟩,
    by decide,
    ((adjust_method_entries_refines Header.sample Universe.sample
      [⟨42, 0, 0, 0⟩, ⟨43 + 184 * 2 ^ 16, 5000, 0, 2⟩]
      (fun j => if j = 0 then 6000 else 5000)
      (fun j => if j = 0 then 6001 else 5001) 2).2 (by decide)).trans (by decide)⟩

/-- Counterexample to C14 as stated: with the old methods 5000, 6000 and the
new methods 6000, 6001 the first walk moves the entry from 5000 to 6000 and
the second walk moves the same entry on to 6001. -/
theorem adjust_method_entries_twice_differs :
    adjust_method_entries Header.sample Universe.sample
      [⟨42 + 184 * 2 ^ 16, 5000, 0, 2⟩]
      (fun j => if j = 0 then 5000 else 6000)
      (fun j => if j = 0 then 6000 else 6001) 2
      = [⟨42 + 184 * 2 ^ 16, 6000, 0, 2⟩] ∧
    adjust_method_entries Header.sample Universe.sample
      (adjust_method_entries Header.sample Universe.sample
        [⟨42 + 184 * 2 ^ 16, 5000, 0, 2⟩]
        (fun j => if j = 0 then 5000 else 6000)
        (fun j => if j = 0 then 6000 else 6001) 2)
      (fun j => if j = 0 then 5000 else 6000)
      (fun j => if j = 0 then 6000 else 6001) 2
      = [⟨42 + 184 * 2 ^ 16, 6001, 0, 2⟩] := by
  decide

/-- C14 (amended): when none of the new methods is one of the old methods,
the cache after two calls of `adjust_method_entries` with the same arguments
is the cache after one call; and when every new method is the old method of
the same index the call leaves the cache unchanged. -/
theorem adjust_method_entries_idempotent (H : Header) (U : Universe)
    (cache : ConstantPoolCache) (old_methods new_methods : Nat → Ptr)
    (methods_length : Nat) :
    ((∀ j j', j < methods_length → j' < methods_length →
        new_methods j ≠ old_methods j') →
      adjust_method_entries H U
        (adjust_method_entries H U cache old_methods new_methods methods_length)
        old_methods new_methods methods_length
        = adjust_method_entries H U cache old_methods new_methods methods_length) ∧
    ((∀ j, j < methods_length → new_methods j = old_methods j) →
      adjust_method_entries H U cache old_methods new_methods methods_length
        = cache) := by
  rcases Nat.eq_zero_or_pos methods_length with h0 | hpos
  · simp [adjust_method_entries, h0]
  · constructor
    · intro hnew
      rw [adjust_method_entries_eq_map H U _ _ _ _ hpos,
        adjust_method_entries_eq_map H U _ _ _ _ hpos, List.map_map]
      apply List.map_congr_left
      intro e _
      exact adjust_entry_spec_idem H U _ _ _ hnew e
    · intro hsame
      rw [adjust_method_entries_eq_map H U _ _ _ _ hpos]
      conv_rhs => rw [← List.map_id cache]
      apply List.map_congr_left
      intro e _
      exact adjust_entry_spec_same H U _ _ _ hsame e

/-- Witness of C14 (amended): the old method 5000 with the new method 5001,
walked twice; and the old method 5000 as its own new method. -/
theorem adjust_method_entries_idempotent_witness :
    ((∀ j j' : Nat, j < 1 → j' < 1 →
        (fun _ : Nat => (5001 : Ptr)) j ≠ (fun _ : Nat => (5000 : Ptr)) j') ∧
      adjust_method_entries Header.sample Universe.sample
        (adjust_method_entries Header.sample Universe.sample
          [⟨42 + 184 * 2 ^ 16, 5000, 0, 2⟩] (fun _ => 5000) (fun _ => 5001) 1)
        (fun _ => 5000) (fun _ => 5001) 1
        = adjust_method_entries Header.sample Universe.sample
          [⟨42 + 184 * 2 ^ 16, 5000, 0, 2⟩] (fun _ => 5000) (fun _ => 5001) 1) ∧
    ((∀ j : Nat, j < 1 →
        (fun _ : Nat => (5000 : Ptr)) j = (fun _ : Nat => (5000 : Ptr)) j) ∧
      adjust_method_entries Header.sample Universe.sample
        [⟨42 + 184 * 2 ^ 16, 5000, 0, 2⟩] (fun _ => 5000) (fun _ => 5000) 1
        = [⟨42 + 184 * 2 ^ 16, 5000, 0, 2⟩]) :=
  ⟨⟨fun _ _ _ _ => by simp,
      (adjust_method_entries_idempotent Header.sample Universe.sample
        [⟨42 + 184 * 2 ^ 16, 5000, 0, 2⟩] (fun _ => 5000) (fun _ => 5001) 1).1
        (fun _ _ _ _ => by simp)⟩,
    ⟨fun _ _ => rfl,
      (adjust_method_entries_idempotent Header.sample Universe.sample
        [⟨42 + 184 * 2 ^ 16, 5000, 0, 2⟩] (fun _ => 5000) (fun _ => 5000) 1).2
        (fun _ _ => rfl)⟩⟩

/-- C13, the code at the failing input: the entry resolved for `invokevirtual`
and then for `invokespecial` of the statically bound method at 6000 holds
the method in `_f1` and in `_f2` and is vfinal; `adjust_method_entries` with
the old method 6000 and the new method 6001 replaces `_f2` and leaves the old
method in `_f1`.  The same happens with the flags stored by compare-and-swap. -/
theorem adjust_method_entries_leaves_shared_f1 :
    (∃ e, Call.runAll Header.sample
        [Call.set_method Bytecodes._invokevirtual Method.sample_final (-1),
         Call.set_method Bytecodes._invokespecial Method.sample_final (-1)]
        (initialize_entry zero 42, []) = some (e, []) ∧
      e._f1 = 6000 ∧ e._f2 = 6000 ∧ is_vfinal Header.sample e = true ∧
      adjust_method_entries Header.sample Universe.sample [e]
        (fun _ => 6000) (fun _ => 6001) 1 = [{ e with _f2 := 6001 }] ∧
      holds_method Header.sample { e with _f2 := 6001 } 6000 = true) ∧
    (∃ e, Call.runAll Header.sample_cas
        [Call.set_method Bytecodes._invokevirtual Method.sample_final (-1),
         Call.set_method Bytecodes._invokespecial Method.sample_final (-1)]
        (initialize_entry zero 42, []) = some (e, []) ∧
      e._f1 = 6000 ∧ e._f2 = 6000 ∧ is_vfinal Header.sample_cas e = true ∧
      adjust_method_entries Header.sample_cas Universe.sample [e]
        (fun _ => 6000) (fun _ => 6001) 1 = [{ e with _f2 := 6001 }] ∧
      holds_method Header.sample_cas { e with _f2 := 6001 } 6000 = true) :=
  ⟨⟨_, rfl, by decide, by decide, by decide, by decide, by decide⟩,
    ⟨_, rfl, by decide, by decide, by decide, by decide, by decide⟩⟩

/-- C15, the code at the failing input: the only entry of the cache, at
index 0, is an interesting method entry whose `_f1` is the method at 6000,
which is marked old, and the check of that entry fails; the walk starts at
index 1 and returns true.  With an entry in front of it the same entry makes
the walk return false. -/
theorem check_no_old_entries_skips_entry_zero :
    is_interesting_method_entry Header.sample Universe.sample
      ⟨42 + 184 * 2 ^ 16, 6000, 0, 2⟩ 0 = true ∧
    ConstantPoolCacheEntry.check_no_old_entries Header.sample Universe.sample
      ⟨42 + 184 * 2 ^ 16, 6000, 0, 2⟩ = false ∧
    no_old_entries_spec Header.sample Universe.sample
      [⟨42 + 184 * 2 ^ 16, 6000, 0, 2⟩] = false ∧
    check_no_old_entries Header.sample Universe.sample
      [⟨42 + 184 * 2 ^ 16, 6000, 0, 2⟩] = true ∧
    check_no_old_entries Header.sample Universe.sample
      [⟨41, 0, 0, 0⟩, ⟨42 + 184 * 2 ^ 16, 6000, 0, 2⟩] = false := by
  decide

end ConstantPoolCache

/-! ## How the flags word evolves -/

namespace ConstantPoolCacheEntry

theorem entry_ext {a b : ConstantPoolCacheEntry} (h1 : a._indices = b._indices)
    (h2 : a._f1 = b._f1) (h3 : a._f2 = b._f2) (h4 : a._flags = b._flags) :
    a = b := by
  cases a; cases b
  simp only at h1 h2 h3 h4
  simp [h1, h2, h3, h4]

theorem or_idem_right (i b : Nat) : (i ||| b) ||| b = i ||| b := by
  rw [Nat.or_assoc, Nat.or_self]

theorem or_idem_two (i a b : Nat) : ((i ||| a ||| b) ||| a) ||| b = i ||| a ||| b := by
  apply Nat.eq_of_testBit_eq; intro j
  simp only [Nat.testBit_or]
  cases i.testBit j <;> cases a.testBit j <;> cases b.testBit j <;> rfl

/-- A flag bit below bit 32 that is set stays set when new flags are made
and stored, under either store discipline. -/
theorem set_flags_make_flags_testBit (H : Header) (e : ConstantPoolCacheEntry)
    (st ob p s : Nat) (hs : s < 32) (h : e._flags.testBit s = true) :
    (set_flags H e (make_flags e st ob p))._flags.testBit s = true := by
  have hne : e._flags ≠ 0 := by
    intro h0; rw [h0] at h; simp at h
  cases hc : H.flags_cas
  · simp [set_flags, hc, testBit_make_flags, hs, h]
  · simp [set_flags, hc, init_flags_atomic, hne, h]

/-- Making the same flags again on an entry whose flags were made from zero
gives the flags the entry has. -/
theorem make_flags_again (e0 e : ConstantPoolCacheEntry) (st ob p : Nat)
    (h0 : e0._flags = 0) (he : e._flags = make_flags e0 st ob p) :
    make_flags e st ob p = e._flags := by
  apply Nat.eq_of_testBit_eq; intro j
  rw [testBit_make_flags, he, testBit_make_flags, h0]
  by_cases hj : j < 32 <;> simp [hj]

/-- Storing the flags an entry has changes nothing. -/
theorem set_flags_same (H : Header) (e : ConstantPoolCacheEntry) :
    set_flags H e e._flags = e := by
  unfold set_flags init_flags_atomic
  split
  · split <;> rfl
  · rfl

/-- The parameter-size field of the word `make_flags` returns. -/
theorem parameter_size_make_flags (H : Header) (hV : H.Valid)
    (e : ConstantPoolCacheEntry) (st ob p : Nat) (hob : OptionBits H ob)
    (hp : p ≤ 255) :
    (make_flags e st ob p) &&& parameter_size_mask
      = (e._flags &&& parameter_size_mask) ||| p := by
  apply Nat.eq_of_testBit_eq; intro j
  simp only [parameter_size_mask, parameter_size_bits, Nat.testBit_and,
    Nat.testBit_or, Nat.testBit_two_pow_sub_one, testBit_make_flags]
  by_cases hj : j < 8
  · have h1 : ob.testBit j = false :=
      optionBits_testBit_false H hV hob (Or.inl (by have := hV.1; omega))
    have h3 : j < 32 := by omega
    have h4 : ¬ 28 ≤ j := by omega
    simp [h1, hj, h3, h4]
  · have : p.testBit j = false := Bits.testBit_small (n := 8) (by omega) (by omega)
    simp [hj, this]

/-- After `set_method_flags` with parameter size `p` the parameter size is
`p`, when the flags were zero or already held `p`. -/
theorem parameter_size_set_method_flags (H : Header) (hV : H.Valid)
    (e : ConstantPoolCacheEntry) (st ob p : Nat) (hob : OptionBits H ob)
    (hp : p ≤ 255) (hinv : e._flags = 0 ∨ parameter_size e = p) :
    parameter_size (set_method_flags H e st ob p) = p := by
  have hmk : make_flags e st ob p &&& parameter_size_mask = p := by
    rw [parameter_size_make_flags H hV e st ob p hob hp]
    rcases hinv with h | h
    · simp [h]
    · unfold parameter_size at h
      rw [h, Nat.or_self]
  unfold parameter_size set_method_flags set_flags init_flags_atomic
  cases hc : H.flags_cas
  · simpa using hmk
  · by_cases h0 : e._flags = 0
    · simpa [h0] using hmk
    · rcases hinv with h | h
      · exact absurd h h0
      · simpa [h0, parameter_size] using h

/-- The `invokeinterface` arm of `set_method`. -/
theorem set_method_interface (H : Header) (e : ConstantPoolCacheEntry)
    (M : Method) (vtable_index : Int) :
    set_method H e Bytecodes._invokeinterface M vtable_index =
      some (set_bytecode_2
        (if M.is_public then
          set_bytecode_1
            (if M.can_be_statically_bound then
              set_f2_as_vfinal_method (set_method_flags H e M.result_tos
                ((1 <<< H.is_vfinal_shift) |||
                 ((if M.is_final_method then 1 else 0) <<< H.is_final_shift) |||
                 (1 <<< H.is_forced_virtual_shift))
                M.size_of_parameters) M.addr
            else
              set_f2 (set_method_flags H e M.result_tos
                (1 <<< H.is_forced_virtual_shift) M.size_of_parameters)
                vtable_index)
            Bytecodes._invokeinterface
        else
          (if M.can_be_statically_bound then
            set_f2_as_vfinal_method (set_method_flags H e M.result_tos
              ((1 <<< H.is_vfinal_shift) |||
               ((if M.is_final_method then 1 else 0) <<< H.is_final_shift) |||
               (1 <<< H.is_forced_virtual_shift))
              M.size_of_parameters) M.addr
          else
            set_f2 (set_method_flags H e M.result_tos
              (1 <<< H.is_forced_virtual_shift) M.size_of_parameters)
              vtable_index))
        Bytecodes._invokevirtual) := by
  unfold set_method
  cases M.is_public <;> cases M.can_be_statically_bound <;>
    simp [Bytecodes._invokeinterface, Bytecodes._invokevirtual]

/-- The words of the entry `set_method` returns for `invokeinterface`:
`_indices` gets the two bytecodes, `_f1` is left, `_f2` is the method or the
vtable index, and the flags are those `set_method_flags` stores. -/
theorem set_method_interface_words (H : Header) (e : ConstantPoolCacheEntry)
    (M : Method) (vtable_index : Int) :
    ∃ e', set_method H e Bytecodes._invokeinterface M vtable_index = some e' ∧
      e'._indices = (e._indices |||
        ((if M.is_public then Bytecodes._invokeinterface else 0) <<< bytecode_1_shift))
        ||| (Bytecodes._invokevirtual <<< bytecode_2_shift) ∧
      e'._f1 = e._f1 ∧
      e'._f2 = (if M.can_be_statically_bound then M.addr else vtable_index) ∧
      e'._flags = (set_method_flags H e M.result_tos
        (if M.can_be_statically_bound then
          ((1 <<< H.is_vfinal_shift) |||
           ((if M.is_final_method then 1 else 0) <<< H.is_final_shift) |||
           (1 <<< H.is_forced_virtual_shift))
        else (1 <<< H.is_forced_virtual_shift))
        M.size_of_parameters)._flags := by
  refine ⟨_, set_method_interface H e M vtable_index, ?_, ?_, ?_, ?_⟩
  · cases M.is_public <;> cases M.can_be_statically_bound <;>
      simp [set_bytecode_1, set_bytecode_2, Bytecodes._invokeinterface,
        Bytecodes._invokevirtual]
  · cases M.is_public <;> cases M.can_be_statically_bound <;> simp
  · cases M.is_public <;> cases M.can_be_statically_bound <;> simp
  · cases M.is_public <;> cases M.can_be_statically_bound <;> simp

end ConstantPoolCacheEntry

/-! ## The flags a setter leaves -/

namespace ConstantPoolCacheEntry

/-- The flags `set_method` leaves are those `set_method_flags` stores for
the result type and parameter size of the method and some option bits. -/
theorem set_method_flags_word (H : Header) (e e' : ConstantPoolCacheEntry)
    (code : Nat) (M : Method) (idx : Int)
    (h : set_method H e code M idx = some e') :
    ∃ ob, OptionBits H ob ∧
      e'._flags = (set_method_flags H e M.result_tos ob
        M.size_of_parameters)._flags := by
  have hvf : H.is_vfinal_shift ∈ H.option_shifts := by simp [Header.option_shifts]
  have hfs : H.is_final_shift ∈ H.option_shifts := by simp [Header.option_shifts]
  have hfv : H.is_forced_virtual_shift ∈ H.option_shifts := by
    simp [Header.option_shifts]
  unfold set_method at h
  split at h
  · simp only [Option.some.injEq] at h
    subst h
    by_cases h1 : M.can_be_statically_bound = true
    · refine ⟨_, optionBits_or H (optionBits_or H (optionBits_one_shift H hvf)
        (optionBits_bool_shift H M.is_final_method hfs))
        (optionBits_bool_shift H (decide (code = Bytecodes._invokeinterface)) hfv), ?_⟩
      by_cases h2 : code = Bytecodes._invokeinterface <;>
      by_cases h3 : M.is_public = true <;> simp [h1, h2, h3]
    · refine ⟨_, optionBits_bool_shift H
        (decide (code = Bytecodes._invokeinterface)) hfv, ?_⟩
      by_cases h2 : code = Bytecodes._invokeinterface <;>
      by_cases h3 : M.is_public = true <;> simp [h1, h2, h3]
  · split at h
    · simp only [Option.some.injEq] at h
      subst h
      exact ⟨_, optionBits_or H (optionBits_bool_shift H (is_vfinal H e) hvf)
        (optionBits_bool_shift H M.is_final_method hfs), by simp⟩
    · exact absurd h (by simp)

/-- The flags `set_interface_call` leaves. -/
theorem set_interface_call_flags_word (H : Header) (e : ConstantPoolCacheEntry)
    (M : Method) (idx : Int) :
    (set_interface_call H e M idx)._flags =
      (set_method_flags H (set_f2 (set_f1 e M.method_holder) idx) M.result_tos 0
        M.size_of_parameters)._flags := by
  simp [set_interface_call]

/-- What `set_method_handle_common` leaves: the entry as it was when `_f1`
was set already, else flags stored by `set_method_flags` and `_f2` as it
was. -/
theorem set_method_handle_common_flags_word (H : Header)
    (e e' : ConstantPoolCacheEntry) (code : Nat) (a : Method) (ap : Ptr)
    (refs refs' : objArray)
    (h : set_method_handle_common H e code a ap refs = some (e', refs')) :
    (e._f1 ≠ 0 ∧ e' = e) ∨
    (e._f1 = 0 ∧ e'._f2 = e._f2 ∧ ∃ ob, OptionBits H ob ∧
      e'._flags = (set_method_flags H e a.result_tos ob
        a.size_of_parameters)._flags) := by
  have hha : H.has_appendix_shift ∈ H.option_shifts := by simp [Header.option_shifts]
  have hfs : H.is_final_shift ∈ H.option_shifts := by simp [Header.option_shifts]
  by_cases hf : e._f1 = 0
  · right
    by_cases hap : ap = 0
    · subst hap
      rw [set_method_handle_common_plain H e code a refs hf] at h
      simp only [Option.some.injEq, Prod.mk.injEq] at h
      rw [← h.1]
      exact ⟨hf, by simp, _, optionBits_one_shift H hfs, by simp⟩
    · cases hput : refs.obj_at_put (to_int e._f2) ap with
      | none =>
        simp [set_method_handle_common, is_f1_null, hf, hap, f2_as_index, hput] at h
      | some r =>
        rw [set_method_handle_common_appendix H e code a ap refs r hf hap hput] at h
        simp only [Option.some.injEq, Prod.mk.injEq] at h
        rw [← h.1]
        exact ⟨hf, by simp, _, optionBits_or H (optionBits_one_shift H hha)
          (optionBits_one_shift H hfs), by simp⟩
  · left
    rw [set_method_handle_common_published H e code a ap refs hf] at h
    simp only [Option.some.injEq, Prod.mk.injEq] at h
    exact ⟨hf, h.1.symm⟩

/-- A call that completes keeps every flag bit below bit 32 that was set. -/
theorem Call.run_testBit (H : Header) (c : Call)
    (st st' : ConstantPoolCacheEntry × objArray) (s : Nat) (hs : s < 32)
    (h : Call.run H c st = some st') (hb : st.1._flags.testBit s = true) :
    st'.1._flags.testBit s = true := by
  cases c with
  | set_bytecode_1 code =>
    simp only [Call.run, Option.some.injEq] at h; subst h; simpa using hb
  | set_bytecode_2 code =>
    simp only [Call.run, Option.some.injEq] at h; subst h; simpa using hb
  | set_field g p hd fi fo ft fin vol =>
    simp only [Call.run, Option.some.injEq] at h; subst h
    simp only [ConstantPoolCacheEntry.set_field, set_bytecode_2_flags,
      set_bytecode_1_flags, set_field_flags]
    exact set_flags_make_flags_testBit H _ _ _ _ s hs (by simpa using hb)
  | set_method code m v =>
    simp only [Call.run, Option.map_eq_some'] at h
    obtain ⟨e', he', rfl⟩ := h
    obtain ⟨ob, -, hw⟩ := set_method_flags_word H _ _ _ _ _ he'
    simp only [hw, set_method_flags]
    exact set_flags_make_flags_testBit H _ _ _ _ s hs hb
  | set_interface_call m i =>
    simp only [Call.run, Option.some.injEq] at h; subst h
    simp only [set_interface_call_flags_word, set_method_flags]
    exact set_flags_make_flags_testBit H _ _ _ _ s hs (by simpa using hb)
  | set_method_handle_common code a ap =>
    simp only [Call.run] at h
    rcases set_method_handle_common_flags_word H _ _ _ _ _ _ st'.2 h with
      ⟨-, he⟩ | ⟨-, -, ob, -, hw⟩
    · rw [he]; exact hb
    · simp only [hw, set_method_flags]
      exact set_flags_make_flags_testBit H _ _ _ _ s hs hb
  | set_parameter_size v =>
    simp only [Call.run, Option.map_eq_some'] at h
    obtain ⟨e', he', rfl⟩ := h
    have hne : st.1._flags ≠ 0 := by
      intro h0; rw [h0] at hb; simp at hb
    unfold ConstantPoolCacheEntry.set_parameter_size at he'
    dsimp only at he'
    rw [if_neg hne] at he'
    split at he'
    · simp only [Option.some.injEq] at he'
      rw [← he']; exact hb
    · exact absurd he' (by simp)
  | adjust_method_entry o n =>
    simp only [Call.run, Option.some.injEq] at h; subst h
    have : (ConstantPoolCacheEntry.adjust_method_entry H st.1 o n).2._flags
        = st.1._flags := by
      unfold ConstantPoolCacheEntry.adjust_method_entry
      split
      · split <;> rfl
      · split
        · rfl
        · split <;> rfl
    simp only [this]; exact hb

theorem Call.runAll_testBit (H : Header) (s : Nat) (hs : s < 32)
    (cs : List Call) :
    ∀ (st st' : ConstantPoolCacheEntry × objArray),
      Call.runAll H cs st = some st' → st.1._flags.testBit s = true →
      st'.1._flags.testBit s = true := by
  induction cs with
  | nil =>
    intro st st' h hb
    simp only [Call.runAll, Option.some.injEq] at h
    rw [← h]; exact hb
  | cons c cs ih =>
    intro st st' h hb
    simp only [Call.runAll] at h
    cases hc : Call.run H c st with
    | none => rw [hc] at h; exact absurd h (by simp)
    | some st1 =>
      rw [hc] at h
      exact ih st1 st' h (Call.run_testBit H c st st1 s hs hc hb)

end ConstantPoolCacheEntry

namespace ConstantPoolCacheEntry

/-- A setter call that supplies the parameter size `p` and completes leaves
`parameter_size() = p`, when it starts on an entry whose flags and `_f1` are
zero or whose parameter size is `p` already. -/
theorem Call.run_parameter_size (H : Header) (hV : H.Valid) (c : Call)
    (st st' : ConstantPoolCacheEntry × objArray) (p : Nat) (hp : p ≤ 255)
    (hs : c.supplied_size = some (p : Int))
    (hinv : (st.1._flags = 0 ∧ st.1._f1 = 0) ∨ parameter_size st.1 = p)
    (h : Call.run H c st = some st') :
    parameter_size st'.1 = p := by
  have hinv' : st.1._flags = 0 ∨ parameter_size st.1 = p := by
    rcases hinv with h1 | h1
    · exact Or.inl h1.1
    · exact Or.inr h1
  cases c with
  | set_bytecode_1 code => simp [Call.supplied_size] at hs
  | set_bytecode_2 code => simp [Call.supplied_size] at hs
  | set_field g q hd fi fo ft fin vol => simp [Call.supplied_size] at hs
  | adjust_method_entry o n => simp [Call.supplied_size] at hs
  | set_method code m v =>
    simp only [Call.supplied_size, Option.some.injEq, Nat.cast_inj] at hs
    simp only [Call.run, Option.map_eq_some'] at h
    obtain ⟨e', he', rfl⟩ := h
    obtain ⟨ob, hob, hw⟩ := set_method_flags_word H _ _ _ _ _ he'
    have := parameter_size_set_method_flags H hV st.1 m.result_tos ob p hob hp hinv'
    rw [hs] at hw
    simpa only [parameter_size, hw] using this
  | set_interface_call m i =>
    simp only [Call.supplied_size, Option.some.injEq, Nat.cast_inj] at hs
    simp only [Call.run, Option.some.injEq] at h; subst h
    have := parameter_size_set_method_flags H hV
      (set_f2 (set_f1 st.1 m.method_holder) i) m.result_tos 0 p
      (optionBits_zero H) hp hinv'
    have hw := set_interface_call_flags_word H st.1 m i
    rw [hs] at hw
    simpa only [parameter_size, hw] using this
  | set_method_handle_common code a ap =>
    simp only [Call.supplied_size, Option.some.injEq, Nat.cast_inj] at hs
    simp only [Call.run] at h
    rcases set_method_handle_common_flags_word H _ _ _ _ _ _ st'.2 h with
      ⟨hf, he⟩ | ⟨-, -, ob, hob, hw⟩
    · rw [he]
      rcases hinv with h1 | h1
      · exact absurd h1.2 hf
      · exact h1
    · have := parameter_size_set_method_flags H hV st.1 a.result_tos ob p hob hp hinv'
      rw [hs] at hw
      simpa only [parameter_size, hw] using this
  | set_parameter_size v =>
    simp only [Call.supplied_size, Option.some.injEq] at hs
    subst hs
    simp only [Call.run, Option.map_eq_some'] at h
    obtain ⟨e', he', rfl⟩ := h
    unfold ConstantPoolCacheEntry.set_parameter_size at he'
    dsimp only at he'
    split at he'
    all_goals
      split at he'
      · rename_i hg
        simp only [Option.some.injEq] at he'
        subst he'
        exact Int.ofNat_inj.1 hg
      · exact absurd he' (by simp)

theorem Call.runAll_parameter_size (H : Header) (hV : H.Valid) (p : Nat)
    (hp : p ≤ 255) (cs : List Call) :
    ∀ (st st' : ConstantPoolCacheEntry × objArray),
      (∀ c ∈ cs, c.supplied_size = some (p : Int)) →
      parameter_size st.1 = p → Call.runAll H cs st = some st' →
      parameter_size st'.1 = p := by
  induction cs with
  | nil =>
    intro st st' _ hps h
    simp only [Call.runAll, Option.some.injEq] at h
    rw [← h]; exact hps
  | cons c cs ih =>
    intro st st' hall hps h
    simp only [Call.runAll] at h
    cases hc : Call.run H c st with
    | none => rw [hc] at h; exact absurd h (by simp)
    | some st1 =>
      rw [hc] at h
      exact ih st1 st' (fun c' hc' => hall c' (List.mem_cons_of_mem _ hc'))
        (Call.run_parameter_size H hV c st st1 p hp
          (hall c (List.mem_cons_self _ _)) (Or.inr hps) hc) h

end ConstantPoolCacheEntry

/-! ## Claims on the flags -/

namespace ConstantPoolCacheEntry

/-- C19: on a freshly initialised entry `set_method(invokeinterface, M, idx)`
returns a virtual entry: `is_forced_virtual` is set, `bytecode_2` is
`invokevirtual`, `_f2` is the method if it can be statically bound and the
vtable index otherwise (with `is_vfinal` set accordingly, for a method of at
most 255 parameter slots), and `bytecode_1` is `invokeinterface` if the method
is public and zero if it is not; the same call on the entry returned returns
that entry again. -/
theorem set_method_interface_corner (H : Header) (hV : H.Valid)
    (e : ConstantPoolCacheEntry) (M : Method) (idx : Int) (he : Fresh e) :
    ∃ e', set_method H e Bytecodes._invokeinterface M idx = some e' ∧
      is_forced_virtual H e' = true ∧
      bytecode_2 e' = Bytecodes._invokevirtual ∧
      bytecode_1 e' = (if M.is_public then Bytecodes._invokeinterface else 0) ∧
      e'._f2 = (if M.can_be_statically_bound then M.addr else idx) ∧
      (M.size_of_parameters ≤ 255 →
        is_vfinal H e' = M.can_be_statically_bound) ∧
      set_method H e' Bytecodes._invokeinterface M idx = some e' := by
  obtain ⟨-, -, hfl, hb1, hb2⟩ := he
  obtain ⟨h8, hr, hd, hd', -, -⟩ := Header.Valid.unpack hV
  simp [Header.option_shifts] at hd hd'
  obtain ⟨e', he', hi, hf1, hf2, hflags⟩ := set_method_interface_words H e M idx
  rw [set_method_flags_of_zero H e _ _ _ hfl] at hflags
  have hidx : e'._indices = (set_bytecode_2 (set_bytecode_1 e
      (if M.is_public then Bytecodes._invokeinterface else 0))
      Bytecodes._invokevirtual)._indices := by
    rw [hi]
    cases M.is_public <;> rfl
  obtain ⟨-, hbc1, hbc2⟩ := indices_accessors_congr hidx
  refine ⟨e', he', ?_, ?_, ?_, hf2, ?_, ?_⟩
  · rw [is_forced_virtual_eq, hflags]
    apply testBit_make_flags_of_option H hV _ _ _ _ _ (by simp [Header.option_shifts])
    cases M.can_be_statically_bound
    · simp only [Bool.false_eq_true, if_false, Bits.testBit_one_shift]
      simp
    · simp only [if_true, Nat.testBit_or, Bits.testBit_one_shift]
      simp
  · rw [hbc2]
    simp [hb2, Bytecodes._invokevirtual]
  · rw [hbc1]
    cases M.is_public <;> simp [hb1, Bytecodes._invokeinterface]
  · intro hp
    rw [is_vfinal_eq, hflags, testBit_make_flags_option H hV _ _ _ _ _
      (by simp [Header.option_shifts]) (lt_field_index_of_le_255 H hV hp)]
    cases M.can_be_statically_bound
    · simp only [hfl, Nat.zero_testBit, Bool.false_eq_true, if_false,
        Bits.testBit_one_shift]
      simp [hd, hd']
    · simp only [hfl, Nat.zero_testBit, if_true, Nat.testBit_or,
        Bits.testBit_one_shift]
      simp
  · obtain ⟨e'', he'', hi2, hf12, hf22, hflags2⟩ :=
      set_method_interface_words H e' M idx
    rw [he'']
    congr 1
    apply entry_ext
    · rw [hi2, hi]; exact or_idem_two _ _ _
    · exact hf12
    · rw [hf22, hf2]
    · rw [hflags2]
      unfold set_method_flags
      rw [make_flags_again e e' _ _ _ hfl hflags, set_flags_same]

/-- Witness of C19: a method of `Object` that is not public, at vtable
index 4, on the entry initialised with constant-pool index 42. -/
theorem set_method_interface_corner_witness :
    Header.sample.Valid ∧ Fresh (initialize_entry zero 42) ∧
    ∃ e', set_method Header.sample (initialize_entry zero 42)
        Bytecodes._invokeinterface { Method.sample with is_public := false } 4
        = some e' ∧
      is_forced_virtual Header.sample e' = true ∧
      bytecode_2 e' = Bytecodes._invokevirtual ∧
      bytecode_1 e' = 0 ∧ e'._f2 = 4 ∧
      ((2 : Nat) ≤ 255 → is_vfinal Header.sample e' = false) ∧
      set_method Header.sample e' Bytecodes._invokeinterface
        { Method.sample with is_public := false } 4 = some e' :=
  ⟨by decide, by decide,
    set_method_interface_corner Header.sample (by decide)
      (initialize_entry zero 42) { Method.sample with is_public := false } 4
      (by decide)⟩

/-- C20: on a well-formed flag layout, a call of `set_bytecode_1`,
`set_bytecode_2`, `set_field`, `set_method` (with any invoke code),
`set_interface_call`, `set_method_handle_common`, `set_parameter_size` or
`adjust_method_entry` that completes on an entry with `is_vfinal()` true
leaves `is_vfinal()` true, and so does every sequence of such calls; and
`set_method` with `invokespecial` or `invokestatic` on a vfinal entry
completes, keeps the flag and leaves `_f2`. -/
theorem is_vfinal_monotone (H : Header) (hV : H.Valid) :
    (∀ (c : Call) (st st' : ConstantPoolCacheEntry × objArray),
      Call.run H c st = some st' → is_vfinal H st.1 = true →
      is_vfinal H st'.1 = true) ∧
    (∀ (cs : List Call) (st st' : ConstantPoolCacheEntry × objArray),
      Call.runAll H cs st = some st' → is_vfinal H st.1 = true →
      is_vfinal H st'.1 = true) ∧
    (∀ (e : ConstantPoolCacheEntry) (M : Method) (idx : Int) (code : Nat),
      code = Bytecodes._invokespecial ∨ code = Bytecodes._invokestatic →
      is_vfinal H e = true →
      ∃ e', set_method H e code M idx = some e' ∧ is_vfinal H e' = true ∧
        e'._f2 = e._f2) := by
  have hs : H.is_vfinal_shift < 32 := by
    have := hV.2.1 H.is_vfinal_shift (by simp [Header.option_shifts])
    omega
  refine ⟨?_, ?_, ?_⟩
  · intro c st st' h hv
    rw [is_vfinal_eq] at hv ⊢
    exact Call.run_testBit H c st st' _ hs h hv
  · intro cs st st' h hv
    rw [is_vfinal_eq] at hv ⊢
    exact Call.runAll_testBit H _ hs cs st st' h hv
  · intro e M idx code hc hv
    have harm := set_method_static_special H e M idx code hc.symm
    refine ⟨_, harm, ?_, by simp⟩
    have hrun : Call.run H (Call.set_method code M idx) (e, [])
        = some (set_bytecode_1 (set_f1 (set_method_flags H e M.result_tos
          (((if is_vfinal H e then 1 else 0) <<< H.is_vfinal_shift) |||
           ((if M.is_final_method then 1 else 0) <<< H.is_final_shift))
          M.size_of_parameters) M.addr) code, []) := by
      simp only [Call.run, harm, Option.map_some']
    rw [is_vfinal_eq] at hv ⊢
    exact Call.run_testBit H _ _ _ _ hs hrun hv

/-- Witness of C20: a vfinal entry holding the method at 6000, on which
`invokespecial` of that method is resolved, `bytecode_1` is written, the
parameter size is set again and the method is replaced. -/
theorem is_vfinal_monotone_witness :
    Header.sample.Valid ∧
    is_vfinal Header.sample
      (⟨42 + 182 * 2 ^ 24, 0, 6000, 2 ^ 21 + 1⟩ : ConstantPoolCacheEntry) = true ∧
    (Call.runAll Header.sample
        [Call.set_method Bytecodes._invokespecial Method.sample_final (-1),
         Call.set_bytecode_1 0, Call.set_parameter_size 1,
         Call.adjust_method_entry 6000 6001]
        (⟨42 + 182 * 2 ^ 24, 0, 6000, 2 ^ 21 + 1⟩, [])
        = some (⟨3065446442, 6000, 6001, 1889533953⟩, []) ∧
      is_vfinal Header.sample ⟨3065446442, 6000, 6001, 1889533953⟩ = true) ∧
    (∃ e', set_method Header.sample ⟨42 + 182 * 2 ^ 24, 0, 6000, 2 ^ 21 + 1⟩
        Bytecodes._invokespecial Method.sample_final (-1) = some e' ∧
      is_vfinal Header.sample e' = true ∧ e'._f2 = 6000) :=
  ⟨by decide, by decide,
    ⟨by decide,
      (is_vfinal_monotone Header.sample (by decide)).2.1
        [Call.set_method Bytecodes._invokespecial Method.sample_final (-1),
         Call.set_bytecode_1 0, Call.set_parameter_size 1,
         Call.adjust_method_entry 6000 6001]
        (⟨42 + 182 * 2 ^ 24, 0, 6000, 2 ^ 21 + 1⟩, [])
        (⟨3065446442, 6000, 6001, 1889533953⟩, []) (by decide) (by decide)⟩,
    (is_vfinal_monotone Header.sample (by decide)).2.2
      ⟨42 + 182 * 2 ^ 24, 0, 6000, 2 ^ 21 + 1⟩ Method.sample_final (-1)
      Bytecodes._invokespecial (Or.inl rfl) (by decide)⟩

/-- Counterexample to C18 as stated.  After `set_method(invokestatic)` with a
method of two parameter slots, `set_method_handle_common` with an adapter of
one slot completes (the entry is published already) and `parameter_size()` is
still 2; and `set_method(invokevirtual)` with a method of one slot leaves
`parameter_size()` 3 under a plain store of the flags and 2 under a
compare-and-swap from zero; the last setter supplied 1. -/
theorem parameter_size_not_last_supplied :
    (Call.set_method_handle_common Bytecodes._invokedynamic Method.sample_final
      0).supplied_size = some 1 ∧
    (Call.runAll Header.sample
      [Call.set_method Bytecodes._invokestatic Method.sample (-1),
       Call.set_method_handle_common Bytecodes._invokedynamic
         Method.sample_final 0]
      (initialize_entry zero 42, [])).map (fun st => parameter_size st.1)
      = some 2 ∧
    (Call.set_method Bytecodes._invokevirtual Method.sample_final
      (-1)).supplied_size = some 1 ∧
    (Call.runAll Header.sample
      [Call.set_method Bytecodes._invokestatic Method.sample (-1),
       Call.set_method Bytecodes._invokevirtual Method.sample_final (-1)]
      (initialize_entry zero 42, [])).map (fun st => parameter_size st.1)
      = some 3 ∧
    (Call.runAll Header.sample_cas
      [Call.set_method Bytecodes._invokestatic Method.sample (-1),
       Call.set_method Bytecodes._invokevirtual Method.sample_final (-1)]
      (initialize_entry zero 42, [])).map (fun st => parameter_size st.1)
      = some 2 := by
  decide

/-- C18 (amended): `parameter_size()` is at most 255 on every entry; and on an
initialised entry (flags zero, `_f1` null), after a non-empty sequence of
calls of `set_method`, `set_interface_call`, `set_method_handle_common` and
`set_parameter_size` that each complete and all supply the same parameter
size `p ≤ 255`, `parameter_size()` equals `p`. -/
theorem parameter_size_agreement (H : Header) (hV : H.Valid) :
    (∀ e : ConstantPoolCacheEntry, parameter_size e ≤ 255) ∧
    (∀ (e : ConstantPoolCacheEntry) (refs : objArray) (p : Nat) (c : Call)
        (cs : List Call) (st' : ConstantPoolCacheEntry × objArray),
      e._flags = 0 → e._f1 = 0 → p ≤ 255 →
      (∀ c' ∈ c :: cs, c'.supplied_size = some (p : Int)) →
      Call.runAll H (c :: cs) (e, refs) = some st' →
      parameter_size st'.1 = p) := by
  constructor
  · intro e
    have : parameter_size e < 2 ^ 8 := by
      simp only [parameter_size, parameter_size_mask, parameter_size_bits,
        Nat.and_pow_two_sub_one_eq_mod]
      exact Nat.mod_lt _ (by norm_num)
    omega
  · intro e refs p c cs st' hfl hf1 hp hall h
    simp only [Call.runAll] at h
    cases hc : Call.run H c (e, refs) with
    | none => rw [hc] at h; exact absurd h (by simp)
    | some st1 =>
      rw [hc] at h
      exact Call.runAll_parameter_size H hV p hp cs st1 st'
        (fun c' hc' => hall c' (List.mem_cons_of_mem _ hc'))
        (Call.run_parameter_size H hV c (e, refs) st1 p hp
          (hall c (List.mem_cons_self _ _)) (Or.inl ⟨hfl, hf1⟩) hc) h

/-- Witness of C18 (amended): the parameter size 2 set ahead of resolution,
then `invokestatic` of the method at 5000 (two slots), then the size again. -/
theorem parameter_size_agreement_witness :
    Header.sample.Valid ∧ (initialize_entry zero 42)._flags = 0 ∧
    (initialize_entry zero 42)._f1 = 0 ∧ (2 : Nat) ≤ 255 ∧
    (∀ c' ∈ [Call.set_parameter_size 2,
        Call.set_method Bytecodes._invokestatic Method.sample (-1),
        Call.set_parameter_size 2],
      c'.supplied_size = some ((2 : Nat) : Int)) ∧
    ∃ st', Call.runAll Header.sample
        [Call.set_parameter_size 2,
         Call.set_method Bytecodes._invokestatic Method.sample (-1),
         Call.set_parameter_size 2]
        (initialize_entry zero 42, []) = some st' ∧
      st'.1._f1 = 5000 ∧ parameter_size st'.1 = 2 :=
  ⟨by decide, by decide, by decide, by decide, by decide, _, rfl, rfl,
    (parameter_size_agreement Header.sample (by decide)).2
      (initialize_entry zero 42) [] 2 (Call.set_parameter_size 2)
      [Call.set_method Bytecodes._invokestatic Method.sample (-1),
       Call.set_parameter_size 2] _ (by decide) (by decide) (by decide)
      (by decide) rfl⟩

end ConstantPoolCacheEntry

/-! ## Claims on the bytecodes and on unresolved entries -/

namespace ConstantPoolCacheEntry

/-- What `set_method` does to the two bytecodes. -/
theorem set_method_bytecodes (H : Header) (e e' : ConstantPoolCacheEntry)
    (code : Nat) (M : Method) (idx : Int)
    (h : set_method H e code M idx = some e') :
    bytecode_1 e' = bytecode_1 e ||| (Call.set_method code M idx).code_1 % 256 ∧
    bytecode_2 e' = bytecode_2 e ||| (Call.set_method code M idx).code_2 % 256 := by
  unfold set_method at h
  split at h
  · rename_i hc
    simp only [Option.some.injEq] at h
    subst h
    rcases hc with hc | hc
    · subst hc
      cases h1 : M.can_be_statically_bound <;> cases h3 : M.is_public <;>
        simp [Call.code_1, Call.code_2, Bytecodes._invokeinterface,
          Bytecodes._invokevirtual, Bytecodes._invokespecial,
          Bytecodes._invokestatic, h1, h3]
    · subst hc
      cases h1 : M.can_be_statically_bound <;> cases h3 : M.is_public <;>
        simp [Call.code_1, Call.code_2, Bytecodes._invokeinterface,
          Bytecodes._invokevirtual, Bytecodes._invokespecial,
          Bytecodes._invokestatic, h1, h3]
  · rename_i hn
    split at h
    · rename_i hc
      simp only [Option.some.injEq] at h
      subst h
      rcases hc with hc | hc <;> subst hc <;>
        simp [Call.code_1, Call.code_2, Bytecodes._invokeinterface,
          Bytecodes._invokevirtual, Bytecodes._invokespecial,
          Bytecodes._invokestatic]
    · exact absurd h (by simp)

/-- A call that completes leaves `bytecode_1` or ORs its code into it, and
ORs its code for `bytecode_2` into `bytecode_2`. -/
theorem Call.run_bytecodes (H : Header) (c : Call)
    (st st' : ConstantPoolCacheEntry × objArray)
    (h : Call.run H c st = some st') :
    (bytecode_1 st'.1 = bytecode_1 st.1 ∨
      bytecode_1 st'.1 = bytecode_1 st.1 ||| c.code_1 % 256) ∧
    bytecode_2 st'.1 = bytecode_2 st.1 ||| c.code_2 % 256 := by
  cases c with
  | set_bytecode_1 code =>
    simp only [Call.run, Option.some.injEq] at h; subst h
    simp [Call.code_1, Call.code_2]
  | set_bytecode_2 code =>
    simp only [Call.run, Option.some.injEq] at h; subst h
    simp [Call.code_1, Call.code_2]
  | set_field g p hd fi fo ft fin vol =>
    simp only [Call.run, Option.some.injEq] at h; subst h
    simp [ConstantPoolCacheEntry.set_field, Call.code_1, Call.code_2]
  | set_method code m v =>
    simp only [Call.run, Option.map_eq_some'] at h
    obtain ⟨e', he', rfl⟩ := h
    obtain ⟨h1, h2⟩ := set_method_bytecodes H _ _ _ _ _ he'
    exact ⟨Or.inr h1, h2⟩
  | set_interface_call m i =>
    simp only [Call.run, Option.some.injEq] at h; subst h
    simp [ConstantPoolCacheEntry.set_interface_call, Call.code_1, Call.code_2,
      Bytecodes._invokeinterface]
  | set_method_handle_common code a ap =>
    simp only [Call.run] at h
    by_cases hf : st.1._f1 = 0
    · by_cases hap : ap = 0
      · subst hap
        rw [set_method_handle_common_plain H st.1 code a st.2 hf] at h
        simp only [Option.some.injEq] at h
        rw [← h]
        simp [Call.code_1, Call.code_2]
      · cases hput : st.2.obj_at_put (to_int st.1._f2) ap with
        | none =>
          simp [ConstantPoolCacheEntry.set_method_handle_common, is_f1_null, hf,
            hap, f2_as_index, hput] at h
        | some r =>
          rw [set_method_handle_common_appendix H st.1 code a ap st.2 r hf hap
            hput] at h
          simp only [Option.some.injEq] at h
          rw [← h]
          simp [Call.code_1, Call.code_2]
    · rw [set_method_handle_common_published H st.1 code a ap st.2 hf] at h
      simp only [Option.some.injEq] at h
      rw [← h]
      simp [Call.code_2]
  | set_parameter_size v =>
    simp only [Call.run, Option.map_eq_some'] at h
    obtain ⟨e', he', rfl⟩ := h
    unfold ConstantPoolCacheEntry.set_parameter_size at he'
    dsimp only at he'
    split at he'
    all_goals
      split at he'
      · simp only [Option.some.injEq] at he'
        subst he'
        refine ⟨Or.inl ?_, ?_⟩
        · exact (indices_accessors_congr rfl).2.1
        · exact ((indices_accessors_congr rfl).2.2).trans (Nat.or_zero _).symm
      · exact absurd he' (by simp)
  | adjust_method_entry o n =>
    simp only [Call.run, Option.some.injEq] at h; subst h
    have hi : (ConstantPoolCacheEntry.adjust_method_entry H st.1 o n).2._indices
        = st.1._indices := by
      unfold ConstantPoolCacheEntry.adjust_method_entry
      split
      · split <;> rfl
      · split
        · rfl
        · split <;> rfl
    refine ⟨Or.inl (indices_accessors_congr hi).2.1, ?_⟩
    simp only [Call.code_2, Nat.zero_mod, Nat.or_zero]
    exact (indices_accessors_congr hi).2.2

/-- A sequence of calls in which every code for `bytecode_1` is zero or `b`
keeps `bytecode_1 = b`. -/
theorem Call.runAll_bytecode_1 (H : Header) (b : Nat) (cs : List Call) :
    ∀ (st st' : ConstantPoolCacheEntry × objArray),
      (∀ c ∈ cs, c.code_1 % 256 = 0 ∨ c.code_1 % 256 = b) →
      bytecode_1 st.1 = b → Call.runAll H cs st = some st' →
      bytecode_1 st'.1 = b := by
  induction cs with
  | nil =>
    intro st st' _ hb h
    simp only [Call.runAll, Option.some.injEq] at h
    rw [← h]; exact hb
  | cons c cs ih =>
    intro st st' hall hb h
    simp only [Call.runAll] at h
    cases hc : Call.run H c st with
    | none => rw [hc] at h; exact absurd h (by simp)
    | some st1 =>
      rw [hc] at h
      refine ih st1 st' (fun c' hc' => hall c' (List.mem_cons_of_mem _ hc')) ?_ h
      rcases (Call.run_bytecodes H c st st1 hc).1 with h1 | h1
      · rw [h1, hb]
      · rcases hall c (List.mem_cons_self _ _) with h0 | h0
        · rw [h1, h0, hb, Nat.or_zero]
        · rw [h1, h0, hb, Nat.or_self]

/-- A sequence of calls in which every code for `bytecode_2` is zero or `b`
keeps `bytecode_2 = b`. -/
theorem Call.runAll_bytecode_2 (H : Header) (b : Nat) (cs : List Call) :
    ∀ (st st' : ConstantPoolCacheEntry × objArray),
      (∀ c ∈ cs, c.code_2 % 256 = 0 ∨ c.code_2 % 256 = b) →
      bytecode_2 st.1 = b → Call.runAll H cs st = some st' →
      bytecode_2 st'.1 = b := by
  induction cs with
  | nil =>
    intro st st' _ hb h
    simp only [Call.runAll, Option.some.injEq] at h
    rw [← h]; exact hb
  | cons c cs ih =>
    intro st st' hall hb h
    simp only [Call.runAll] at h
    cases hc : Call.run H c st with
    | none => rw [hc] at h; exact absurd h (by simp)
    | some st1 =>
      rw [hc] at h
      refine ih st1 st' (fun c' hc' => hall c' (List.mem_cons_of_mem _ hc')) ?_ h
      have h1 := (Call.run_bytecodes H c st st1 hc).2
      rcases hall c (List.mem_cons_self _ _) with h0 | h0
      · rw [h1, h0, hb, Nat.or_zero]
      · rw [h1, h0, hb, Nat.or_self]

theorem bytecode_1_lt (e : ConstantPoolCacheEntry) : bytecode_1 e < 256 := by
  unfold bytecode_1 bytecode_1_mask
  exact Nat.lt_of_le_of_lt Nat.and_le_right (by norm_num)

theorem bytecode_2_lt (e : ConstantPoolCacheEntry) : bytecode_2 e < 256 := by
  unfold bytecode_2 bytecode_2_mask
  exact Nat.lt_of_le_of_lt Nat.and_le_right (by norm_num)

/-- A checked store into `bytecode_1` that completes is the store, keeps a
non-zero `bytecode_1` and leaves `bytecode_2`. -/
theorem set_bytecode_1_checked_some (e e' : ConstantPoolCacheEntry) (code : Nat)
    (h : set_bytecode_1_checked e code = some e') :
    e' = set_bytecode_1 e code ∧
    (bytecode_1 e ≠ 0 → bytecode_1 e' = bytecode_1 e) ∧
    bytecode_2 e' = bytecode_2 e := by
  unfold set_bytecode_1_checked at h
  dsimp only at h
  split at h
  · rename_i hc
    simp only [Option.some.injEq] at h
    subst h
    refine ⟨rfl, ?_, bytecode_2_set_bytecode_1 e code⟩
    intro hne
    rw [bytecode_1_set_bytecode_1]
    rcases hc with hc | hc | hc
    · exact absurd hc hne
    · rw [← hc, Bits.mod_byte (bytecode_1_lt e), Nat.or_self]
    · rw [hc, Nat.zero_mod, Nat.or_zero]
  · exact absurd h (by simp)

theorem set_bytecode_2_checked_some (e e' : ConstantPoolCacheEntry) (code : Nat)
    (h : set_bytecode_2_checked e code = some e') :
    e' = set_bytecode_2 e code ∧
    bytecode_1 e' = bytecode_1 e ∧
    (bytecode_2 e ≠ 0 → bytecode_2 e' = bytecode_2 e) := by
  unfold set_bytecode_2_checked at h
  dsimp only at h
  split at h
  · rename_i hc
    simp only [Option.some.injEq] at h
    subst h
    refine ⟨rfl, bytecode_1_set_bytecode_2 e code, ?_⟩
    intro hne
    rw [bytecode_2_set_bytecode_2]
    rcases hc with hc | hc | hc
    · exact absurd hc hne
    · rw [← hc, Bits.mod_byte (bytecode_2_lt e), Nat.or_self]
    · rw [hc, Nat.zero_mod, Nat.or_zero]
  · exact absurd h (by simp)

theorem set_field_checked_some (H : Header) (e e' : ConstantPoolCacheEntry)
    (g p : Nat) (h : Ptr) (fi : Nat) (fo : Int) (ft : Nat) (fin vol : Bool)
    (hr : set_field_checked H e g p h fi fo ft fin vol = some e') :
    e' = set_field H e g p h fi fo ft fin vol ∧
    (bytecode_1 e ≠ 0 → bytecode_1 e' = bytecode_1 e) ∧
    (bytecode_2 e ≠ 0 → bytecode_2 e' = bytecode_2 e) := by
  unfold set_field_checked at hr
  dsimp only at hr
  split at hr
  · exact absurd hr (by simp)
  · rename_i e4 h4
    obtain ⟨he4, h41, h42⟩ := set_bytecode_1_checked_some _ _ _ h4
    obtain ⟨he', h51, h52⟩ := set_bytecode_2_checked_some _ _ _ hr
    have hi : bytecode_1 (set_field_flags H (set_f2 (set_f1 e h) fo) ft
        (((if vol then 1 else 0) <<< H.is_volatile_shift) |||
          ((if fin then 1 else 0) <<< H.is_final_shift)) fi) = bytecode_1 e ∧
        bytecode_2 (set_field_flags H (set_f2 (set_f1 e h) fo) ft
        (((if vol then 1 else 0) <<< H.is_volatile_shift) |||
          ((if fin then 1 else 0) <<< H.is_final_shift)) fi) = bytecode_2 e :=
      (indices_accessors_congr (by simp [set_f1, set_f2])).2
    refine ⟨?_, ?_, ?_⟩
    · rw [he', he4]; rfl
    · intro hne
      rw [h51, h41 (by rw [hi.1]; exact hne), hi.1]
    · intro hne
      have : bytecode_2 e4 = bytecode_2 e := by rw [h42, hi.2]
      rw [h52 (by rw [this]; exact hne), this]

theorem set_interface_call_checked_some (H : Header)
    (e e' : ConstantPoolCacheEntry) (m : Method) (i : Int)
    (hr : set_interface_call_checked H e m i = some e') :
    e' = set_interface_call H e m i ∧
    (bytecode_1 e ≠ 0 → bytecode_1 e' = bytecode_1 e) ∧
    (bytecode_2 e ≠ 0 → bytecode_2 e' = bytecode_2 e) := by
  unfold set_interface_call_checked at hr
  dsimp only at hr
  obtain ⟨he', h1, h2⟩ := set_bytecode_1_checked_some _ _ _ hr
  have hi : bytecode_1 (set_method_flags H (set_f2 (set_f1 e m.method_holder) i)
        m.result_tos 0 m.size_of_parameters) = bytecode_1 e ∧
      bytecode_2 (set_method_flags H (set_f2 (set_f1 e m.method_holder) i)
        m.result_tos 0 m.size_of_parameters) = bytecode_2 e :=
    (indices_accessors_congr (by simp [set_f1, set_f2])).2
  refine ⟨?_, ?_, ?_⟩
  · rw [he']; rfl
  · intro hne
    rw [h1 (by rw [hi.1]; exact hne), hi.1]
  · intro _
    rw [h2, hi.2]

theorem set_method_checked_some (H : Header) (e e' : ConstantPoolCacheEntry)
    (code : Nat) (m : Method) (v : Int)
    (hr : set_method_checked H e code m v = some e') :
    set_method H e code m v = some e' ∧
    (bytecode_1 e ≠ 0 → bytecode_1 e' = bytecode_1 e) ∧
    (bytecode_2 e ≠ 0 → bytecode_2 e' = bytecode_2 e) := by
  unfold set_method_checked at hr
  unfold set_method
  split at hr
  · rename_i hc
    rw [if_pos hc]
    dsimp only at hr ⊢
    generalize hE : (if m.can_be_statically_bound = true then
        set_f2_as_vfinal_method
          (set_method_flags H e m.result_tos
            (1 <<< H.is_vfinal_shift |||
                (if m.is_final_method = true then 1 else 0) <<< H.is_final_shift |||
              (if decide (code = Bytecodes._invokeinterface) = true then 1 else 0) <<<
                H.is_forced_virtual_shift)
            m.size_of_parameters)
          m.addr
      else
        set_f2
          (set_method_flags H e m.result_tos
            ((if decide (code = Bytecodes._invokeinterface) = true then 1 else 0) <<<
              H.is_forced_virtual_shift)
            m.size_of_parameters)
          v) = E at hr ⊢
    have hi : bytecode_1 E = bytecode_1 e ∧ bytecode_2 E = bytecode_2 e := by
      refine (indices_accessors_congr ?_).2
      rw [← hE]
      split <;> simp [set_f2_as_vfinal_method, set_f2]
    split at hr
    · exact absurd hr (by simp)
    · rename_i e1 h1
      obtain ⟨he', h21, h22⟩ := set_bytecode_2_checked_some _ _ _ hr
      by_cases hcv : decide (code = Bytecodes._invokeinterface) = true
      · by_cases hp : m.is_public = true
        · simp only [hcv, hp, if_true] at h1 ⊢
          obtain ⟨he1, h11, h12⟩ := set_bytecode_1_checked_some _ _ _ h1
          refine ⟨?_, ?_, ?_⟩
          · rw [he', he1]
          · intro hne
            rw [h21, h11 (by rw [hi.1]; exact hne), hi.1]
          · intro hne
            have : bytecode_2 e1 = bytecode_2 e := by rw [h12, hi.2]
            rw [h22 (by rw [this]; exact hne), this]
        · simp only [hcv, hp, if_true, if_false, Bool.false_eq_true, Option.some.injEq] at h1 ⊢
          subst h1
          refine ⟨?_, ?_, ?_⟩
          · rw [he']
          · intro _
            rw [h21, hi.1]
          · intro hne
            rw [h22 (by rw [hi.2]; exact hne), hi.2]
      · simp only [hcv, if_false, Bool.false_eq_true, Option.some.injEq] at h1 ⊢
        subst h1
        refine ⟨?_, ?_, ?_⟩
        · rw [he']
        · intro _
          rw [h21, hi.1]
        · intro hne
          rw [h22 (by rw [hi.2]; exact hne), hi.2]
  · rename_i hc
    rw [if_neg hc]
    split at hr
    · rename_i hc2
      rw [if_pos hc2]
      dsimp only at hr ⊢
      obtain ⟨he', h1, h2⟩ := set_bytecode_1_checked_some _ _ _ hr
      have hi : ∀ ob, bytecode_1 (set_f1 (set_method_flags H e m.result_tos ob
            m.size_of_parameters) m.addr) = bytecode_1 e ∧
          bytecode_2 (set_f1 (set_method_flags H e m.result_tos ob
            m.size_of_parameters) m.addr) = bytecode_2 e :=
        fun ob => (indices_accessors_congr (by simp [set_f1])).2
      refine ⟨?_, ?_, ?_⟩
      · rw [he']
      · intro hne
        rw [h1 (by rw [(hi _).1]; exact hne), (hi _).1]
      · intro _
        rw [h2, (hi _).2]
    · exact absurd hr (by simp)

theorem set_method_handle_common_checked_some (H : Header)
    (e : ConstantPoolCacheEntry) (code : Nat) (a : Method) (ap : Ptr)
    (refs : objArray) (st' : ConstantPoolCacheEntry × objArray)
    (hr : set_method_handle_common_checked H e code a ap refs = some st') :
    set_method_handle_common H e code a ap refs = some st' ∧
    (bytecode_1 e ≠ 0 → bytecode_1 st'.1 = bytecode_1 e) ∧
    (bytecode_2 e ≠ 0 → bytecode_2 st'.1 = bytecode_2 e) := by
  unfold set_method_handle_common_checked at hr
  unfold set_method_handle_common
  split at hr
  · rename_i hf
    rw [if_pos hf]
    simp only [Option.some.injEq] at hr
    subst hr
    exact ⟨rfl, fun _ => rfl, fun _ => rfl⟩
  · rename_i hf
    rw [if_neg hf]
    dsimp only at hr ⊢
    split at hr
    · exact absurd hr (by simp)
    · rename_i refs1 hst
      split at hr
      · exact absurd hr (by simp)
      · rename_i e3 h3
        simp only [Option.some.injEq] at hr
        subst hr
        obtain ⟨he3, h1, h2⟩ := set_bytecode_1_checked_some _ _ _ h3
        have hi : ∀ ob, bytecode_1 (release_set_f1 (set_method_flags H e
              a.result_tos ob a.size_of_parameters) a.addr) = bytecode_1 e ∧
            bytecode_2 (release_set_f1 (set_method_flags H e
              a.result_tos ob a.size_of_parameters) a.addr) = bytecode_2 e :=
          fun ob => (indices_accessors_congr (by simp [release_set_f1])).2
        refine ⟨?_, ?_, ?_⟩
        · rw [he3]
        · intro hne
          exact (h1 (by rw [(hi _).1]; exact hne)).trans (hi _).1
        · intro _
          exact h2.trans (hi _).2

theorem Call.run_checked_some (H : Header) (c : Call)
    (st st' : ConstantPoolCacheEntry × objArray)
    (h : Call.run_checked H c st = some st') :
    Call.run H c st = some st' ∧
    (bytecode_1 st.1 ≠ 0 → bytecode_1 st'.1 = bytecode_1 st.1) ∧
    (bytecode_2 st.1 ≠ 0 → bytecode_2 st'.1 = bytecode_2 st.1) := by
  cases c with
  | set_bytecode_1 code =>
    simp only [Call.run_checked, Option.map_eq_some'] at h
    obtain ⟨e', he', rfl⟩ := h
    obtain ⟨h0, h1, h2⟩ := set_bytecode_1_checked_some _ _ _ he'
    exact ⟨by simp only [Call.run, h0], h1, fun _ => h2⟩
  | set_bytecode_2 code =>
    simp only [Call.run_checked, Option.map_eq_some'] at h
    obtain ⟨e', he', rfl⟩ := h
    obtain ⟨h0, h1, h2⟩ := set_bytecode_2_checked_some _ _ _ he'
    exact ⟨by simp only [Call.run, h0], fun _ => h1, h2⟩
  | set_field g p fh fi fo ft fin vol =>
    simp only [Call.run_checked, Option.map_eq_some'] at h
    obtain ⟨e', he', rfl⟩ := h
    obtain ⟨h0, h1, h2⟩ := set_field_checked_some _ _ _ _ _ _ _ _ _ _ _ he'
    exact ⟨by simp only [Call.run, h0], h1, h2⟩
  | set_method code m v =>
    simp only [Call.run_checked, Option.map_eq_some'] at h
    obtain ⟨e', he', rfl⟩ := h
    obtain ⟨h0, h1, h2⟩ := set_method_checked_some _ _ _ _ _ _ he'
    exact ⟨by simp only [Call.run, h0, Option.map_some'], h1, h2⟩
  | set_interface_call m i =>
    simp only [Call.run_checked, Option.map_eq_some'] at h
    obtain ⟨e', he', rfl⟩ := h
    obtain ⟨h0, h1, h2⟩ := set_interface_call_checked_some _ _ _ _ _ he'
    exact ⟨by simp only [Call.run, h0], h1, h2⟩
  | set_method_handle_common code a ap =>
    simp only [Call.run_checked] at h
    obtain ⟨h0, h1, h2⟩ := set_method_handle_common_checked_some _ _ _ _ _ _ _ h
    exact ⟨by simp only [Call.run, h0], h1, h2⟩
  | set_parameter_size v =>
    simp only [Call.run_checked, Option.map_eq_some'] at h
    obtain ⟨e', he', rfl⟩ := h
    have hi : e'._indices = st.1._indices := by
      unfold ConstantPoolCacheEntry.set_parameter_size at he'
      dsimp only at he'
      split at he'
      all_goals
        split at he'
        · simp only [Option.some.injEq] at he'
          subst he'
          rfl
        · exact absurd he' (by simp)
    exact ⟨by simp only [Call.run, he', Option.map_some'],
      fun _ => (indices_accessors_congr hi).2.1,
      fun _ => (indices_accessors_congr hi).2.2⟩
  | adjust_method_entry o n =>
    simp only [Call.run_checked, Option.some.injEq] at h
    subst h
    have hi : (ConstantPoolCacheEntry.adjust_method_entry H st.1 o n).2._indices
        = st.1._indices := by
      unfold ConstantPoolCacheEntry.adjust_method_entry
      split
      · split <;> rfl
      · split
        · rfl
        · split <;> rfl
    exact ⟨rfl, fun _ => (indices_accessors_congr hi).2.1,
      fun _ => (indices_accessors_congr hi).2.2⟩

theorem Call.runAll_checked_some (H : Header) (cs : List Call) :
    ∀ (st st' : ConstantPoolCacheEntry × objArray),
      Call.runAll_checked H cs st = some st' →
      Call.runAll H cs st = some st' ∧
      (bytecode_1 st.1 ≠ 0 → bytecode_1 st'.1 = bytecode_1 st.1) ∧
      (bytecode_2 st.1 ≠ 0 → bytecode_2 st'.1 = bytecode_2 st.1) := by
  induction cs with
  | nil =>
    intro st st' h
    simp only [Call.runAll_checked, Option.some.injEq] at h
    subst h
    exact ⟨rfl, fun _ => rfl, fun _ => rfl⟩
  | cons c cs ih =>
    intro st st' h
    unfold Call.runAll_checked at h
    cases hc : Call.run_checked H c st with
    | none => rw [hc] at h; exact absurd h (by simp)
    | some st1 =>
      rw [hc] at h
      obtain ⟨h0, h1, h2⟩ := Call.run_checked_some H c st st1 hc
      obtain ⟨k0, k1, k2⟩ := ih st1 st' h
      refine ⟨?_, ?_, ?_⟩
      · simp only [Call.runAll, h0, k0]
      · intro hne
        have := h1 hne
        rw [k1 (by rw [this]; exact hne), this]
      · intro hne
        have := h2 hne
        rw [k2 (by rw [this]; exact hne), this]

/-- A checked store of a code below 256 that completes completes again with
the same entry. -/
theorem set_bytecode_1_checked_again (e e1 : ConstantPoolCacheEntry) (code : Nat)
    (hc : code < 256) (h : set_bytecode_1_checked e code = some e1) :
    set_bytecode_1_checked e1 code = some e1 := by
  have he1 := (set_bytecode_1_checked_some e e1 code h).1
  have hb : bytecode_1 e1 = 0 ∨ bytecode_1 e1 = code ∨ code = 0 := by
    unfold set_bytecode_1_checked at h
    dsimp only at h
    split at h
    · rename_i ha
      rw [he1, bytecode_1_set_bytecode_1, Bits.mod_byte hc]
      rcases ha with ha | ha | ha
      · rw [ha, Nat.zero_or]; exact Or.inr (Or.inl rfl)
      · rw [ha, Nat.or_self]; exact Or.inr (Or.inl rfl)
      · exact Or.inr (Or.inr ha)
    · exact absurd h (by simp)
  unfold set_bytecode_1_checked
  dsimp only
  rw [if_pos hb, he1]
  simp only [set_bytecode_1, or_idem_right]

theorem set_bytecode_2_checked_again (e e1 : ConstantPoolCacheEntry) (code : Nat)
    (hc : code < 256) (h : set_bytecode_2_checked e code = some e1) :
    set_bytecode_2_checked e1 code = some e1 := by
  have he1 := (set_bytecode_2_checked_some e e1 code h).1
  have hb : bytecode_2 e1 = 0 ∨ bytecode_2 e1 = code ∨ code = 0 := by
    unfold set_bytecode_2_checked at h
    dsimp only at h
    split at h
    · rename_i ha
      rw [he1, bytecode_2_set_bytecode_2, Bits.mod_byte hc]
      rcases ha with ha | ha | ha
      · rw [ha, Nat.zero_or]; exact Or.inr (Or.inl rfl)
      · rw [ha, Nat.or_self]; exact Or.inr (Or.inl rfl)
      · exact Or.inr (Or.inr ha)
    · exact absurd h (by simp)
  unfold set_bytecode_2_checked
  dsimp only
  rw [if_pos hb, he1]
  simp only [set_bytecode_2, or_idem_right]

/-- A checked run of a sequence passes through the state after each of its
initial parts. -/
theorem Call.runAll_checked_append (H : Header) (cs1 cs2 : List Call) :
    ∀ (st st2 : ConstantPoolCacheEntry × objArray),
      Call.runAll_checked H (cs1 ++ cs2) st = some st2 →
      ∃ st1, Call.runAll_checked H cs1 st = some st1 ∧
        Call.runAll_checked H cs2 st1 = some st2 := by
  induction cs1 with
  | nil =>
    intro st st2 h
    exact ⟨st, rfl, h⟩
  | cons c cs ih =>
    intro st st2 h
    rw [List.cons_append] at h
    unfold Call.runAll_checked at h
    cases hc : Call.run_checked H c st with
    | none => rw [hc] at h; exact absurd h (by simp)
    | some st0 =>
      rw [hc] at h
      obtain ⟨st1, h1, h2⟩ := ih st0 st2 h
      refine ⟨st1, ?_, h2⟩
      simp only [Call.runAll_checked, hc, h1]

/-- On an entry whose bytecodes are zero the assertions of the bytecode
stores of one call hold: a call that completes without the check completes
with it. -/
theorem Call.run_checked_of_zero (H : Header) (c : Call)
    (st st' : ConstantPoolCacheEntry × objArray)
    (h1 : bytecode_1 st.1 = 0) (h2 : bytecode_2 st.1 = 0)
    (h : Call.run H c st = some st') : Call.run_checked H c st = some st' := by
  cases c with
  | set_bytecode_1 code =>
    simp only [Call.run, Option.some.injEq] at h
    subst h
    simp [Call.run_checked, set_bytecode_1_checked, h1]
  | set_bytecode_2 code =>
    simp only [Call.run, Option.some.injEq] at h
    subst h
    simp [Call.run_checked, set_bytecode_2_checked, h2]
  | set_field g p fh fi fo ft fin vol =>
    simp only [Call.run, Option.some.injEq] at h
    subst h
    simp [Call.run_checked, set_field_checked, ConstantPoolCacheEntry.set_field,
      set_bytecode_1_checked,
      set_bytecode_2_checked, h1, h2]
  | set_method code m v =>
    simp only [Call.run, Option.map_eq_some'] at h
    obtain ⟨e', he', rfl⟩ := h
    simp only [Call.run_checked, Option.map_eq_some']
    refine ⟨e', ?_, rfl⟩
    rw [← he']
    unfold set_method_checked ConstantPoolCacheEntry.set_method
    cases hsb : m.can_be_statically_bound <;>
      cases hcv : decide (code = Bytecodes._invokeinterface) <;>
      cases hpub : m.is_public <;>
      simp [set_bytecode_1_checked, set_bytecode_2_checked, h1, h2]
  | set_interface_call m i =>
    simp only [Call.run, Option.some.injEq] at h
    subst h
    simp [Call.run_checked, set_interface_call_checked,
      ConstantPoolCacheEntry.set_interface_call,
      set_bytecode_1_checked, h1]
  | set_method_handle_common code a ap =>
    simp only [Call.run] at h
    simp only [Call.run_checked]
    rw [← h]
    unfold set_method_handle_common_checked
      ConstantPoolCacheEntry.set_method_handle_common
    split
    · rfl
    · dsimp only
      split
      · rfl
      · simp [set_bytecode_1_checked, h1]
  | set_parameter_size v => exact h
  | adjust_method_entry o n => exact h

/-- The update that the assertion excludes: on the entry initialised with
index 42, `set_field` with `getfield` makes `bytecode_1` 180; a following
`set_method` with `invokestatic` (184) does not complete when the assertion
is checked, and without the check it ORs the codes to 188. -/
theorem inconsistent_update_stops :
    Call.runAll_checked Header.sample
      [Call.set_field Bytecodes._getfield Bytecodes._putfield 1000 5 16 3 true
        false,
       Call.set_method Bytecodes._invokestatic Method.sample (-1)]
      (initialize_entry zero 42, []) = none ∧
    (Call.runAll Header.sample
      [Call.set_field Bytecodes._getfield Bytecodes._putfield 1000 5 16 3 true
        false,
       Call.set_method Bytecodes._invokestatic Method.sample (-1)]
      (initialize_entry zero 42, [])).map (fun st => bytecode_1 st.1)
      = some 188 := by
  decide

/-- C22: on an entry whose `bytecode_2` is zero and whose `bytecode_1` is
zero or whose `_f1` is null, `method_if_resolved` returns `NULL` for every
constant pool, whatever `_f2` and the flags hold; and `appendix_if_resolved`
returns `NULL` whenever `_f1` is null or `has_appendix` is clear. -/
theorem unresolved_reads (H : Header) (U : Universe)
    (e : ConstantPoolCacheEntry) :
    (bytecode_2 e = 0 → (bytecode_1 e = 0 ∨ e._f1 = 0) →
      ∀ cpool : ConstantPool, method_if_resolved H U cpool e = 0) ∧
    ((e._f1 = 0 ∨ has_appendix H e = false) →
      ∀ cpool : ConstantPool, appendix_if_resolved H cpool e = some 0) := by
  constructor
  · intro h2 h1 cpool
    have h1' : bytecode_1 e = 0 ∨ e._f1 = 0 ∨
        (bytecode_1 e ≠ Bytecodes._invokeinterface ∧
         bytecode_1 e ≠ Bytecodes._invokestatic ∧
         bytecode_1 e ≠ Bytecodes._invokespecial ∧
         bytecode_1 e ≠ H._invokehandle ∧
         bytecode_1 e ≠ Bytecodes._invokedynamic) := by
      rcases h1 with h | h
      · exact Or.inl h
      · exact Or.inr (Or.inl h)
    rw [method_if_resolved_second H U cpool e h1', h2]
    simp [Bytecodes._invokevirtual]
  · intro h cpool
    unfold appendix_if_resolved
    rcases h with h | h
    · simp [is_f1_null, h]
    · simp [h]

/-- Witness of C22: an entry with a non-null `_f1`, a non-zero `_f2`, the
appendix and vfinal flags set and both bytecodes zero; and an entry with
`bytecode_1 = invokestatic` and a null `_f1`. -/
theorem unresolved_reads_witness :
    (bytecode_2 (⟨42, 6000, 77, 2 ^ 24 + 2 ^ 21⟩ : ConstantPoolCacheEntry) = 0 ∧
      bytecode_1 (⟨42, 6000, 77, 2 ^ 24 + 2 ^ 21⟩ : ConstantPoolCacheEntry) = 0 ∧
      ∀ cpool : ConstantPool,
        method_if_resolved Header.sample Universe.sample cpool
          ⟨42, 6000, 77, 2 ^ 24 + 2 ^ 21⟩ = 0) ∧
    ((⟨42 + 184 * 2 ^ 16, 0, 77, 2 ^ 24⟩ : ConstantPoolCacheEntry)._f1 = 0 ∧
      bytecode_2 (⟨42 + 184 * 2 ^ 16, 0, 77, 2 ^ 24⟩ : ConstantPoolCacheEntry)
        = 0 ∧
      (∀ cpool : ConstantPool,
        method_if_resolved Header.sample Universe.sample cpool
          ⟨42 + 184 * 2 ^ 16, 0, 77, 2 ^ 24⟩ = 0) ∧
      ∀ cpool : ConstantPool,
        appendix_if_resolved Header.sample cpool
          ⟨42 + 184 * 2 ^ 16, 0, 77, 2 ^ 24⟩ = some 0) :=
  ⟨⟨by decide, by decide,
      (unresolved_reads Header.sample Universe.sample
        ⟨42, 6000, 77, 2 ^ 24 + 2 ^ 21⟩).1 (by decide) (Or.inl (by decide))⟩,
    by decide, by decide,
    (unresolved_reads Header.sample Universe.sample
      ⟨42 + 184 * 2 ^ 16, 0, 77, 2 ^ 24⟩).1 (by decide) (Or.inr (by decide)),
    (unresolved_reads Header.sample Universe.sample
      ⟨42 + 184 * 2 ^ 16, 0, 77, 2 ^ 24⟩).2 (Or.inl (by decide))⟩

end ConstantPoolCacheEntry

/-! ## The bulk initialisation of the cache -/

namespace ConstantPoolCache
open ConstantPoolCacheEntry

/-- The first loop writes the pattern of `inverse_index_map[i]` into the
`_indices` of entry `i` and nothing else. -/
theorem initialize_entries_spec (inverse_index_map : List Int) :
    ∀ (cache : List ConstantPoolCacheEntry) (i0 : Nat),
      i0 + cache.length ≤ inverse_index_map.length →
      ∃ cache', initialize_entries inverse_index_map i0 cache = some cache' ∧
        cache'.length = cache.length ∧
        ∀ j e, cache[j]? = some e →
          ∃ x, inverse_index_map[i0 + j]? = some x ∧
            cache'[j]? = some (initialize_entry e (int_bits x)) := by
  intro cache
  induction cache with
  | nil =>
    intro i0 _
    exact ⟨[], rfl, rfl, by intro j e h; simp at h⟩
  | cons e0 es ih =>
    intro i0 hlen
    simp only [List.length_cons] at hlen
    have hi0 : i0 < inverse_index_map.length := by omega
    obtain ⟨es', hes', hl, hspec⟩ := ih (i0 + 1) (by omega)
    refine ⟨initialize_entry e0 (int_bits inverse_index_map[i0]) :: es', ?_, ?_, ?_⟩
    · simp only [initialize_entries, List.get?_eq_getElem?,
        List.getElem?_eq_getElem hi0, hes']
    · simp [hl]
    · intro j e hj
      cases j with
      | zero =>
        simp only [List.getElem?_cons_zero, Option.some.injEq] at hj
        subst hj
        exact ⟨_, List.getElem?_eq_getElem hi0, by simp⟩
      | succ j =>
        simp only [List.getElem?_cons_succ] at hj
        obtain ⟨x, hx, hc⟩ := hspec j e hj
        refine ⟨x, ?_, by simpa using hc⟩
        rw [← hx]; congr 1; omega

/-- The second loop writes `_f2` only: the entry that is the value of
exactly one position `k` of the map gets the reference index of that
position, and an entry that is no value of the map keeps its `_f2`. -/
theorem initialize_references_spec :
    ∀ (rest : List Int) (ref0 : Nat) (cache : ConstantPoolCache),
      (∀ x ∈ rest, 0 ≤ x → x.toNat < cache.length) →
      ∃ cache', initialize_references ref0 rest cache = some cache' ∧
        cache'.length = cache.length ∧
        ∀ (i : Nat) (e : ConstantPoolCacheEntry), cache[i]? = some e →
          ∃ e', cache'[i]? = some e' ∧ e'._indices = e._indices ∧
            e'._f1 = e._f1 ∧ e'._flags = e._flags ∧
            ((∀ x ∈ rest, x ≠ (i : Int)) → e'._f2 = e._f2) ∧
            (∀ k, rest[k]? = some (i : Int) →
              (∀ k', rest[k']? = some (i : Int) → k' = k) →
              e'._f2 = ((ref0 + k : Nat) : Int)) := by
  intro rest
  induction rest with
  | nil =>
    intro ref0 cache _
    refine ⟨cache, rfl, rfl, ?_⟩
    intro i e he
    exact ⟨e, he, rfl, rfl, rfl, fun _ => rfl, by intro k hk; simp at hk⟩
  | cons cpci rest ih =>
    intro ref0 cache hb
    have hbrest : ∀ c : ConstantPoolCache, c.length = cache.length →
        ∀ x ∈ rest, 0 ≤ x → x.toNat < c.length := by
      intro c hc x hx h0
      rw [hc]; exact hb x (List.mem_cons_of_mem _ hx) h0
    have hsucc : ∀ (i k : Nat),
        (∀ k', (cpci :: rest)[k']? = some (i : Int) → k' = k + 1) →
        ∀ k', rest[k']? = some (i : Int) → k' = k := by
      intro i k hu k' hk'
      have := hu (k' + 1) (by simpa using hk')
      omega
    by_cases h0 : 0 ≤ cpci
    · have hidx : cpci.toNat < cache.length := hb cpci (List.mem_cons_self _ _) h0
      have hcast : ((cpci.toNat : Nat) : Int) = cpci := Int.toNat_of_nonneg h0
      obtain ⟨cache', hrun, hl, hspec⟩ := ih (ref0 + 1)
        (cache.set cpci.toNat
          (initialize_resolved_reference_index cache[cpci.toNat] ref0))
        (hbrest _ (by simp))
      refine ⟨cache', ?_, by simpa using hl, ?_⟩
      · simp only [initialize_references, h0, if_true, List.get?_eq_getElem?,
          List.getElem?_eq_getElem hidx, hrun]
      · intro i e he
        by_cases hi : i = cpci.toNat
        · subst hi
          have he0 : cache[cpci.toNat] = e := by
            rw [List.getElem?_eq_getElem hidx] at he
            exact Option.some.inj he
          obtain ⟨e', he', h1, h2, h3, h4, h5⟩ := hspec cpci.toNat
            (initialize_resolved_reference_index e ref0)
            (by rw [he0, List.getElem?_set_self hidx])
          refine ⟨e', he', h1, h2, h3, ?_, ?_⟩
          · intro hno
            exact absurd hcast.symm (hno cpci (List.mem_cons_self _ _))
          · intro k hk hu
            have hk0 : k = 0 := (hu 0 (by simp [hcast])).symm
            subst hk0
            have hno : ∀ x ∈ rest, x ≠ ((cpci.toNat : Nat) : Int) := by
              intro x hx hxe
              obtain ⟨k', hk'⟩ := List.mem_iff_getElem?.1 hx
              have := hu (k' + 1) (by simpa [hxe] using hk')
              omega
            rw [h4 hno]
            simp [initialize_resolved_reference_index]
        · have hne : cpci.toNat ≠ i := fun h => hi h.symm
          obtain ⟨e', he', h1, h2, h3, h4, h5⟩ := hspec i e
            (by rw [List.getElem?_set_ne hne]; exact he)
          refine ⟨e', he', h1, h2, h3, ?_, ?_⟩
          · intro hno
            exact h4 (fun x hx => hno x (List.mem_cons_of_mem _ hx))
          · intro k hk hu
            cases k with
            | zero =>
              simp only [List.getElem?_cons_zero, Option.some.injEq] at hk
              exact absurd (by omega : cpci.toNat = i) hne
            | succ k =>
              simp only [List.getElem?_cons_succ] at hk
              rw [h5 k hk (hsucc i k hu)]
              congr 1; omega
    · obtain ⟨cache', hrun, hl, hspec⟩ := ih (ref0 + 1) cache (hbrest _ rfl)
      refine ⟨cache', ?_, hl, ?_⟩
      · simp only [initialize_references, h0, if_false, hrun]
      · intro i e he
        obtain ⟨e', he', h1, h2, h3, h4, h5⟩ := hspec i e he
        refine ⟨e', he', h1, h2, h3, ?_, ?_⟩
        · intro hno
          exact h4 (fun x hx => hno x (List.mem_cons_of_mem _ hx))
        · intro k hk hu
          cases k with
          | zero =>
            simp only [List.getElem?_cons_zero, Option.some.injEq] at hk
            exact absurd (by omega : 0 ≤ cpci) h0
          | succ k =>
            simp only [List.getElem?_cons_succ] at hk
            rw [h5 k hk (hsucc i k hu)]
            congr 1; omega

/-- For positive map values below `0x10000` the stored 32 bits are the
value itself. -/
theorem int_bits_of_small (x : Int) (h0 : 0 < x) (h1 : x < 0x10000) :
    int_bits x < 0x10000 ∧ ((int_bits x : Nat) : Int) = x := by
  have hx : x % 2 ^ 32 = x := Int.emod_eq_of_lt (by omega) (by omega)
  unfold int_bits
  rw [hx]
  constructor
  · omega
  · exact Int.toNat_of_nonneg (by omega)

/-- Claim C23. On a zero-initialised cache of length `n`, with an
`inverse_index_map` of length `n` whose values all lie in `(0, 0x10000)`
and an `invokedynamic_references_map` whose non-negative values are
distinct valid entry indices, `initialize` completes and returns a cache
of length `n` in which entry `i` has `constant_pool_index` equal to
`inverse_index_map[i]`, null `_f1`, zero `_flags` and both bytecodes zero;
the entry named at position `ref` of the `invokedynamic_references_map`
has `_f2 = ref`, and an entry named at no position has `_f2 = 0`. -/
theorem initialize_establishes (n : Nat)
    (inverse_index_map invokedynamic_references_map : List Int)
    (hlen : inverse_index_map.length = n)
    (hinv : ∀ x ∈ inverse_index_map, 0 < x ∧ x < 0x10000)
    (hdyn : ∀ x ∈ invokedynamic_references_map, 0 ≤ x → x < (n : Int))
    (hdist : ∀ (r1 r2 : Nat) (x : Int),
      invokedynamic_references_map[r1]? = some x →
      invokedynamic_references_map[r2]? = some x → 0 ≤ x → r1 = r2) :
    ∃ cache', ( ConstantPoolCache.initialize (List.replicate n zero)
        inverse_index_map invokedynamic_references_map) = some cache' ∧
      cache'.length = n ∧
      ∀ i : Nat, i < n →
        ∃ (e : ConstantPoolCacheEntry) (x : Int),
          cache'[i]? = some e ∧ inverse_index_map[i]? = some x ∧
          ((constant_pool_index e : Nat) : Int) = x ∧
          e._f1 = 0 ∧ e._flags = 0 ∧ bytecode_1 e = 0 ∧ bytecode_2 e = 0 ∧
          (∀ ref : Nat, invokedynamic_references_map[ref]? = some (i : Int) →
            e._f2 = (ref : Int)) ∧
          ((∀ y ∈ invokedynamic_references_map, y ≠ (i : Int)) → e._f2 = 0) := by
  obtain ⟨c1, hrun1, hl1, hspec1⟩ :=
    initialize_entries_spec inverse_index_map (List.replicate n zero) 0
      (by simp [hlen])
  have hl1n : c1.length = n := by simpa using hl1
  obtain ⟨c2, hrun2, hl2, hspec2⟩ :=
    initialize_references_spec invokedynamic_references_map 0 c1
      (by
        intro x hx h0
        have := hdyn x hx h0
        rw [hl1n]; omega)
  refine ⟨c2, ?_, by rw [hl2, hl1n], ?_⟩
  · simp only [ ConstantPoolCache.initialize, hrun1, hrun2]
  · intro i hi
    obtain ⟨x, hx, he1⟩ := hspec1 i zero (List.getElem?_replicate_of_lt hi)
    rw [Nat.zero_add] at hx
    obtain ⟨e, he, hind, hf1, hfl, hkeep, hset⟩ := hspec2 i _ he1
    obtain ⟨hx0, hx1⟩ := hinv x (List.getElem?_mem hx)
    obtain ⟨hsmall, hcast⟩ := int_bits_of_small x hx0 hx1
    obtain ⟨hfresh, hcpi⟩ := initialize_entry_fresh (int_bits x) hsmall
    obtain ⟨hc, hb1, hb2⟩ := indices_accessors_congr hind
    obtain ⟨_, _, _, hb10, hb20⟩ := hfresh
    refine ⟨e, x, he, hx, ?_, ?_, ?_, ?_, ?_, ?_, ?_⟩
    · rw [hc, hcpi]; exact hcast
    · rw [hf1]; rfl
    · rw [hfl]; rfl
    · rw [hb1]; exact hb10
    · rw [hb2]; exact hb20
    · intro ref href
      have := hset ref href
        (fun k' hk' => hdist k' ref (i : Int) hk' href (Int.natCast_nonneg i))
      rw [this]; simp
    · intro hno
      rw [hkeep hno]; rfl

/-- The theorem of claim C23 at a cache of three entries whose third entry
is the invokedynamic entry of reference index 1 and whose first is that of
reference index 2. -/
theorem initialize_establishes_witness :
    ([5, 7, 9] : List Int).length = 3 ∧
    (∀ x ∈ ([5, 7, 9] : List Int), 0 < x ∧ x < 0x10000) ∧
    (∀ x ∈ ([-1, 2, 0] : List Int), 0 ≤ x → x < ((3 : Nat) : Int)) ∧
    ( ConstantPoolCache.initialize (List.replicate 3 zero) [5, 7, 9] [-1, 2, 0])
      = some [⟨5, 0, 2, 0⟩, ⟨7, 0, 0, 0⟩, ⟨9, 0, 1, 0⟩] ∧
    ∃ cache', ( ConstantPoolCache.initialize (List.replicate 3 zero)
        [5, 7, 9] [-1, 2, 0]) = some cache' ∧
      cache'.length = 3 ∧
      ∀ i : Nat, i < 3 →
        ∃ (e : ConstantPoolCacheEntry) (x : Int),
          cache'[i]? = some e ∧ ([5, 7, 9] : List Int)[i]? = some x ∧
          ((constant_pool_index e : Nat) : Int) = x ∧
          e._f1 = 0 ∧ e._flags = 0 ∧ bytecode_1 e = 0 ∧ bytecode_2 e = 0 ∧
          (∀ ref : Nat, ([-1, 2, 0] : List Int)[ref]? = some (i : Int) →
            e._f2 = (ref : Int)) ∧
          ((∀ y ∈ ([-1, 2, 0] : List Int), y ≠ (i : Int)) → e._f2 = 0) :=
  ⟨rfl, by decide, by decide, by decide,
    initialize_establishes 3 [5, 7, 9] [-1, 2, 0] rfl (by decide) (by decide)
      (by
        intro r1 r2 x h1 h2 h0
        rcases r1 with _ | _ | _ | r1 <;> rcases r2 with _ | _ | _ | r2 <;>
          simp at h1 h2 ⊢ <;> omega)⟩

end ConstantPoolCache

/-! ## A reader that runs while a setter stores -/

namespace ConstantPoolCacheEntry

/-- A reader that finds the same entry at every load decodes that entry. -/
theorem method_if_resolved_loads_const (H : Header) (U : Universe)
    (cpool : ConstantPool) (e : ConstantPoolCacheEntry) :
    method_if_resolved_loads H U cpool (fun _ => e) = method_if_resolved H U cpool e :=
  rfl

theorem visible_mem : ∀ (tr : List ConstantPoolCacheEntry) (k : Nat),
    tr ≠ [] → visible tr k ∈ tr
  | [], _, h => absurd rfl h
  | [e], _, _ => by simp [visible]
  | e :: _ :: _, 0, _ => by simp [visible]
  | _ :: e :: es, k + 1, _ => by
    rw [visible]
    exact List.mem_cons_of_mem _ (visible_mem (e :: es) k (by simp))

theorem visible_last : ∀ (tr : List ConstantPoolCacheEntry) (k : Nat)
    (h : tr ≠ []), tr.length ≤ k + 1 → visible tr k = tr.getLast h
  | [], _, h, _ => absurd rfl h
  | [e], _, _, _ => by simp [visible]
  | e :: _ :: _, 0, _, hk => by simp at hk
  | _ :: e :: es, k + 1, _, hk => by
    rw [visible, List.getLast_cons (by simp)]
    exact visible_last (e :: es) k (by simp) (by simpa using hk)

theorem visible_dropLast : ∀ (tr : List ConstantPoolCacheEntry) (k : Nat),
    k + 1 < tr.length → visible tr k ∈ tr.dropLast
  | [], _, hk => by simp at hk
  | [e], _, hk => by simp at hk
  | e :: _ :: _, 0, _ => by simp [visible]
  | _ :: e :: es, k + 1, hk => by
    rw [visible, List.dropLast_cons₂]
    exact List.mem_cons_of_mem _ (visible_dropLast (e :: es) k (by simpa using hk))

/-- From the load that is made after the last store on, a reader finds the
last entry. -/
theorem visible_after (tr : List ConstantPoolCacheEntry) (h : tr ≠ [])
    (t : Nat → Nat) (ht : ∀ i j, i ≤ j → t i ≤ t j) (i0 : Nat)
    (hk : tr.length ≤ t i0 + 1) (i : Nat) (hi : i0 ≤ i) :
    visible tr (t i) = tr.getLast h :=
  visible_last tr (t i) h (Nat.le_trans hk (Nat.succ_le_succ (ht i0 i hi)))

/-- A writer that stores `bytecode_1` last, into an entry whose bytecodes are
zero, and never stores `bytecode_2`: a reader returns `NULL` or the decoding
of the last entry. -/
theorem during_bytecode_1_last (H : Header) (U : Universe) (cpool : ConstantPool)
    (tr : List ConstantPoolCacheEntry) (hne : tr ≠ [])
    (t : Nat → Nat) (ht : ∀ i j, i ≤ j → t i ≤ t j)
    (h1 : ∀ x ∈ tr.dropLast, bytecode_1 x = 0)
    (h2 : ∀ x ∈ tr, bytecode_2 x = 0) :
    method_if_resolved_during H U cpool tr t = 0 ∨
    method_if_resolved_during H U cpool tr t
      = method_if_resolved H U cpool (tr.getLast hne) := by
  by_cases hk : t 0 + 1 < tr.length
  · left
    have hb1 : bytecode_1 (visible tr (t 0)) = 0 := h1 _ (visible_dropLast tr _ hk)
    have hb2 : bytecode_2 (visible tr (t 3)) = 0 := h2 _ (visible_mem tr _ hne)
    simp [method_if_resolved_during, method_if_resolved_loads, hb1, hb2]
  · right
    have hall : (fun i => visible tr (t i)) = fun _ => tr.getLast hne := by
      funext i
      exact visible_after tr hne t ht 0 (by omega) i (Nat.zero_le i)
    unfold method_if_resolved_during
    rw [hall]
    rfl

/-- A writer that stores `bytecode_2` last, into an entry whose `_f1` is null
and stays null: a reader returns `NULL` or the decoding of the last entry. -/
theorem during_bytecode_2_last (H : Header) (U : Universe) (cpool : ConstantPool)
    (tr : List ConstantPoolCacheEntry) (hne : tr ≠ [])
    (t : Nat → Nat) (ht : ∀ i j, i ≤ j → t i ≤ t j)
    (h1 : ∀ x ∈ tr, x._f1 = 0)
    (h2 : ∀ x ∈ tr.dropLast, bytecode_2 x = 0) :
    method_if_resolved_during H U cpool tr t = 0 ∨
    method_if_resolved_during H U cpool tr t
      = method_if_resolved H U cpool (tr.getLast hne) := by
  have hf1 : (visible tr (t 1))._f1 = 0 := h1 _ (visible_mem tr _ hne)
  by_cases hk : t 3 + 1 < tr.length
  · left
    have hb2 : bytecode_2 (visible tr (t 3)) = 0 := h2 _ (visible_dropLast tr _ hk)
    simp [method_if_resolved_during, method_if_resolved_loads, hf1, hb2]
  · right
    have hl : ∀ i, 3 ≤ i → visible tr (t i) = tr.getLast hne :=
      fun i hi => visible_after tr hne t ht 3 (by omega) i hi
    have hlf : (tr.getLast hne)._f1 = 0 := h1 _ (List.getLast_mem hne)
    simp only [method_if_resolved_during, method_if_resolved_loads,
      method_if_resolved, hf1, hlf, hl 3 (le_refl 3), hl 4 (by omega),
      hl 5 (by omega), hl 6 (by omega), hl 7 (by omega), ne_eq,
      not_true_eq_false, if_false, ite_self]

/-- A writer that stores only field codes into the bytecodes of an entry
whose bytecodes are zero: a reader returns `NULL`. -/
theorem during_field_codes (H : Header) (hV : H.Valid) (U : Universe)
    (cpool : ConstantPool) (tr : List ConstantPoolCacheEntry) (hne : tr ≠ [])
    (t : Nat → Nat)
    (h1 : ∀ x ∈ tr, FieldCode (bytecode_1 x))
    (h2 : ∀ x ∈ tr, FieldCode (bytecode_2 x)) :
    method_if_resolved_during H U cpool tr t = 0 := by
  have hih : 202 < H._invokehandle := hV.2.2.2.1
  have hb1 := h1 _ (visible_mem tr (t 0) hne)
  have hb2 := h2 _ (visible_mem tr (t 3) hne)
  unfold FieldCode at hb1 hb2
  simp only [Bytecodes._getstatic, Bytecodes._putstatic, Bytecodes._getfield,
    Bytecodes._putfield] at hb1 hb2
  have hn1 : bytecode_1 (visible tr (t 0)) ≠ Bytecodes._invokeinterface ∧
      bytecode_1 (visible tr (t 0)) ≠ Bytecodes._invokestatic ∧
      bytecode_1 (visible tr (t 0)) ≠ Bytecodes._invokespecial ∧
      bytecode_1 (visible tr (t 0)) ≠ H._invokehandle ∧
      bytecode_1 (visible tr (t 0)) ≠ Bytecodes._invokedynamic := by
    simp only [Bytecodes._invokeinterface, Bytecodes._invokestatic,
      Bytecodes._invokespecial, Bytecodes._invokedynamic]
    omega
  have hn2 : bytecode_2 (visible tr (t 3)) ≠ Bytecodes._invokevirtual := by
    simp only [Bytecodes._invokevirtual]
    omega
  obtain ⟨a1, a2, a3, a4, a5⟩ := hn1
  simp [method_if_resolved_during, method_if_resolved_loads, a1, a2, a3, a4, a5, hn2]

theorem fieldCode_mod {c : Nat} (h : FieldCode c) : FieldCode (c % 256) := by
  have hlt : c < 256 := by
    unfold FieldCode at h
    simp only [Bytecodes._getstatic, Bytecodes._putstatic, Bytecodes._getfield,
      Bytecodes._putfield] at h
    omega
  rw [Bits.mod_byte hlt]; exact h

theorem set_field_during (H : Header) (hV : H.Valid) (U : Universe)
    (cpool : ConstantPool) (e : ConstantPoolCacheEntry)
    (hb1 : bytecode_1 e = 0) (hb2 : bytecode_2 e = 0) (t : Nat → Nat)
    (g p : Nat) (h : Ptr) (fi : Nat) (fo : Int) (ft : Nat) (fin vol : Bool)
    (hg : FieldCode g) (hp : FieldCode p) :
    (set_field_stores H e g p h fi fo ft fin vol).getLast?
      = some (set_field H e g p h fi fo ft fin vol) ∧
    method_if_resolved_during H U cpool
      (set_field_stores H e g p h fi fo ft fin vol) t = 0 := by
  refine ⟨rfl, ?_⟩
  have hz : FieldCode 0 := Or.inl rfl
  apply during_field_codes H hV U cpool _ (by simp [set_field_stores]) t
  · intro x hx
    simp only [set_field_stores, List.mem_cons, List.mem_singleton,
      List.not_mem_nil, or_false] at hx
    rcases hx with rfl | rfl | rfl | rfl | rfl | rfl
    · rw [hb1]; exact hz
    · simp [hb1, hz]
    · simp [hb1, hz]
    · simp [hb1, hz]
    · simp [hb1, fieldCode_mod hg]
    · simp [hb1, fieldCode_mod hg]
  · intro x hx
    simp only [set_field_stores, List.mem_cons, List.mem_singleton,
      List.not_mem_nil, or_false] at hx
    rcases hx with rfl | rfl | rfl | rfl | rfl | rfl
    · rw [hb2]; exact hz
    · simp [hb2, hz]
    · simp [hb2, hz]
    · simp [hb2, hz]
    · simp [hb2, hz]
    · simp [hb2, fieldCode_mod hp]

theorem set_interface_call_during (H : Header) (U : Universe)
    (cpool : ConstantPool) (e : ConstantPoolCacheEntry)
    (hb1 : bytecode_1 e = 0) (hb2 : bytecode_2 e = 0)
    (t : Nat → Nat) (ht : ∀ i j, i ≤ j → t i ≤ t j) (m : Method) (i : Int) :
    (set_interface_call_stores H e m i).getLast?
      = some (set_interface_call H e m i) ∧
    (method_if_resolved_during H U cpool (set_interface_call_stores H e m i) t = 0 ∨
     method_if_resolved_during H U cpool (set_interface_call_stores H e m i) t
      = method_if_resolved H U cpool (set_interface_call H e m i)) := by
  refine ⟨rfl, ?_⟩
  have hne : set_interface_call_stores H e m i ≠ [] := by
    simp [set_interface_call_stores]
  have hlast : (set_interface_call_stores H e m i).getLast hne
      = set_interface_call H e m i := rfl
  rw [← hlast]
  apply during_bytecode_1_last H U cpool _ hne t ht
  · intro x hx
    simp only [set_interface_call_stores, List.dropLast, List.mem_cons,
      List.mem_singleton, List.not_mem_nil, or_false] at hx
    rcases hx with rfl | rfl | rfl | rfl
    · exact hb1
    · simp [hb1]
    · simp [hb1]
    · simp [hb1]
  · intro x hx
    simp only [set_interface_call_stores, List.mem_cons, List.mem_singleton,
      List.not_mem_nil, or_false] at hx
    rcases hx with rfl | rfl | rfl | rfl | rfl
    · exact hb2
    · simp [hb2]
    · simp [hb2]
    · simp [hb2]
    · simp [hb2]

theorem set_method_during (H : Header) (U : Universe)
    (cpool : ConstantPool) (e : ConstantPoolCacheEntry) (hf1 : e._f1 = 0)
    (hb1 : bytecode_1 e = 0) (hb2 : bytecode_2 e = 0)
    (t : Nat → Nat) (ht : ∀ i j, i ≤ j → t i ≤ t j)
    (code : Nat) (m : Method) (v : Int) (e' : ConstantPoolCacheEntry)
    (hr : set_method H e code m v = some e') :
    ∃ stores, set_method_stores H e code m v = some stores ∧
      stores.getLast? = some e' ∧
      (method_if_resolved_during H U cpool stores t = 0 ∨
       method_if_resolved_during H U cpool stores t
        = method_if_resolved H U cpool e') := by
  unfold set_method at hr
  unfold set_method_stores
  split at hr
  · rename_i hc
    rw [if_pos hc]
    simp only [Option.some.injEq] at hr
    subst hr
    cases hsb : m.can_be_statically_bound <;>
      cases hcv : decide (code = Bytecodes._invokeinterface) <;>
      cases hpub : m.is_public
    all_goals
      simp only [Bool.false_eq_true, if_false, if_true, Bool.and_false,
        Bool.and_true, Bool.false_and, Bool.true_and, Option.some.injEq,
        exists_eq_left']
      refine ⟨rfl, ?_⟩
      refine during_bytecode_2_last H U cpool _ (by simp) t ht ?_ ?_
      · intro x hx
        simp only [List.mem_cons, List.mem_singleton, List.not_mem_nil,
          or_false] at hx
        rcases hx with rfl | rfl | rfl | rfl | rfl <;>
          simp [hf1, set_f2, set_f2_as_vfinal_method]
      · intro x hx
        simp only [List.dropLast, List.mem_cons, List.mem_singleton,
          List.not_mem_nil, or_false] at hx
        rcases hx with rfl | rfl | rfl | rfl <;> simp [hb2]
  · rename_i hc
    rw [if_neg hc]
    split at hr
    · rename_i hc2
      rw [if_pos hc2]
      simp only [Option.some.injEq] at hr
      subst hr
      simp only [Option.some.injEq, exists_eq_left']
      refine ⟨rfl, ?_⟩
      refine during_bytecode_1_last H U cpool _ (by simp) t ht ?_ ?_
      · intro x hx
        simp only [List.dropLast, List.mem_cons, List.mem_singleton,
          List.not_mem_nil, or_false] at hx
        rcases hx with rfl | rfl | rfl <;> simp [hb1]
      · intro x hx
        simp only [List.mem_cons, List.mem_singleton, List.not_mem_nil,
          or_false] at hx
        rcases hx with rfl | rfl | rfl | rfl <;> simp [hb2]
    · exact absurd hr (by simp)

theorem set_method_handle_common_during (H : Header) (U : Universe)
    (cpool : ConstantPool) (e : ConstantPoolCacheEntry)
    (hb1 : bytecode_1 e = 0) (hb2 : bytecode_2 e = 0)
    (t : Nat → Nat) (ht : ∀ i j, i ≤ j → t i ≤ t j)
    (code : Nat) (a : Method) (ap : Ptr) (refs : objArray)
    (st' : ConstantPoolCacheEntry × objArray)
    (hr : set_method_handle_common H e code a ap refs = some st') :
    ∃ stores, set_method_handle_common_stores H e code a ap refs = some stores ∧
      stores.getLast? = some st'.1 ∧
      (method_if_resolved_during H U cpool stores t = 0 ∨
       method_if_resolved_during H U cpool stores t
        = method_if_resolved H U cpool st'.1) := by
  unfold set_method_handle_common at hr
  unfold set_method_handle_common_stores
  split at hr
  · rename_i hf
    rw [if_pos hf]
    simp only [Option.some.injEq] at hr
    subst hr
    refine ⟨[e], rfl, rfl, ?_⟩
    refine during_bytecode_1_last H U cpool [e] (by simp) t ht ?_ ?_
    · intro x hx; simp at hx
    · intro x hx
      simp only [List.mem_singleton] at hx
      subst hx; exact hb2
  · rename_i hf
    rw [if_neg hf]
    dsimp only at hr ⊢
    split at hr
    · exact absurd hr (by simp)
    · rename_i refs1 hst
      simp only [Option.some.injEq] at hr
      subst hr
      cases hap : (ap != 0)
      all_goals
        simp only [Bool.false_eq_true, if_false, if_true, Option.some.injEq,
          exists_eq_left']
        refine ⟨rfl, ?_⟩
        refine during_bytecode_1_last H U cpool _ (by simp) t ht ?_ ?_
        · intro x hx
          simp only [List.dropLast, List.mem_cons, List.mem_singleton,
            List.not_mem_nil, or_false] at hx
          rcases hx with rfl | rfl | rfl | rfl <;> simp [hb1]
        · intro x hx
          simp only [List.mem_cons, List.mem_singleton, List.not_mem_nil,
            or_false] at hx
          rcases hx with rfl | rfl | rfl | rfl | rfl <;> simp [hb2]

/-- C6: a writer runs a setter on an entry that is unresolved (both bytecodes
zero, `_f1` null) while a reader runs `method_if_resolved` on the same entry.
The stores of the writer are performed in program order, and load `i` of the
reader is made when `t i` of them have been performed, a number that does not
decrease from one load to the next.  For every such `t`, that is for every
interleaving and for every reader, the reader returns `NULL` (unresolved) or
what `method_if_resolved` returns on the entry that the setter leaves, never
a value decoded from a partly written entry: for `set_field` with field
codes, for `set_method`, for `set_interface_call` and for
`set_method_handle_common` when they complete; and the list of the stores of
each setter ends with the entry that the setter leaves. -/
theorem publication_atomicity (H : Header) (hV : H.Valid) (U : Universe)
    (cpool : ConstantPool) (e : ConstantPoolCacheEntry) (hf1 : e._f1 = 0)
    (hb1 : bytecode_1 e = 0) (hb2 : bytecode_2 e = 0)
    (t : Nat → Nat) (ht : ∀ i j, i ≤ j → t i ≤ t j) :
    (∀ (get_code put_code : Nat) (field_holder : Ptr) (fi : Nat) (fo : Int)
        (ft : Nat) (fin vol : Bool),
      FieldCode get_code → FieldCode put_code →
      (set_field_stores H e get_code put_code field_holder fi fo ft fin vol).getLast?
        = some (set_field H e get_code put_code field_holder fi fo ft fin vol) ∧
      (method_if_resolved_during H U cpool
          (set_field_stores H e get_code put_code field_holder fi fo ft fin vol) t
          = 0 ∨
        method_if_resolved_during H U cpool
          (set_field_stores H e get_code put_code field_holder fi fo ft fin vol) t
          = method_if_resolved H U cpool
            (set_field H e get_code put_code field_holder fi fo ft fin vol))) ∧
    (∀ (invoke_code : Nat) (m : Method) (vtable_index : Int)
        (e' : ConstantPoolCacheEntry),
      set_method H e invoke_code m vtable_index = some e' →
      ∃ stores, set_method_stores H e invoke_code m vtable_index = some stores ∧
        stores.getLast? = some e' ∧
        (method_if_resolved_during H U cpool stores t = 0 ∨
          method_if_resolved_during H U cpool stores t
            = method_if_resolved H U cpool e')) ∧
    (∀ (m : Method) (index : Int),
      (set_interface_call_stores H e m index).getLast?
        = some (set_interface_call H e m index) ∧
      (method_if_resolved_during H U cpool
          (set_interface_call_stores H e m index) t = 0 ∨
        method_if_resolved_during H U cpool
          (set_interface_call_stores H e m index) t
          = method_if_resolved H U cpool (set_interface_call H e m index))) ∧
    (∀ (invoke_code : Nat) (adapter : Method) (appendix : Ptr)
        (refs : objArray) (st' : ConstantPoolCacheEntry × objArray),
      set_method_handle_common H e invoke_code adapter appendix refs = some st' →
      ∃ stores,
        set_method_handle_common_stores H e invoke_code adapter appendix refs
          = some stores ∧
        stores.getLast? = some st'.1 ∧
        (method_if_resolved_during H U cpool stores t = 0 ∨
          method_if_resolved_during H U cpool stores t
            = method_if_resolved H U cpool st'.1)) := by
  refine ⟨?_, ?_, ?_, ?_⟩
  · intro g p h fi fo ft fin vol hg hp
    obtain ⟨h1, h2⟩ :=
      set_field_during H hV U cpool e hb1 hb2 t g p h fi fo ft fin vol hg hp
    exact ⟨h1, Or.inl h2⟩
  · intro code m v e' hr
    exact set_method_during H U cpool e hf1 hb1 hb2 t ht code m v e' hr
  · intro m i
    exact set_interface_call_during H U cpool e hb1 hb2 t ht m i
  · intro code a ap refs st' hr
    exact set_method_handle_common_during H U cpool e hb1 hb2 t ht code a ap
      refs st' hr

/-- Witness of C6: `set_interface_call` of the method of the sample, with
itable index 3, on the fresh entry of index 42.  A reader whose first load is
made after three of the four stores returns `NULL`; a reader whose first
load is made after all four returns the method of the itable. -/
theorem publication_atomicity_witness :
    Header.sample.Valid ∧
    (initialize_entry zero 42)._f1 = 0 ∧
    bytecode_1 (initialize_entry zero 42) = 0 ∧
    bytecode_2 (initialize_entry zero 42) = 0 ∧
    (∀ i j : Nat, i ≤ j → i + 3 ≤ j + 3) ∧
    method_if_resolved_during Header.sample Universe.sample ConstantPool.sample
      (set_interface_call_stores Header.sample (initialize_entry zero 42)
        Method.sample 3) (fun i => i + 3) = 0 ∧
    method_if_resolved_during Header.sample Universe.sample ConstantPool.sample
      (set_interface_call_stores Header.sample (initialize_entry zero 42)
        Method.sample 3) (fun i => i + 4) = 100053 ∧
    method_if_resolved Header.sample Universe.sample ConstantPool.sample
      (set_interface_call Header.sample (initialize_entry zero 42)
        Method.sample 3) = 100053 ∧
    ((set_interface_call_stores Header.sample (initialize_entry zero 42)
        Method.sample 3).getLast?
      = some (set_interface_call Header.sample (initialize_entry zero 42)
        Method.sample 3) ∧
      (method_if_resolved_during Header.sample Universe.sample
          ConstantPool.sample
          (set_interface_call_stores Header.sample (initialize_entry zero 42)
            Method.sample 3) (fun i => i + 3) = 0 ∨
        method_if_resolved_during Header.sample Universe.sample
          ConstantPool.sample
          (set_interface_call_stores Header.sample (initialize_entry zero 42)
            Method.sample 3) (fun i => i + 3)
          = method_if_resolved Header.sample Universe.sample ConstantPool.sample
            (set_interface_call Header.sample (initialize_entry zero 42)
              Method.sample 3))) :=
  ⟨by decide, rfl, by decide, by decide,
    fun _ _ h => Nat.add_le_add_right h 3, by decide, by decide, by decide,
    (publication_atomicity Header.sample (by decide) Universe.sample
      ConstantPool.sample (initialize_entry zero 42) rfl (by decide) (by decide)
      (fun i => i + 3) (fun _ _ h => Nat.add_le_add_right h 3)).2.2.1
      Method.sample 3⟩

end ConstantPoolCacheEntry
